import Mathlib

/-!
Verification of the Kyrandia EMC2 assembler/disassembler pair
(`tools/conversation.py`) and the PAK archive decoder (`tools/package.py`).

The Python modules are shallowly embedded: byte strings become `List Nat`
(each element a byte value 0..255), Python `int` becomes `Nat` or `Int` as
appropriate, fallible code returns `Except String`, and the bit-twiddling on
16-bit words is expressed with explicit `%`, `/` and `*` on `Nat` (for fields
that the source isolates with masks and shifts of constant width the two forms
coincide).  Iterators are materialised into lists; Python dictionaries keep
insertion order, which the embedding models with association lists.
-/

set_option maxRecDepth 10000

deriving instance DecidableEq for Except

namespace Kyra

/-- Byte strings (`bytes` in the source) are lists of byte values. -/
abbrev Bytes := List Nat

/-- `_read_u32be`: big-endian u32 at an offset.  Out-of-range reads in Python
slicing yield a short (or empty) slice; `int.from_bytes` of the short slice is
the value of the bytes that are present, which `List.take`/`List.drop`
reproduce. -/
def bytesToNatBE (l : Bytes) : Nat := l.foldl (fun a b => a * 256 + b) 0

def read_u32be (data : Bytes) (offset : Nat) : Nat :=
  bytesToNatBE ((data.drop offset).take 4)

def read_u16be (data : Bytes) (offset : Nat) : Nat :=
  bytesToNatBE ((data.drop offset).take 2)

/-- `_write_u32be`: `int(x).to_bytes(4, 'big')`, raising `OverflowError` when
the value does not fit. -/
def write_u32be (x : Nat) : Except String Bytes :=
  if x < 4294967296 then
    Except.ok [x / 16777216 % 256, x / 65536 % 256, x / 256 % 256, x % 256]
  else
    Except.error "int too big to convert"

/-- `_write_u16be`: `int(x).to_bytes(2, 'big')`. -/
def write_u16be (x : Nat) : Except String Bytes :=
  if x < 65536 then
    Except.ok [x / 256 % 256, x % 256]
  else
    Except.error "int too big to convert"

/-- `_u16`: range check a u16 value. -/
def u16chk (x : Nat) : Except String Nat :=
  if 0 ≤ x ∧ x ≤ 0xffff then Except.ok x
  else Except.error "Value out of u16 range."

/-- `_u16` on possibly negative Python ints (used where the parser feeds
user-supplied integers through `_u16`). -/
def u16chkInt (x : Int) : Except String Nat :=
  if 0 ≤ x ∧ x ≤ 0xffff then Except.ok x.toNat
  else Except.error "Value out of u16 range."

/-! ## Word codec (§4.2)

`_decode_word` from `decompile`'s body.  The source computes
`flags = (word >> 13) & 0x7`, `instr = (word >> 8) & 0x1F`, `arg = word & 0xFF`
and tests `word & 0x8000`; for these constant-width fields the embedding uses
`/` and `%`, which agree with the shift/mask forms on `Nat`. -/

structure DecodedWord where
  flags : Nat
  instr : Nat
  arg : Nat
  isLong : Bool
  deriving Repr, DecidableEq

/-- `_decode_word(word)`. -/
def decode_word (word : Nat) : DecodedWord :=
  if word / 32768 % 2 = 1 then
    { flags := 4, instr := 0, arg := word % 32768, isLong := true }
  else
    { flags := word / 8192 % 8, instr := word / 256 % 32, arg := word % 256,
      isLong := false }

/-- The compiler's word construction (from the `_Parser.parse_program` backend):
`0x8000 | (arg & 0x7FFF)` when `instr_id == 0 and flags == 4`, otherwise
`((flags & 0x7) << 13) | ((instr_id & 0x1f) << 8) | (arg & 0xff)`.  The three
fields of the non-long form occupy disjoint bit ranges, so the `|`s are sums. -/
def encode_word (instr_id flags arg : Nat) : Nat :=
  if instr_id = 0 ∧ flags = 4 then
    32768 + arg % 32768
  else
    (flags % 8) * 8192 + (instr_id % 32) * 256 + arg % 256

/-! ## Container codec (§4.1)

`_parse_emc2`, `_emit_emc2`, `_emit_chunk`, `_decode_text_block`,
`_encode_text_block`. -/

/-- `_Emc2Form`. -/
structure Emc2Form where
  order : List Nat
  strings : List String
  data : List Nat
  text_present : Bool
  deriving Repr, DecidableEq

def formTag : Bytes := [70, 79, 82, 77]
def emc2Tag : Bytes := [69, 77, 67, 50]
def ordrTag : Bytes := [79, 82, 68, 82]
def textTag : Bytes := [84, 69, 88, 84]
def dataTag : Bytes := [68, 65, 84, 65]

/-- ASCII check used for `str.encode('ascii')` / `bytes.decode('ascii')`. -/
def asciiOk (s : String) : Bool := s.data.all fun c => c.toNat ≤ 127

/-- `bytes.decode('ascii')`. -/
def decodeAscii (b : Bytes) : Except String String :=
  if b.all fun x => x ≤ 127 then
    Except.ok ⟨b.map fun x => Char.ofNat x⟩
  else
    Except.error "ascii codec cannot decode"

/-- `str.encode('ascii')` for a string already known to be ASCII. -/
def encodeAscii (s : String) : Bytes := s.data.map fun c => c.toNat

/-- The offset-table loop of `_decode_text_block`: read big-endian u16 offsets
until the cursor reaches the first offset (the table is terminated implicitly
by its own first entry).  The loop advances the cursor by two bytes per
iteration, so it performs at most `data.length` iterations; the embedding
makes termination structural with a fuel argument that callers instantiate
with `data.length + 1`, which can never be exhausted. -/
def textOffsetsLoop : Nat → Bytes → Nat → List Nat → Except String (List Nat)
  | 0, _, _, _ => Except.error "Internal error: fuel exhausted."
  | fuel + 1, data, i, acc =>
    if i < data.length then
      if i + 2 > data.length then Except.error "TEXT offset table truncated."
      else
        let acc' := acc ++ [read_u16be data i]
        let i' := i + 2
        if acc'.headD 0 ≤ i' then
          if acc'.headD 0 ≠ i' then
            Except.error "TEXT offset table malformed (first offset mismatch)."
          else Except.ok acc'
        else textOffsetsLoop fuel data i' acc'
    else Except.ok acc

/-- Python's `offsets == sorted(offsets)` is exactly pairwise
non-decreasingness of the list. -/
def nondecreasing : List Nat → Bool
  | [] => true
  | [_] => true
  | a :: b :: t => decide (a ≤ b) && nondecreasing (b :: t)

/-- The string-extraction loop of `_decode_text_block`: for each adjacent
offset pair, slice, ASCII-decode, require the NUL terminator
(`s.endswith('\x00')`, i.e. the last character is NUL) and strip it
(`s[:-1]`). -/
def textStringsLoop (data : Bytes) : List (Nat × Nat) → Except String (List String)
  | [] => Except.ok []
  | (a, b) :: rest =>
    let sBytes := (data.drop a).take (b - a)
    if sBytes.all fun x => x ≤ 127 then
      let chars := sBytes.map fun x => Char.ofNat x
      if chars.getLast? = some '\x00' then do
        let t ← textStringsLoop data rest
        Except.ok (String.mk chars.dropLast :: t)
      else Except.error "TEXT string is not NUL-terminated."
    else Except.error "TEXT contains non-ascii bytes."

/-- `_decode_text_block`. -/
def decode_text_block (data : Bytes) : Except String (List String) := do
  let offsets ← textOffsetsLoop (data.length + 1) data 0 []
  if offsets.isEmpty ∧ data.length ≠ 0 then
    Except.error "TEXT offset table missing."
  else
    let offsets := offsets ++ [data.length]
    if ¬ nondecreasing offsets then
      Except.error "TEXT offsets not sorted."
    else
      textStringsLoop data (offsets.zip offsets.tail)

/-- The validation loop at the top of `_encode_text_block`. -/
def checkTextStrings : List String → Except String Unit
  | [] => Except.ok ()
  | s :: rest =>
    if s.data.contains '\x00' then
      Except.error "TEXT strings must not contain NUL."
    else if ¬ asciiOk s then
      Except.error "TEXT strings must be ASCII."
    else checkTextStrings rest

/-- Effectful map over a list in the `Except` monad (Python list
comprehensions whose element expressions may raise). -/
def mapMex (f : α → Except String β) : List α → Except String (List β)
  | [] => Except.ok []
  | x :: t =>
    match f x with
    | Except.error e => Except.error e
    | Except.ok y =>
      match mapMex f t with
      | Except.error e => Except.error e
      | Except.ok ys => Except.ok (y :: ys)

/-- The offset-accumulation loop of `_encode_text_block`: starting from
cursor `2 * n`, record the cursor before each string and advance it by the
encoded length plus the NUL. -/
def textOffsetsFrom (cursor : Nat) : List String → List Nat
  | [] => []
  | s :: rest => cursor :: textOffsetsFrom (cursor + (encodeAscii s).length + 1) rest

/-- `_encode_text_block`. -/
def encode_text_block (strings : List String) : Except String Bytes := do
  checkTextStrings strings
  let offsets := textOffsetsFrom (2 * strings.length) strings
  let offBytes ← mapMex (fun off => do write_u16be (← u16chk off)) offsets
  Except.ok (offBytes.flatten ++ (strings.map fun s => encodeAscii s ++ [0]).flatten)

/-- One step of `_parse_emc2`'s chunk loop state: the `ORDR`/`TEXT`/`DATA`
blocks seen so far (assignment replaces, as in the source). -/
structure ChunkBlocks where
  ordr : Option Bytes
  text : Option Bytes
  data : Option Bytes
  deriving Repr, DecidableEq

/-- The chunk-walk loop of `_parse_emc2`.  The Python loop tracks a byte index
`i` into `payload` and only ever reads at offsets relative to `i`; the
embedding recurses on the remaining suffix `payload[i:]` instead, which is the
same computation.  Each iteration consumes at least eight bytes, so the loop
runs at most `payload.length` times; termination is made structural with a
fuel argument instantiated with `payload.length + 1`, which can never be
exhausted. -/
def chunkWalk : Nat → Bytes → ChunkBlocks → Except String ChunkBlocks
  | 0, _, _ => Except.error "Internal error: fuel exhausted."
  | fuel + 1, rest, bs =>
    if 0 < rest.length then
      if 8 > rest.length then Except.error "Truncated chunk header."
      else
        let name := rest.take 4
        let size := bytesToNatBE ((rest.drop 4).take 4)
        if 8 + size > rest.length then Except.error "Truncated chunk."
        else
          let chunk := (rest.drop 8).take size
          let bs' :=
            if name = ordrTag then { bs with ordr := some chunk }
            else if name = textTag then { bs with text := some chunk }
            else if name = dataTag then { bs with data := some chunk }
            else bs
          if size % 2 = 1 then
            if 8 + size ≥ rest.length ∨ (rest.drop (8 + size)).take 1 ≠ [0] then
              Except.error "Missing pad byte after odd-sized chunk."
            else chunkWalk fuel (rest.drop (8 + size + 1)) bs'
          else chunkWalk fuel (rest.drop (8 + size)) bs'
    else Except.ok bs

/-- Split a byte block into big-endian u16 words
(`int.from_bytes(block[j:j+2], 'big') for j in range(0, len, 2)`). -/
def wordsOfBytes : Bytes → List Nat
  | b0 :: b1 :: rest => (b0 * 256 + b1) :: wordsOfBytes rest
  | [b0] => [b0]
  | [] => []

/-- The tail of `_parse_emc2` after the chunk walk: require `ORDR`/`DATA`,
check their sizes, decode the `TEXT` block when present and build the form. -/
def emc2FromBlocks (bs : ChunkBlocks) : Except String Emc2Form :=
  match bs.ordr, bs.data with
  | some order_block, some data_block =>
    if order_block.length % 2 ≠ 0 then
      Except.error "ORDR size is not a multiple of 2."
    else
      let order := wordsOfBytes order_block
      let text_present := bs.text.isSome
      match (match bs.text with
             | none => Except.ok []
             | some tb => decode_text_block tb) with
      | Except.error e => Except.error e
      | Except.ok strings =>
        if data_block.length % 2 ≠ 0 then
          Except.error "DATA size is not a multiple of 2."
        else
          Except.ok { order := order, strings := strings,
                      data := wordsOfBytes data_block, text_present := text_present }
  | _, _ => Except.error "Missing required ORDR or DATA chunk."

/-- `_parse_emc2`. -/
def parse_emc2 (data : Bytes) : Except String Emc2Form := do
  if data.take 4 ≠ formTag then
    throw "Not an EMC2 FORM file (missing FORM header)."
  let file_len := read_u32be data 4
  if file_len ≠ data.length then
    throw "FORM length mismatch."
  let payload := data.drop 8
  if payload.take 4 ≠ emc2Tag then
    throw "Not an EMC2 FORM file (missing EMC2 tag)."
  let payload := payload.drop 4
  let bs ← chunkWalk (payload.length + 1) payload ⟨none, none, none⟩
  emc2FromBlocks bs

/-- `_emit_chunk`. -/
def emit_chunk (name : Bytes) (d : Bytes) : Except String Bytes := do
  if name.length ≠ 4 then
    throw "Chunk name must be 4 bytes."
  let sz ← write_u32be d.length
  Except.ok (name ++ sz ++ d ++ (if d.length % 2 = 1 then [0] else []))

/-- `_emit_emc2`. -/
def emit_emc2 (form : Emc2Form) : Except String Bytes := do
  let orderBytes ← mapMex (fun x => do write_u16be (← u16chk x)) form.order
  let c1 ← emit_chunk ordrTag orderBytes.flatten
  let textChunks ← if form.text_present then do
      let textBytes ← encode_text_block form.strings
      let c ← emit_chunk textTag textBytes
      Except.ok [c]
    else Except.ok []
  let dataBytes ← mapMex (fun w => do write_u16be (← u16chk w)) form.data
  let c3 ← emit_chunk dataTag dataBytes.flatten
  let payload := emc2Tag ++ (([c1] ++ textChunks ++ [c3]).flatten)
  let total_len := 8 + payload.length
  let lenBytes ← write_u32be total_len
  Except.ok (formTag ++ lenBytes ++ payload)

/-- The two big-endian bytes of a u16 value (the shape produced by
`_write_u16be`). -/
def pairB (x : Nat) : Bytes := [x / 256 % 256, x % 256]

/-- Total byte length of the string region of a TEXT chunk. -/
def strTotal (ss : List String) : Nat :=
  (ss.map fun s => (encodeAscii s).length + 1).sum

/-! ## PAK archive decoder (`tools/package.py`) -/

/-- Little-endian u32 read (`int.from_bytes(data[i:i+4], 'little')`); a short
slice contributes only its present bytes. -/
def bytesToNatLE (l : Bytes) : Nat := l.foldr (fun b a => a * 256 + b) 0

def readU32le (data : Bytes) (i : Nat) : Nat := bytesToNatLE ((data.drop i).take 4)

/-- The four little-endian bytes of a u32 value. -/
def u32leBytes (x : Nat) : Bytes :=
  [x % 256, x / 256 % 256, x / 65536 % 256, x / 16777216 % 256]

/-- `data.find(b'\x00', i)`: index of the first NUL at or after `i`, if any. -/
def findNulFrom (data : Bytes) (i : Nat) : Option Nat :=
  ((data.drop i).findIdx? fun b => b = 0).map fun j => j + i

/-- Python `dict` update: replace in place if the key exists, else append. -/
def pyDictInsert (d : List (String × Bytes)) (k : String) (v : Bytes) :
    List (String × Bytes) :=
  if (d.map Prod.fst).contains k then
    d.map fun p => if p.1 = k then (k, v) else p
  else d ++ [(k, v)]

/-- `dict(zip(names, chunks))`. -/
def pyDict (l : List (String × Bytes)) : List (String × Bytes) :=
  l.foldl (fun d p => pyDictInsert d p.1 p.2) []

/-- The header loop of `package.decode`: read `{u32le offset, NUL-terminated
ASCII name}` records until a zero offset or the end of the buffer.  Failed
`assert`s become errors.  Each iteration advances the cursor by at least
five bytes, so fuel `data.length + 1` can never be exhausted. -/
def pakHeaderLoop : Nat → Bytes → Nat → List Nat → List String →
    Except String (List Nat × List String × Nat)
  | 0, _, _, _, _ => Except.error "Internal error: fuel exhausted."
  | fuel + 1, data, i, offsets, names =>
    if i < data.length then
      if ¬ (i + 4 ≤ data.length) then Except.error "assert i + 4 <= len(data)"
      else
        let offset := readU32le data i
        let i1 := i + 4
        if offset = 0 then Except.ok (offsets, names, i1)
        else
          match findNulFrom data i1 with
          | none => Except.error "assert name_end != -1"
          | some name_end =>
            match decodeAscii ((data.drop i1).take (name_end - i1)) with
            | Except.error e => Except.error e
            | Except.ok name =>
              pakHeaderLoop fuel data (name_end + 1) (offsets ++ [offset])
                (names ++ [name])
    else Except.ok (offsets, names, i)

/-- `package.decode`. -/
def decodePak (data : Bytes) : Except String (List (String × Bytes)) := do
  let (offsets, names, i) ← pakHeaderLoop (data.length + 1) data 0 [] []
  let offsets := offsets ++ [data.length]
  if i ≠ offsets.headD 0 then
    throw "Header size mismatch."
  else if ¬ nondecreasing offsets then
    throw "assert offsets == sorted(offsets)"
  else
    let chunks := (offsets.zip offsets.tail).map fun p =>
      (data.drop p.1).take (p.2 - p.1)
    Except.ok (pyDict (names.zip chunks))

/-- Byte encoding of one claimed PAK header pair: a little-endian u32 offset
followed by a NUL-terminated name. -/
def pakPairEnc (p : Nat × Bytes) : Bytes := u32leBytes p.1 ++ p.2 ++ [0]

/-- The header structure asserted by the claim, transcribed literally: the
byte sequence starts with a run of `{u32le offset, NUL-terminated ASCII
name}` pairs followed by a terminating offset field `t`; termination means
`t = 0`, and the claim also asserts that this terminator's offset field
equals the header's total size in bytes. -/
def pakClaimHeader (b : Bytes) : Prop :=
  ∃ (pairs : List (Nat × Bytes)) (t : Nat),
    (∀ p ∈ pairs, p.1 ≠ 0 ∧ (∀ x ∈ p.2, x ≤ 127) ∧ ¬ (0 : Nat) ∈ p.2) ∧
    ((pairs.map pakPairEnc).flatten ++ u32leBytes t).isPrefixOf b ∧
    t = 0 ∧
    t = ((pairs.map pakPairEnc).flatten ++ u32leBytes t).length

/-- The header structure the decoder actually accepts: pairs terminated by a
zero offset or by the buffer end, with the first recorded offset (the buffer
length when there are no pairs) equal to the header's total size, and all
offsets non-decreasing and bounded by the buffer size. -/
def pakAmendedHeader (b : Bytes) : Prop :=
  ∃ (pairs : List (Nat × Bytes)) (i : Nat),
    (∀ p ∈ pairs, p.1 ≠ 0 ∧ (∀ x ∈ p.2, x ≤ 127) ∧ ¬ (0 : Nat) ∈ p.2) ∧
    (b.take i = (pairs.map pakPairEnc).flatten ++ u32leBytes 0 ∨
      (b.take i = (pairs.map pakPairEnc).flatten ∧ i = b.length)) ∧
    (match pairs with
     | [] => b.length
     | p :: _ => p.1) = i ∧
    nondecreasing (pairs.map Prod.fst ++ [b.length]) = true

/-- A concrete accepted archive: one pair `(offset 10, name "a")`, then the
zero terminator; the 10-byte header is the whole file and the single chunk is
empty. -/
def samplePak : Bytes := [10, 0, 0, 0] ++ [97, 0] ++ [0, 0, 0, 0]

/-- Specification-level chunk decomposition of an `EMC2` payload, mirroring
what the chunk walk consumes: each chunk is a 4-byte name, a 4-byte big-endian
size field, a payload of exactly that size, and a single zero pad byte when
the payload size is odd.  Inputs with a truncated chunk header or payload, or
a missing pad byte, have no decomposition. -/
inductive Chunked : Bytes → List (Bytes × Bytes) → Prop where
  | nil : Chunked [] []
  | cons (name szBytes content rest : Bytes) (cs : List (Bytes × Bytes))
      (hname : name.length = 4) (hsz : szBytes.length = 4)
      (hval : bytesToNatBE szBytes = content.length)
      (hrest : Chunked rest cs) :
      Chunked (name ++ szBytes ++ content ++
        (if content.length % 2 = 1 then [0] else []) ++ rest) ((name, content) :: cs)

/-! ## Number formatting and Python `int(...)` parsing helpers -/

/-- One lowercase hex digit. -/
def hexDigit (n : Nat) : Char :=
  if n < 10 then Char.ofNat (48 + n) else Char.ofNat (87 + n)

/-- Hex digits of `n`, most significant first (empty for zero); the fuel is
structural and `n + 1` always suffices. -/
def natToHexList : Nat → Nat → List Char
  | 0, _ => []
  | fuel + 1, n => if n = 0 then [] else natToHexList fuel (n / 16) ++ [hexDigit (n % 16)]

/-- Python `f'{n:02x}'`: lowercase hex, zero-padded to at least two digits. -/
def fmtHex2 (n : Nat) : String :=
  let ds := if n = 0 then ['0'] else natToHexList (n + 1) n
  ⟨(if ds.length < 2 then List.replicate (2 - ds.length) '0' else []) ++ ds⟩

/-- Python `f'{n:04x}'`: lowercase hex, zero-padded to at least four digits. -/
def fmtHex4 (n : Nat) : String :=
  let ds := if n = 0 then ['0'] else natToHexList (n + 1) n
  ⟨(if ds.length < 4 then List.replicate (4 - ds.length) '0' else []) ++ ds⟩

/-- Python `f'{n:03d}'`: decimal, zero-padded to at least three digits. -/
def fmtDec3 (n : Nat) : String :=
  let ds := (Nat.repr n).data
  ⟨(if ds.length < 3 then List.replicate (3 - ds.length) '0' else []) ++ ds⟩

def isPyWs (c : Char) : Bool := c = ' ' ∨ c = '\t' ∨ c = '\n' ∨ c = '\r' ∨
  c = '\x0b' ∨ c = '\x0c'

/-- `str.strip()` (ASCII whitespace). -/
def pyStrip (cs : List Char) : List Char :=
  ((cs.dropWhile isPyWs).reverse.dropWhile isPyWs).reverse

def isHexDigitPy (c : Char) : Bool :=
  c.isDigit ∨ ('a' ≤ c ∧ c ≤ 'f') ∨ ('A' ≤ c ∧ c ≤ 'F')

def hexVal (c : Char) : Nat :=
  if c.isDigit then c.toNat - 48 else if 'a' ≤ c then c.toNat - 87 else c.toNat - 55

def parseDigitsWith (base : Nat) (isD : Char → Bool) (val : Char → Nat)
    (cs : List Char) : Option Nat :=
  if cs.isEmpty then none
  else if cs.all isD then some (cs.foldl (fun a c => a * base + val c) 0)
  else none

/-- Split an optional sign off a stripped numeral. -/
def pySign : List Char → Bool × List Char
  | '-' :: r => (true, r)
  | '+' :: r => (false, r)
  | r => (false, r)

def signedOfParts (neg : Bool) (n : Nat) : Int :=
  if neg then -(n : Int) else (n : Int)

/-- Python `int(s, 16)`: optional surrounding whitespace, optional sign,
optional `0x`/`0X` prefix, then hex digits (digit grouping underscores are
not modelled; no produced numeral contains them). -/
def pyIntHex (s : String) : Option Int :=
  let cs := pyStrip s.data
  let (neg, cs) := pySign cs
  let cs := match cs with
    | '0' :: x :: rest => if x = 'x' ∨ x = 'X' then rest else '0' :: x :: rest
    | cs => cs
  (parseDigitsWith 16 isHexDigitPy hexVal cs).map (signedOfParts neg)

/-- Python `int(s, 10)`. -/
def pyIntDec (s : String) : Option Int :=
  let cs := pyStrip s.data
  let (neg, cs) := pySign cs
  (parseDigitsWith 10 (fun c => c.isDigit) (fun c => c.toNat - 48) cs).map
    (signedOfParts neg)

/-- Python `int(s, 0)`: like a source literal — `0x`/`0o`/`0b` prefixes, and
a bare decimal numeral may not have leading zeros unless it is all zeros. -/
def pyIntBase0 (s : String) : Option Int :=
  let cs := pyStrip s.data
  let (neg, cs) := pySign cs
  match cs with
  | '0' :: x :: rest =>
    if x = 'x' ∨ x = 'X' then
      (parseDigitsWith 16 isHexDigitPy hexVal rest).map (signedOfParts neg)
    else if x = 'o' ∨ x = 'O' then
      (parseDigitsWith 8 (fun c => '0' ≤ c ∧ c ≤ '7') (fun c => c.toNat - 48) rest).map
        (signedOfParts neg)
    else if x = 'b' ∨ x = 'B' then
      (parseDigitsWith 2 (fun c => c = '0' ∨ c = '1') (fun c => c.toNat - 48) rest).map
        (signedOfParts neg)
    else if ('0' :: x :: rest).all fun c => c = '0' then some 0
    else none
  | cs =>
    if cs.headD ' ' = '0' ∧ ¬ (cs.all fun c => c = '0') then none
    else (parseDigitsWith 10 (fun c => c.isDigit) (fun c => c.toNat - 48) cs).map
      (signedOfParts neg)

/-! ## Kyra source lexer (§4.4, `_Lexer`) and `_quote_string` -/

/-- The per-character escaping of `_quote_string`. -/
def escChar (ch : Char) : List Char :=
  if ch = '\\' then ['\\', '\\']
  else if ch = '\'' then ['\\', '\'']
  else if ch = '\n' then ['\\', 'n']
  else if ch = '\r' then ['\\', 'r']
  else if ch = '\t' then ['\\', 't']
  else if 32 ≤ ch.toNat ∧ ch.toNat ≤ 126 then [ch]
  else '\\' :: 'x' :: (fmtHex2 ch.toNat).data

/-- `_quote_string`. -/
def quote_string (s : String) : String :=
  ⟨'\'' :: (s.data.map escChar).flatten ++ ['\'']⟩

/-- `_Token`. -/
structure Token where
  kind : String
  value : String
  deriving Repr, DecidableEq

/-- The loop body of `_Lexer._read_single_quoted_string`: one source
character (plus its escape suffix when present), with `recur` standing for the
continuation of the loop. -/
def rsqStep (recur : List Char → Except String (List Char × List Char))
    (cs : List Char) : Except String (List Char × List Char) :=
  match cs with
  | [] => Except.error "Unterminated string literal."
  | c :: rest =>
    if c = '\'' then Except.ok ([], rest)
    else if c ≠ '\\' then
      match recur rest with
      | Except.error e => Except.error e
      | Except.ok (out, rem) => Except.ok (c :: out, rem)
    else
      match rest with
      | [] => Except.error "Unterminated escape sequence."
      | esc :: rest2 =>
        if esc = 'n' then
          match recur rest2 with
          | Except.error e => Except.error e
          | Except.ok (out, rem) => Except.ok ('\n' :: out, rem)
        else if esc = 'r' then
          match recur rest2 with
          | Except.error e => Except.error e
          | Except.ok (out, rem) => Except.ok ('\r' :: out, rem)
        else if esc = 't' then
          match recur rest2 with
          | Except.error e => Except.error e
          | Except.ok (out, rem) => Except.ok ('\t' :: out, rem)
        else if esc = '\'' then
          match recur rest2 with
          | Except.error e => Except.error e
          | Except.ok (out, rem) => Except.ok ('\'' :: out, rem)
        else if esc = '\\' then
          match recur rest2 with
          | Except.error e => Except.error e
          | Except.ok (out, rem) => Except.ok ('\\' :: out, rem)
        else if esc = 'x' then
          match rest2 with
          | h1 :: h2 :: rest3 =>
            match pyIntHex ⟨[h1, h2]⟩ with
            | none => Except.error "Invalid x escape."
            | some v =>
              if v < 0 then Except.error "Invalid x escape."
              else
                match recur rest3 with
                | Except.error e => Except.error e
                | Except.ok (out, rem) => Except.ok (Char.ofNat v.toNat :: out, rem)
          | _ => Except.error "Invalid x escape."
        else Except.error "Unknown escape sequence."

/-- `_Lexer._read_single_quoted_string`, past the opening quote: returns the
decoded characters and the remaining input.  One fuel unit is spent per loop
iteration, so `cs.length + 1` always suffices. -/
def readSingleQuoted : Nat → List Char → Except String (List Char × List Char)
  | 0, _ => Except.error "Internal error: fuel exhausted."
  | fuel + 1, cs => rsqStep (readSingleQuoted fuel) cs

/-- Drop the rest of a `#` comment line (cursor lands after the newline). -/
def dropCommentLine : List Char → List Char
  | [] => []
  | c :: rest => if c = '\n' then rest else dropCommentLine rest

/-- `_Lexer._skip_ws_and_comments`; one fuel unit per removed character, so
`cs.length + 1` always suffices. -/
def skipWsComments : Nat → List Char → List Char
  | 0, cs => cs
  | fuel + 1, cs =>
    match cs with
    | [] => []
    | c :: rest =>
      if c = ' ' ∨ c = '\t' ∨ c = '\r' ∨ c = '\n' then skipWsComments fuel rest
      else if c = '#' then skipWsComments fuel (dropCommentLine rest)
      else c :: rest

def isIdentStart (c : Char) : Bool := c.isAlpha ∨ c = '_'

def isIdentChar (c : Char) : Bool := c.isAlphanum ∨ c = '_'

/-- `_Lexer._read_number`. -/
def readNumber (cs : List Char) : List Char × List Char :=
  let (sign, cs1) := match cs with
    | '-' :: r => (['-'], r)
    | r => (([] : List Char), r)
  match cs1 with
  | '0' :: x :: r =>
    if x = 'x' ∨ x = 'X' then
      (sign ++ '0' :: x :: r.takeWhile isHexDigitPy, r.dropWhile isHexDigitPy)
    else
      (sign ++ cs1.takeWhile Char.isDigit, cs1.dropWhile Char.isDigit)
  | _ => (sign ++ cs1.takeWhile Char.isDigit, cs1.dropWhile Char.isDigit)

/-- The token loop of `_Lexer.tokens`, materialised into a list ending in the
`EOF` token.  The Python generator is lazy, but the parser always either
consumes the whole stream (ending on `EOF`) or raises first, so on every
accepted source the eager and lazy views coincide; on rejected sources both
raise (possibly different messages).  One fuel unit is spent per token and
`text.length + 1` always suffices. -/
def lexTokens : Nat → List Char → Except String (List Token)
  | 0, _ => Except.error "Internal error: fuel exhausted."
  | fuel + 1, cs =>
    let cs := skipWsComments (cs.length + 1) cs
    match cs with
    | [] => Except.ok [⟨"EOF", ""⟩]
    | c :: rest =>
      if isIdentStart c then
        let v := (c :: rest).takeWhile isIdentChar
        match lexTokens fuel ((c :: rest).dropWhile isIdentChar) with
        | Except.error e => Except.error e
        | Except.ok ts => Except.ok (⟨"IDENT", ⟨v⟩⟩ :: ts)
      else if c.isDigit ∨ (c = '-' ∧ (rest.headD ' ').isDigit) then
        let (v, rem) := readNumber (c :: rest)
        match lexTokens fuel rem with
        | Except.error e => Except.error e
        | Except.ok ts => Except.ok (⟨"NUMBER", ⟨v⟩⟩ :: ts)
      else if c = '\'' then
        match readSingleQuoted (rest.length + 1) rest with
        | Except.error e => Except.error e
        | Except.ok (out, rem) =>
          match lexTokens fuel rem with
          | Except.error e => Except.error e
          | Except.ok ts => Except.ok (⟨"STRING", ⟨out⟩⟩ :: ts)
      else if c = '[' ∨ c = ']' ∨ c = '(' ∨ c = ')' ∨ c = ',' ∨ c = '=' ∨
          c = '\x7b' ∨ c = '\x7d' then
        match lexTokens fuel rest with
        | Except.error e => Except.error e
        | Except.ok ts => Except.ok (⟨⟨[c]⟩, ⟨[c]⟩⟩ :: ts)
      else if c = ':' then
        match lexTokens fuel rest with
        | Except.error e => Except.error e
        | Except.ok ts => Except.ok (⟨":", ":"⟩ :: ts)
      else Except.error "Unexpected character."

/-! ## Decompiler pass A: executed PCs, ifnot operands, embedded jump targets -/

/-- `_is_push16_at(pc)`. -/
def is_push16_at (data : List Nat) (pc : Nat) : Bool :=
  if data.length ≤ pc + 1 then false
  else
    let d := decode_word (data.getD pc 0)
    !d.isLong && d.instr == 3 && d.flags == 1

/-- The pass-A scan loop of `decompile`: returns the visited (executed) PCs,
the recorded ifnot-operand PCs and the recorded embedded jump targets, in
visit order (the Python code accumulates sets; the PC cursor is strictly
increasing, so the visit-order lists carry the same elements).  One fuel unit
per loop iteration; `data.length + 1` always suffices from PC `0`. -/
def passA : Nat → List Nat → Nat → List Nat × List Nat × List Nat
  | 0, _, _ => ([], [], [])
  | fuel + 1, data, pc =>
    if data.length ≤ pc then ([], [], [])
    else if is_push16_at data pc then
      let r := passA fuel data (pc + 2)
      (pc :: r.1, r.2.1, r.2.2)
    else
      let d := decode_word (data.getD pc 0)
      if d.instr = 15 ∧ d.flags = 1 ∧ pc + 1 < data.length then
        let od := decode_word (data.getD (pc + 1) 0)
        let r := passA fuel data (pc + 2)
        (pc :: r.1, (pc + 1) :: r.2.1,
          if od.isLong ∨ od.instr = 0 then od.arg :: r.2.2 else r.2.2)
      else
        let r := passA fuel data (pc + 1)
        (pc :: r.1, r.2.1, r.2.2)

/-- The two-word test exactly as the claim words it: the word at `p` is a
non-long word with opcode 3 and flags 1, or opcode 15 and flags 1, each with a
following word at `p + 1`. -/
def specTwoWordAt (data : List Nat) (p : Nat) : Bool :=
  let d := decode_word (data.getD p 0)
  !d.isLong && ((d.instr == 3 && d.flags == 1) || (d.instr == 15 && d.flags == 1)) &&
    decide (p + 1 < data.length)

/-- The executed-PC rule exactly as the claim words it: walk from PC 0; an
executed `p` beyond the data is not counted; step by two over a two-word
instruction (skipping the operand PC), else by one; for an opcode-15/flags-1
word record the operand PC, and record its embedded target when the operand
word is a long jump or decodes with opcode 0. -/
def specPassA : Nat → List Nat → Nat → List Nat × List Nat × List Nat
  | 0, _, _ => ([], [], [])
  | fuel + 1, data, p =>
    if data.length ≤ p then ([], [], [])
    else
      let d := decode_word (data.getD p 0)
      if specTwoWordAt data p then
        if d.instr = 15 then
          let od := decode_word (data.getD (p + 1) 0)
          let r := specPassA fuel data (p + 2)
          (p :: r.1, (p + 1) :: r.2.1,
            if od.isLong ∨ od.instr = 0 then od.arg :: r.2.2 else r.2.2)
        else
          let r := specPassA fuel data (p + 2)
          (p :: r.1, r.2.1, r.2.2)
      else
        let r := specPassA fuel data (p + 1)
        (p :: r.1, r.2.1, r.2.2)

/-! ## Final sweep of `decompile`: drop unreferenced synthetic labels -/

/-- Python regex word character (`\\w`), on the ASCII lines at hand. -/
def isWordChar (c : Char) : Bool := c.isAlphanum ∨ c = '_'

/-- The definition-line regex `^(\\t*)label\\s+(label_\\d+)\\s*$` of the final
sweep, returning capture group 2 (the synthetic label name) on a match.  The
regex is deterministic: each greedy repetition is followed by a character it
cannot consume, so no backtracking arises. -/
def isSyntheticDef (line : List Char) : Option (List Char) :=
  let rest := line.dropWhile (fun c => c = '\t')
  if rest.take 5 = ('l' :: 'a' :: 'b' :: 'e' :: 'l' :: []) then
    let rest2 := rest.drop 5
    let ws := rest2.takeWhile isPyWs
    if ws.isEmpty then none
    else
      let rest3 := rest2.drop ws.length
      if rest3.take 6 = ('l' :: 'a' :: 'b' :: 'e' :: 'l' :: '_' :: []) then
        let digits := (rest3.drop 6).takeWhile Char.isDigit
        if digits.isEmpty then none
        else if ((rest3.drop 6).drop digits.length).all isPyWs then
          some (('l' :: 'a' :: 'b' :: 'e' :: 'l' :: '_' :: []) ++ digits)
        else none
      else none
  else none

/-- `re.findall` of the reference regex `\\blabel_\\d+\\b` on one line: scan
left to right, at word-boundary positions try to read `label_` followed by a
maximal non-empty digit run ending at a word boundary, and resume after each
match.  `prev` is the character before the cursor (`none` at the start of the
line); one fuel unit per consumed character, so `line.length + 1` suffices. -/
def refsLoop : Nat → Option Char → List Char → List (List Char)
  | 0, _, _ => []
  | _ + 1, _, [] => []
  | fuel + 1, prev, c :: rest =>
    let boundaryOk := match prev with
      | none => true
      | some p => !isWordChar p
    if boundaryOk && ((c :: rest).take 6 == ('l' :: 'a' :: 'b' :: 'e' :: 'l' :: '_' :: [])) then
      let afterTag := (c :: rest).drop 6
      let digits := afterTag.takeWhile Char.isDigit
      let after := afterTag.drop digits.length
      if !digits.isEmpty && (match after with
          | [] => true
          | a :: _ => !isWordChar a) then
        (('l' :: 'a' :: 'b' :: 'e' :: 'l' :: '_' :: []) ++ digits) ::
          refsLoop fuel (some (digits.getLastD ' ')) after
      else refsLoop fuel (some c) rest
    else refsLoop fuel (some c) rest

/-- All `\\blabel_\\d+\\b` matches in one line. -/
def refsIn (line : List Char) : List (List Char) :=
  refsLoop (line.length + 1) none line

/-- The synthetic labels referenced outside definition lines (the first loop
of the final sweep). -/
def referencedSyntheticLabels (lines : List (List Char)) : List (List Char) :=
  (lines.filter fun l => (isSyntheticDef l).isNone).flatMap refsIn

/-- The final sweep of `decompile`: drop every `label label_N` definition line
whose name is referenced by no non-definition line. -/
def sweepLines (lines : List (List Char)) : List (List Char) :=
  let referenced := referencedSyntheticLabels lines
  lines.filter fun line =>
    match isSyntheticDef line with
    | some name => decide (name ∈ referenced)
    | none => true

/-! ## Kyra source parser (`_Parser`): data model and token primitives -/

/-- A parsed argument value: Python `int | str | _InstrExpr`. -/
inductive Val where
  | num (n : Int)
  | str (s : String)
  | expr (name : String) (args : List Val)
  deriving Repr

/-- A pending instruction argument: number or unresolved label name. -/
inductive InstrArg where
  | num (n : Int)
  | lbl (s : String)
  deriving Repr, DecidableEq

/-- One `pending_instrs` entry `(instr_id, flags, arg)`; `instr_id` is `-1`
for an `ifnot` operand placeholder and `-2` for a raw 16-bit word. -/
structure Pend where
  iid : Int
  flags : Nat
  arg : InstrArg
  deriving Repr, DecidableEq

/-- `_KyraProgram` (its `strings` dict as an insertion-ordered key-value
list). -/
structure KyraProgram where
  strings : List (String × String)
  text_present : Option Bool
  order : List Nat
  data : List Nat
  deriving Repr

/-- `_INSTR_ID_TO_NAME`, inverted (`_NAME_TO_INSTR_ID`). -/
def nameToInstrId (s : String) : Option Nat :=
  if s = "jmp" then some 0
  else if s = "push" then some 4
  else if s = "call" then some 14
  else if s = "unary" then some 16
  else if s = "binary" then some 17
  else none

/-- `_NATIVE_CALL_ID_TO_ALIAS`. -/
def nativeIdToAlias (n : Nat) : Option String :=
  if n = 1 then some "speak"
  else if n = 52 then some "tell"
  else if n = 139 then some "title"
  else none

/-- `_NATIVE_CALL_ALIAS_TO_ID`. -/
def nativeAliasToId (s : String) : Option Nat :=
  if s = "speak" then some 1
  else if s = "tell" then some 52
  else if s = "title" then some 139
  else none

/-- `_native_call_symbol`. -/
def native_call_symbol (call_id : Nat) : String :=
  match nativeIdToAlias call_id with
  | some a => a
  | none => "call_" ++ Nat.repr call_id

/-- `_bin_name_to_id` (repeated inline in every `emit_value_expr` copy). -/
def binNameToId (s : String) : Option Nat :=
  if s = "and" then some 0 else if s = "or" then some 1
  else if s = "eq" then some 2 else if s = "ne" then some 3
  else if s = "lt" then some 4 else if s = "le" then some 5
  else if s = "gt" then some 6 else if s = "ge" then some 7
  else if s = "add" then some 8 else if s = "sub" then some 9
  else if s = "mul" then some 10 else if s = "div" then some 11
  else if s = "shr" then some 12 else if s = "shl" then some 13
  else if s = "band" then some 14 else if s = "bor" then some 15
  else if s = "mod" then some 16 else if s = "xor" then some 17
  else none

/-- `_un_name_to_id`. -/
def unNameToId (s : String) : Option Nat :=
  if s = "not" then some 0 else if s = "neg" then some 1
  else if s = "bnot" then some 2 else none

/-- Python dict insertion for string values: first occurrence keeps its
position, the stored value is the latest. -/
def dictInsertStr (d : List (String × String)) (k : String) (v : String) :
    List (String × String) :=
  if d.any fun p => p.1 = k then
    d.map fun p => if p.1 = k then (k, v) else p
  else d ++ [(k, v)]

/-- The parser's one-token lookahead: the head of the remaining token list
(the lexed stream always ends with the `EOF` token before it is consumed). -/
def peekTok (toks : List Token) : Token := toks.headD ⟨"EOF", ""⟩

/-- `_Parser._consume(kind)`. -/
def consumeTok (kind : String) (toks : List Token) : Except String (Token × List Token) :=
  match toks with
  | [] => Except.error "Internal error: token stream exhausted."
  | t :: rest =>
    if t.kind = kind then Except.ok (t, rest)
    else Except.error ("Expected " ++ kind ++ ", got " ++ t.kind ++ ".")

/-- Python `int(tok, 0)` on a NUMBER token, as an `Except`. -/
def intTok (s : String) : Except String Int :=
  match pyIntBase0 s with
  | some v => Except.ok v
  | none => Except.error ("Invalid numeric literal: " ++ s ++ ".")

/-- The item/comma loop of `_parse_call_args_any`, with the already-collected
arguments in `acc`; a nested `IDENT(...)` expression re-enters the same loop
past its opening parenthesis.  One fuel unit per item or nesting step;
`toks.length + 1` always suffices. -/
def parseArgsRest : Nat → List Val → List Token → Except String (List Val × List Token)
  | 0, _, _ => Except.error "Internal error: fuel exhausted."
  | fuel + 1, acc, toks => do
    let (v, toks) ← (do
      if (peekTok toks).kind = "NUMBER" then
        let (n, toks) ← consumeTok "NUMBER" toks
        let x ← intTok n.value
        Except.ok (Val.num x, toks)
      else if (peekTok toks).kind = "IDENT" then
        let (idt, toks) ← consumeTok "IDENT" toks
        if (peekTok toks).kind = "(" then
          let (_, toks) ← consumeTok "(" toks
          if (peekTok toks).kind = ")" then
            let (_, toks) ← consumeTok ")" toks
            Except.ok (Val.expr idt.value [], toks)
          else
            let (inner, toks) ← parseArgsRest fuel [] toks
            Except.ok (Val.expr idt.value inner, toks)
        else if idt.value = "acc" then
          Except.ok (Val.expr "acc" [], toks)
        else
          Except.ok (Val.str idt.value, toks)
      else
        Except.error ("Expected NUMBER or IDENT in args, got " ++ (peekTok toks).kind ++ ".") :
        Except String (Val × List Token))
    if (peekTok toks).kind = "," then
      let (_, toks) ← consumeTok "," toks
      if (peekTok toks).kind = ")" then
        let (_, toks) ← consumeTok ")" toks
        Except.ok (acc ++ [v], toks)
      else
        parseArgsRest fuel (acc ++ [v]) toks
    else
      let (_, toks) ← consumeTok ")" toks
      Except.ok (acc ++ [v], toks)

/-- `_parse_call_args_any`. -/
def parseCallArgsAny (toks : List Token) : Except String (List Val × List Token) := do
  let (_, toks) ← consumeTok "(" toks
  if (peekTok toks).kind = ")" then
    let (_, toks) ← consumeTok ")" toks
    Except.ok ([], toks)
  else
    parseArgsRest (toks.length + 1) [] toks

/-- The key/value loop of `_parse_strings_dict`. -/
def stringsDictLoop : Nat → List (String × String) → List Token →
    Except String (List (String × String) × List Token)
  | 0, _, _ => Except.error "Internal error: fuel exhausted."
  | fuel + 1, out, toks => do
    let (key, toks) ← consumeTok "IDENT" toks
    let (_, toks) ← consumeTok ":" toks
    let (val, toks) ← consumeTok "STRING" toks
    let out := dictInsertStr out key.value val.value
    if (peekTok toks).kind = "," then
      let (_, toks) ← consumeTok "," toks
      if (peekTok toks).kind = "\x7d" then
        let (_, toks) ← consumeTok "\x7d" toks
        Except.ok (out, toks)
      else
        stringsDictLoop fuel out toks
    else
      let (_, toks) ← consumeTok "\x7d" toks
      Except.ok (out, toks)

/-- `_parse_strings_dict`. -/
def parseStringsDict (toks : List Token) : Except String (List (String × String) × List Token) := do
  let (_, toks) ← consumeTok "\x7b" toks
  if (peekTok toks).kind = "\x7d" then
    let (_, toks) ← consumeTok "\x7d" toks
    Except.ok ([], toks)
  else
    stringsDictLoop (toks.length + 1) [] toks

/-- The item loop of `_parse_entries_list`. -/
def entriesListLoop : Nat → List (String ⊕ Int) → List Token →
    Except String (List (String ⊕ Int) × List Token)
  | 0, _, _ => Except.error "Internal error: fuel exhausted."
  | fuel + 1, out, toks => do
    let (out, toks) ← (do
      if (peekTok toks).kind = "IDENT" then
        let (t, toks) ← consumeTok "IDENT" toks
        Except.ok (out ++ [Sum.inl t.value], toks)
      else if (peekTok toks).kind = "NUMBER" then
        let (t, toks) ← consumeTok "NUMBER" toks
        let v ← intTok t.value
        Except.ok (out ++ [Sum.inr v], toks)
      else
        Except.error ("Expected label or number in `globals`, got " ++
          (peekTok toks).kind ++ ".") :
        Except String (List (String ⊕ Int) × List Token))
    if (peekTok toks).kind = "," then
      let (_, toks) ← consumeTok "," toks
      if (peekTok toks).kind = "]" then
        let (_, toks) ← consumeTok "]" toks
        Except.ok (out, toks)
      else
        entriesListLoop fuel out toks
    else
      let (_, toks) ← consumeTok "]" toks
      Except.ok (out, toks)

/-- `_parse_entries_list`. -/
def parseEntriesList (toks : List Token) : Except String (List (String ⊕ Int) × List Token) := do
  let (_, toks) ← consumeTok "[" toks
  if (peekTok toks).kind = "]" then
    let (_, toks) ← consumeTok "]" toks
    Except.ok ([], toks)
  else
    entriesListLoop (toks.length + 1) [] toks

/-- `_parse_strings_assignment`. -/
def parseStringsAssignment (toks : List Token) :
    Except String (List (String × String) × List Token) := do
  let (t, toks) ← consumeTok "IDENT" toks
  if t.value ≠ "strings" then
    Except.error "First statement must be strings = ... ."
  else do
    let (_, toks) ← consumeTok "=" toks
    parseStringsDict toks

/-- `_parse_globals_assignment` (the leading IDENT is already known to be
`globals` or `entries`). -/
def parseGlobalsAssignment (toks : List Token) :
    Except String (List (String ⊕ Int) × List Token) := do
  let (_, toks) ← consumeTok "IDENT" toks
  let (_, toks) ← consumeTok "=" toks
  parseEntriesList toks

/-! ## Kyra source parser: value-expression emission -/

/-- `_parse_native_func_symbol` (alias, `call_NNN` or `func_NNN`; decimal
with a bare-hex fallback, or an explicit `0x` prefix; result in 0..255). -/
def parseNativeFuncSymbol (sym : String) : Option Nat :=
  match nativeAliasToId sym with
  | some a => some a
  | none =>
    let suffix? : Option (List Char) :=
      if sym.data.take 5 = ('c' :: 'a' :: 'l' :: 'l' :: '_' :: []) then some (sym.data.drop 5)
      else if sym.data.take 5 = ('f' :: 'u' :: 'n' :: 'c' :: '_' :: []) then some (sym.data.drop 5)
      else none
    match suffix? with
    | none => none
    | some suffix =>
      let v? :=
        if suffix.take 2 = ('0' :: 'x' :: []) then pyIntHex ⟨suffix.drop 2⟩
        else match pyIntDec ⟨suffix⟩ with
          | some v => some v
          | none => pyIntHex ⟨suffix⟩
      match v? with
      | none => none
      | some v => if 0 ≤ v ∧ v ≤ 255 then some v.toNat else none

/-- The `call_NNN` suffix parse used by the `call_` statement and `return`
sugars: `0x` prefix means hex, otherwise decimal with a bare-hex fallback. -/
def callTargetOfSuffix (name : String) (suffix : List Char) : Except String Int :=
  if suffix.take 2 = ('0' :: 'x' :: []) then
    match pyIntHex ⟨suffix.drop 2⟩ with
    | some v => Except.ok v
    | none => Except.error ("Invalid call target: " ++ name ++ ".")
  else
    match pyIntDec ⟨suffix⟩ with
    | some v => Except.ok v
    | none =>
      match pyIntHex ⟨suffix⟩ with
      | some v => Except.ok v
      | none => Except.error ("Invalid call target: " ++ name ++ ".")

/-- The `func_NNN` suffix parse used by the `func_` statement and `return`
sugars: `0x` prefix means hex, otherwise decimal only. -/
def funcTargetOfSuffix (name : String) (suffix : List Char) : Except String Int :=
  if suffix.take 2 = ('0' :: 'x' :: []) then
    match pyIntHex ⟨suffix.drop 2⟩ with
    | some v => Except.ok v
    | none => Except.error ("Invalid function target: " ++ name ++ ".")
  else
    match pyIntDec ⟨suffix⟩ with
    | some v => Except.ok v
    | none => Except.error ("Invalid function target: " ++ name ++ ".")

/-- The shared tail of every `emit_value_expr` copy: a raw single-word
instruction expression `foo(flags, arg)`.  The copies inside the `call_...`
and `func_...` statement sugars additionally accept a label (or 15-bit
target) argument for `jmp`; `jmpok` selects that behaviour.  -/
def emitRawInstrExpr (jmpok : Bool) (n : String) (a : List Val)
    (st : List Pend × Nat) : Except String (List Pend × Nat) := do
  let expr_id ← (match nameToInstrId n with
    | some i => Except.ok i
    | none =>
      if n.data.take 6 = ('i' :: 'n' :: 's' :: 't' :: 'r' :: '_' :: []) then
        match pyIntDec ⟨n.data.drop 6⟩ with
        | some v =>
          if 0 ≤ v ∧ v ≤ 31 then Except.ok v.toNat
          else Except.error ("Instruction id out of range: " ++ v.repr ++ ".")
        | none => Except.error ("Invalid instruction name: " ++ n ++ ".")
      else Except.error ("Unknown value expression: " ++ n ++ "(...)") :
    Except String Nat)
  match a with
  | [fv, av] => do
    let f ← (match fv with
      | Val.num f => Except.ok f
      | _ => Except.error "Instruction expression flags must be a number." :
      Except String Int)
    if ¬ (0 ≤ f ∧ f ≤ 7) then
      Except.error ("Flags out of range (0..7): " ++ f.repr ++ ".")
    else if jmpok ∧ expr_id = 0 then
      match av with
      | Val.num x =>
        if f = 4 then
          if ¬ (0 ≤ x ∧ x ≤ 0x7FFF) then
            Except.error ("Long-jmp target out of range (0..0x7fff): " ++ x.repr ++ ".")
          else Except.ok (st.1 ++ [⟨0, f.toNat, InstrArg.num x⟩], st.2 + 1)
        else
          if ¬ (0 ≤ x ∧ x ≤ 255) then
            Except.error ("Arg out of range (0..255): " ++ x.repr ++ ".")
          else Except.ok (st.1 ++ [⟨0, f.toNat, InstrArg.num x⟩], st.2 + 1)
      | Val.str lbl => Except.ok (st.1 ++ [⟨0, f.toNat, InstrArg.lbl lbl⟩], st.2 + 1)
      | Val.expr _ _ => Except.error "Instruction expression jmp arg must be a number or a label."
    else
      match av with
      | Val.num x =>
        if ¬ (0 ≤ x ∧ x ≤ 255) then
          Except.error ("Arg out of range (0..255): " ++ x.repr ++ ".")
        else Except.ok (st.1 ++ [⟨(expr_id : Int), f.toNat, InstrArg.num x⟩], st.2 + 1)
      | _ => Except.error "Instruction expression arg must be a number."
  | _ => Except.error ("Instruction expression expects 2 args: " ++ n ++ "(flags, arg).")

/-- `emit_value_expr` (the helper repeated inside the `return`, legacy
`call(...)`, `call_...` and `func_...` handlers; the four copies differ only
in whether the raw-instruction tail accepts `jmp` label arguments, selected
here by `jmpok`).  The state is `(pending_instrs, pc)`.  One fuel unit per
nesting level; any fuel at least the expression depth suffices. -/
def emitValueExpr (jmpok : Bool) (strings : List (String × String)) :
    Nat → List Pend × Nat → Val → Except String (List Pend × Nat)
  | 0, _, _ => Except.error "Internal error: fuel exhausted."
  | fuel + 1, st, x =>
    match x with
    | Val.num v =>
      if ¬ (0 ≤ v ∧ v ≤ 255) then
        Except.error ("Immediate value out of range for i8 literal (0..255): " ++ v.repr ++ ".")
      else Except.ok (st.1 ++ [⟨4, 2, InstrArg.num v⟩], st.2 + 1)
    | Val.str key =>
      match (strings.map Prod.fst).findIdx? (fun k => k == key) with
      | none => Except.error ("Unknown string key: " ++ key ++ ".")
      | some idx =>
        if ¬ idx ≤ 255 then
          Except.error ("TEXT index out of range for i8 literal (0..255): " ++ Nat.repr idx ++ ".")
        else Except.ok (st.1 ++ [⟨4, 2, InstrArg.num (idx : Int)⟩], st.2 + 1)
    | Val.expr n a =>
      if n = "u16" then
        match a with
        | [vsrc] => do
          let v ← (match vsrc with
            | Val.str key =>
              match strings.lookup key with
              | none => Except.error ("Unknown string key: " ++ key ++ ".")
              | some raw =>
                match pyIntBase0 ⟨pyStrip raw.data⟩ with
                | some v => Except.ok v
                | none => Except.error ("u16(" ++ key ++ ") expects a numeric string value.")
            | Val.num v => Except.ok v
            | Val.expr _ _ =>
              Except.error "u16 expects a numeric arg or a string key: u16(0x1234) or u16(s_key)." :
            Except String Int)
          if ¬ (0 ≤ v ∧ v ≤ 0xFFFF) then
            Except.error ("u16 value out of range (0..0xffff): " ++ v.repr ++ ".")
          else
            Except.ok (st.1 ++ [⟨3, 1, InstrArg.num 0⟩, ⟨-2, 0, InstrArg.num v⟩], st.2 + 2)
        | _ => Except.error "u16 expects 1 arg: u16(0x1234) or u16(s_key)."
      else if n = "var" then
        match a with
        | [Val.num idx] =>
          if ¬ (0 ≤ idx ∧ idx ≤ 255) then
            Except.error ("var index out of range (0..255): " ++ idx.repr ++ ".")
          else Except.ok (st.1 ++ [⟨5, 2, InstrArg.num idx⟩], st.2 + 1)
        | _ => Except.error "var expects 1 numeric arg: var(0xNN)."
      else if n = "arg" then
        match a with
        | [Val.num idx] =>
          if ¬ (0 ≤ idx ∧ idx ≤ 255) then
            Except.error ("arg index out of range (0..255): " ++ idx.repr ++ ".")
          else Except.ok (st.1 ++ [⟨6, 2, InstrArg.num idx⟩], st.2 + 1)
        | _ => Except.error "arg expects 1 numeric arg: arg(0xNN)."
      else if n = "local" then
        match a with
        | [Val.num idx] =>
          if ¬ (0 ≤ idx ∧ idx ≤ 255) then
            Except.error ("local index out of range (0..255): " ++ idx.repr ++ ".")
          else Except.ok (st.1 ++ [⟨7, 2, InstrArg.num idx⟩], st.2 + 1)
        | _ => Except.error "local expects 1 numeric arg: local(0xNN)."
      else if n = "acc" then
        match a with
        | [] => Except.ok (st.1 ++ [⟨2, 2, InstrArg.num 0⟩], st.2 + 1)
        | _ => Except.error "acc expects no args: acc()."
      else
        match unNameToId n with
        | some uid =>
          match a with
          | [x0] => do
            let st ← emitValueExpr jmpok strings fuel st x0
            Except.ok (st.1 ++ [⟨16, 2, InstrArg.num (uid : Int)⟩], st.2 + 1)
          | _ => Except.error (n ++ " expects 1 arg.")
        | none =>
          match binNameToId n with
          | some bid =>
            match a with
            | [x0, x1] => do
              let st ← emitValueExpr jmpok strings fuel st x0
              let st ← emitValueExpr jmpok strings fuel st x1
              Except.ok (st.1 ++ [⟨17, 2, InstrArg.num (bid : Int)⟩], st.2 + 1)
            | _ => Except.error (n ++ " expects 2 args.")
          | none => emitRawInstrExpr jmpok n a st

/-- `emit_value_expr` applied to an argument list, left to right. -/
def emitValueExprs (jmpok : Bool) (strings : List (String × String)) (fuel : Nat) :
    List Pend × Nat → List Val → Except String (List Pend × Nat)
  | st, [] => Except.ok st
  | st, v :: rest => do
    let st ← emitValueExpr jmpok strings fuel st v
    emitValueExprs jmpok strings fuel st rest

/-! ## Kyra source parser: statement loop -/

/-- The mutable state of the `parse_program` statement loop. -/
structure PState where
  toks : List Token
  legacyOrder : List Nat
  pending : List Pend
  ifnots : List (Int × InstrArg)
  labels : List (String × Nat)
  pc : Nat
  pendingLeave : Option Int
  deriving Repr

/-- The value-expression parse of the `return` statement. -/
def parseReturnValue (toks : List Token) : Except String (Val × List Token) := do
  if (peekTok toks).kind = "NUMBER" then
    let (nt, toks) ← consumeTok "NUMBER" toks
    let v ← intTok nt.value
    Except.ok (Val.num v, toks)
  else if (peekTok toks).kind = "IDENT" then
    let (idt, toks) ← consumeTok "IDENT" toks
    if (peekTok toks).kind = "(" then
      let (args, toks) ← parseCallArgsAny toks
      Except.ok (Val.expr idt.value args, toks)
    else if idt.value = "acc" then
      Except.ok (Val.expr "acc" [], toks)
    else
      Except.ok (Val.str idt.value, toks)
  else
    Except.error ("return expects a value expression, got " ++ (peekTok toks).kind ++ ".")

/-- The optional `, drop(N)` suffix of the `return` statement. -/
def parseReturnDrop (toks : List Token) : Except String (Option Int × List Token) := do
  if (peekTok toks).kind = "," then
    let (_, toks) ← consumeTok "," toks
    let (dk, toks) ← consumeTok "IDENT" toks
    if dk.value ≠ "drop" then
      Except.error ("Expected drop(...) after comma in return, got " ++ dk.value ++ ".")
    else do
      let (_, toks) ← consumeTok "(" toks
      if (peekTok toks).kind ≠ "NUMBER" then
        Except.error "drop(...) expects a numeric arg."
      else do
        let (nt, toks) ← consumeTok "NUMBER" toks
        let v ← intTok nt.value
        let (_, toks) ← consumeTok ")" toks
        if ¬ (0 ≤ v ∧ v ≤ 255) then
          Except.error ("drop(...) arg out of range (0..255): " ++ v.repr ++ ".")
        else Except.ok (some v, toks)
  else Except.ok (none, toks)

/-- The instruction emission of a parsed `return <value>` with resolved
cleanup count `leaveN`: the `return acc` epilogue, the `call_`/alias and
`func_` tail-call forms, or the generic pop-and-return lowering. -/
def emitReturnOfValue (strings : List (String × String)) (fuelE : Nat) (value : Val)
    (leaveN : Option Int) (st : List Pend × Nat) : Except String (List Pend × Nat) := do
  let isAcc : Bool := match value with
    | Val.expr n a => n == "acc" && a.isEmpty
    | Val.str s => s == "acc"
    | _ => false
  if isAcc then
    let st : List Pend × Nat := match leaveN with
      | some l => (st.1 ++ [⟨12, 2, InstrArg.num l⟩], st.2 + 1)
      | none => st
    Except.ok (st.1 ++ [⟨8, 2, InstrArg.num 1⟩], st.2 + 1)
  else do
    let callTarget? ← (match value with
      | Val.expr n _ =>
        if n.data.take 5 = ('c' :: 'a' :: 'l' :: 'l' :: '_' :: []) then do
          let t ← callTargetOfSuffix n (n.data.drop 5)
          Except.ok (some t)
        else
          Except.ok ((nativeAliasToId n).map fun a => (a : Int))
      | _ => Except.ok none : Except String (Option Int))
    match value, callTarget? with
    | Val.expr _ args, some target => do
      if ¬ (0 ≤ target ∧ target ≤ 255) then
        Except.error ("Call target out of range (0..255): " ++ target.repr ++ ".")
      else do
        let st ← emitValueExprs false strings fuelE st args
        let st := (st.1 ++ [⟨14, 2, InstrArg.num target⟩], st.2 + 1)
        if ¬ args.length ≤ 255 then
          Except.error "Native call argument count out of range (0..255)."
        else do
          let st := (st.1 ++ [⟨12, 2, InstrArg.num (args.length : Int)⟩], st.2 + 1)
          let st : List Pend × Nat := match leaveN with
            | some l => (st.1 ++ [⟨12, 2, InstrArg.num l⟩], st.2 + 1)
            | none => st
          Except.ok (st.1 ++ [⟨8, 2, InstrArg.num 1⟩], st.2 + 1)
    | _, _ =>
      match value with
      | Val.expr n args =>
        if n.data.take 5 = ('f' :: 'u' :: 'n' :: 'c' :: '_' :: []) then do
          let entryPc ← funcTargetOfSuffix n (n.data.drop 5)
          if ¬ (0 ≤ entryPc ∧ entryPc ≤ 0x7FFF) then
            Except.error ("Function target out of range (0..0x7fff): " ++ entryPc.repr ++ ".")
          else do
            let st ← emitValueExprs false strings fuelE st args
            let st := (st.1 ++ [⟨2, 2, InstrArg.num 1⟩, ⟨0, 4, InstrArg.num entryPc⟩], st.2 + 2)
            let st := if args.length ≠ 0 then
                (st.1 ++ [⟨12, 2, InstrArg.num (args.length : Int)⟩], st.2 + 1)
              else st
            let st : List Pend × Nat := match leaveN with
              | some l => (st.1 ++ [⟨12, 2, InstrArg.num l⟩], st.2 + 1)
              | none => st
            Except.ok (st.1 ++ [⟨8, 2, InstrArg.num 1⟩], st.2 + 1)
        else do
          let st ← emitValueExpr false strings fuelE st value
          let st := (st.1 ++ [⟨8, 2, InstrArg.num 0⟩], st.2 + 1)
          let st : List Pend × Nat := match leaveN with
            | some l => (st.1 ++ [⟨12, 2, InstrArg.num l⟩], st.2 + 1)
            | none => st
          Except.ok (st.1 ++ [⟨8, 2, InstrArg.num 1⟩], st.2 + 1)
      | _ => do
        let st ← emitValueExpr false strings fuelE st value
        let st := (st.1 ++ [⟨8, 2, InstrArg.num 0⟩], st.2 + 1)
        let st : List Pend × Nat := match leaveN with
          | some l => (st.1 ++ [⟨12, 2, InstrArg.num l⟩], st.2 + 1)
          | none => st
        Except.ok (st.1 ++ [⟨8, 2, InstrArg.num 1⟩], st.2 + 1)

/-- A statement of the form `name(args...)`: `push16`, the legacy
`call(sym, ...)` sugar, the `call_NNN`/alias and `func_NNN` sugars, legacy
`entry`, `ifnot`, or a generic single-word instruction.  `fuelE` bounds the
nesting depth of value expressions. -/
def stmtWithArgs (strings : List (String × String)) (globalsPresent : Bool) (fuelE : Nat)
    (name : String) (args : List Val) (st : PState) : Except String PState := do
  if name = "push16" then
    match args with
    | [Val.num v] =>
      if ¬ (0 ≤ v ∧ v ≤ 0xFFFF) then
        Except.error ("push16 value out of range (0..0xffff): " ++ v.repr ++ ".")
      else
        Except.ok { st with
          pending := st.pending ++ [⟨3, 1, InstrArg.num 0⟩, ⟨-2, 0, InstrArg.num v⟩],
          pc := st.pc + 2 }
    | [_] => Except.error "push16 value must be a number."
    | _ => Except.error "push16 expects 1 arg: push16(value)."
  else
    let legacyTarget? : Option Nat :=
      if name = "call" then
        match args with
        | Val.str s :: _ => parseNativeFuncSymbol s
        | _ => none
      else none
    match legacyTarget? with
    | some target => do
      let callArgs := args.drop 1
      let s ← emitValueExprs false strings fuelE (st.pending, st.pc) callArgs
      let s := (s.1 ++ [⟨14, 2, InstrArg.num (target : Int)⟩], s.2 + 1)
      if ¬ callArgs.length ≤ 255 then
        Except.error "Native call argument count out of range (0..255)."
      else
        Except.ok { st with
          pending := s.1 ++ [⟨12, 2, InstrArg.num (callArgs.length : Int)⟩],
          pc := s.2 + 1 }
    | none =>
      if name.data.take 5 = ('c' :: 'a' :: 'l' :: 'l' :: '_' :: []) ∨
          (nativeAliasToId name).isSome then do
        let target ← (if name.data.take 5 = ('c' :: 'a' :: 'l' :: 'l' :: '_' :: []) then
            callTargetOfSuffix name (name.data.drop 5)
          else match nativeAliasToId name with
            | some a => Except.ok (a : Int)
            | none => Except.error "Internal error: missing alias." :
          Except String Int)
        if ¬ (0 ≤ target ∧ target ≤ 255) then
          Except.error ("Call target out of range (0..255): " ++ target.repr ++ ".")
        else do
          let s ← emitValueExprs true strings fuelE (st.pending, st.pc) args
          let s := (s.1 ++ [⟨14, 2, InstrArg.num target⟩], s.2 + 1)
          if ¬ args.length ≤ 255 then
            Except.error "call_... argument count out of range (0..255)."
          else
            Except.ok { st with
              pending := s.1 ++ [⟨12, 2, InstrArg.num (args.length : Int)⟩],
              pc := s.2 + 1 }
      else if name.data.take 5 = ('f' :: 'u' :: 'n' :: 'c' :: '_' :: []) then do
        let entryPc ← funcTargetOfSuffix name (name.data.drop 5)
        if ¬ (0 ≤ entryPc ∧ entryPc ≤ 0x7FFF) then
          Except.error ("Function target out of range (0..0x7fff): " ++ entryPc.repr ++ ".")
        else do
          let s ← emitValueExprs true strings fuelE (st.pending, st.pc) args
          let s := (s.1 ++ [⟨2, 2, InstrArg.num 1⟩, ⟨0, 4, InstrArg.num entryPc⟩], s.2 + 2)
          let s : List Pend × Nat := if args.length ≠ 0 then
              (s.1 ++ [⟨12, 2, InstrArg.num (args.length : Int)⟩], s.2 + 1)
            else s
          Except.ok { st with pending := s.1, pc := s.2 }
      else if name = "entry" then
        if globalsPresent then
          Except.error "Cannot mix globals = [...] with legacy entry(i, offset) statements."
        else
          match args with
          | [Val.num i, Val.num off] =>
            if i ≠ (st.legacyOrder.length : Int) then
              Except.error ("entry index mismatch: got " ++ i.repr ++ ".")
            else do
              let off16 ← u16chkInt off
              Except.ok { st with legacyOrder := st.legacyOrder ++ [off16] }
          | [_, _] => Except.error "entry expects numeric args: entry(i, offset)."
          | _ => Except.error "entry expects 2 args: entry(i, offset)."
      else if name = "ifnot" then
        match args with
        | [fv, tv] => do
          let f ← (match fv with
            | Val.num f => Except.ok f
            | _ => Except.error "Flags must be a number." : Except String Int)
          if f ≠ 1 then
            Except.error "Only ifnot(1, ...) is supported."
          else do
            let target ← (match tv with
              | Val.num n => Except.ok (InstrArg.num n)
              | Val.str s => Except.ok (InstrArg.lbl s)
              | Val.expr _ _ =>
                Except.error "ifnot target must be a number or a label." :
              Except String InstrArg)
            Except.ok { st with
              ifnots := st.ifnots ++ [(1, target)],
              pending := st.pending ++ [⟨15, 1, InstrArg.num 0⟩, ⟨-1, 0, InstrArg.num 0⟩],
              pc := st.pc + 2 }
        | _ => Except.error "ifnot expects 2 args: ifnot(flags, target)."
      else do
        let instrId ← (match nameToInstrId name with
          | some i => Except.ok i
          | none =>
            if name.data.take 6 = ('i' :: 'n' :: 's' :: 't' :: 'r' :: '_' :: []) then
              match pyIntDec ⟨name.data.drop 6⟩ with
              | some v =>
                if 0 ≤ v ∧ v ≤ 31 then Except.ok v.toNat
                else Except.error ("Instruction id out of range: " ++ v.repr ++ ".")
              | none => Except.error ("Invalid instruction name: " ++ name ++ ".")
            else Except.error ("Unknown statement: " ++ name ++ "(...)") :
          Except String Nat)
        match args with
        | [fv, av] => do
          let f ← (match fv with
            | Val.num f => Except.ok f
            | _ => Except.error "Flags must be a number." : Except String Int)
          if ¬ (0 ≤ f ∧ f ≤ 7) then
            Except.error ("Flags out of range (0..7): " ++ f.repr ++ ".")
          else do
            let av ← (if instrId = 14 then
                match av with
                | Val.str s =>
                  match parseNativeFuncSymbol s with
                  | some t => Except.ok (Val.num (t : Int))
                  | none =>
                    Except.error ("Invalid native call target symbol: " ++ s ++
                      ". Expected call_NNN.")
                | _ => Except.ok av
              else Except.ok av : Except String Val)
            let arg ← (if instrId = 0 then
                match av with
                | Val.num x =>
                  if f = 4 then
                    if ¬ (0 ≤ x ∧ x ≤ 0x7FFF) then
                      Except.error ("Long-jmp target out of range (0..0x7fff): " ++ x.repr ++ ".")
                    else Except.ok (InstrArg.num x)
                  else
                    if ¬ (0 ≤ x ∧ x ≤ 255) then
                      Except.error ("Arg out of range (0..255): " ++ x.repr ++ ".")
                    else Except.ok (InstrArg.num x)
                | Val.str s => Except.ok (InstrArg.lbl s)
                | Val.expr _ _ => Except.error "jmp arg must be a number or a label."
              else
                match av with
                | Val.num x =>
                  if ¬ (0 ≤ x ∧ x ≤ 255) then
                    Except.error ("Arg out of range (0..255): " ++ x.repr ++ ".")
                  else Except.ok (InstrArg.num x)
                | _ => Except.error (name ++ " arg must be a number.") :
              Except String InstrArg)
            Except.ok { st with
              pending := st.pending ++ [⟨(instrId : Int), f.toNat, arg⟩],
              pc := st.pc + 1 }
        | _ => Except.error (name ++ " expects 2 args: " ++ name ++ "(flags, arg).")

/-- The statement loop of `parse_program`: one fuel unit per statement, so
the token count plus one always suffices. -/
def parseStmts (strings : List (String × String)) (globalsPresent : Bool) :
    Nat → PState → Except String PState
  | 0, _ => Except.error "Internal error: fuel exhausted."
  | fuel + 1, st =>
    if (peekTok st.toks).kind = "EOF" then Except.ok st
    else do
      let (t, toks) ← consumeTok "IDENT" st.toks
      let name := t.value
      if st.pendingLeave.isSome ∧ name ≠ "return" then
        Except.error "leave must be immediately followed by return."
      else if name = "leave" then
        if (peekTok toks).kind ≠ "NUMBER" then
          Except.error ("leave expects a numeric arg, got " ++ (peekTok toks).kind ++ ".")
        else do
          let (nt, toks) ← consumeTok "NUMBER" toks
          let n ← intTok nt.value
          if ¬ (0 ≤ n ∧ n ≤ 255) then
            Except.error ("leave arg out of range (0..255): " ++ n.repr ++ ".")
          else
            parseStmts strings globalsPresent fuel { st with toks, pendingLeave := some n }
      else if name = "return" then do
        let (value, toks) ← parseReturnValue toks
        let (dropN, toks) ← parseReturnDrop toks
        if st.pendingLeave.isSome ∧ dropN.isSome then
          Except.error "Use either leave N or , drop(N) on a return, not both."
        else do
          let leaveN : Option Int := match st.pendingLeave with
            | some l => some l
            | none => dropN
          let s ← emitReturnOfValue strings (st.toks.length + 1) value leaveN
            (st.pending, st.pc)
          parseStmts strings globalsPresent fuel
            { st with toks, pending := s.1, pc := s.2, pendingLeave := none }
      else if name = "label" then do
        let (lt, toks) ← consumeTok "IDENT" toks
        if (st.labels.lookup lt.value).isSome then
          Except.error ("Duplicate label: " ++ lt.value ++ ".")
        else
          parseStmts strings globalsPresent fuel
            { st with toks, labels := st.labels ++ [(lt.value, st.pc)] }
      else if (peekTok toks).kind = ":" then do
        let (_, toks) ← consumeTok ":" toks
        if (st.labels.lookup name).isSome then
          Except.error ("Duplicate label: " ++ name ++ ".")
        else
          parseStmts strings globalsPresent fuel
            { st with toks, labels := st.labels ++ [(name, st.pc)] }
      else if (peekTok toks).kind = "=" then
        Except.error "Only strings = ... and optional globals = [...] are allowed."
      else do
        let (args, toks) ← parseCallArgsAny toks
        let st' ← stmtWithArgs strings globalsPresent (st.toks.length + 1) name args
          { st with toks }
        parseStmts strings globalsPresent fuel st'

/-! ## Kyra source parser: resolution and program assembly -/

/-- The final data-resolution loop of `parse_program`: turn pending
instructions into 16-bit words, consuming `ifnots` in order for each `-1`
placeholder and resolving `jmp` label arguments; returns the words and the
number of consumed `ifnot` records. -/
def resolveData (labels : List (String × Nat)) (ifnots : List (Int × InstrArg)) :
    List Pend → Nat → Except String (List Nat × Nat)
  | [], i => Except.ok ([], i)
  | p :: rest, i =>
    if p.iid = -1 then
      match ifnots.drop i with
      | [] => Except.error "Internal error: ifnot operand mismatch."
      | (_, target) :: _ => do
        let t ← (match target with
          | InstrArg.lbl s =>
            match labels.lookup s with
            | some v => Except.ok (v : Int)
            | none => Except.error ("Unknown label in ifnot: " ++ s ++ ".")
          | InstrArg.num n => Except.ok n : Except String Int)
        if ¬ (0 ≤ t ∧ t ≤ 0x7FFF) then
          Except.error ("ifnot target out of range (0..0x7fff): " ++ t.repr ++ ".")
        else do
          let w ← u16chk (0x8000 + t.toNat)
          let (ws, i') ← resolveData labels ifnots rest (i + 1)
          Except.ok (w :: ws, i')
    else if p.iid = -2 then
      match p.arg with
      | InstrArg.num v => do
        let w ← u16chkInt v
        let (ws, i') ← resolveData labels ifnots rest i
        Except.ok (w :: ws, i')
      | InstrArg.lbl _ => Except.error "Internal error: raw word must be numeric."
    else do
      let arg ← (match p.arg with
        | InstrArg.lbl s =>
          if p.iid = 0 then
            match labels.lookup s with
            | none => Except.error ("Unknown label in jmp: " ++ s ++ ".")
            | some target =>
              if p.flags = 4 then
                if ¬ target ≤ 0x7FFF then
                  Except.error ("jmp label target out of 15-bit range: " ++ s ++ ".")
                else Except.ok (target : Int)
              else
                if ¬ target ≤ 255 then
                  Except.error ("jmp label target out of u8 range: " ++ s ++ ".")
                else Except.ok (target : Int)
          else Except.error "Internal error: unresolved non-jmp label argument."
        | InstrArg.num n => Except.ok n : Except String Int)
      let w ← (if p.iid = 0 ∧ p.flags = 4 then
          if ¬ (0 ≤ arg ∧ arg ≤ 0x7FFF) then
            Except.error ("Long-jmp target out of range (0..0x7fff): " ++ arg.repr ++ ".")
          else Except.ok (0x8000 + arg.toNat % 0x8000)
        else
          Except.ok (p.flags % 8 * 8192 + p.iid.toNat % 32 * 256 + arg.toNat % 256) :
        Except String Nat)
      let (ws, i') ← resolveData labels ifnots rest i
      Except.ok (w :: ws, i')

/-- The `order` assembly of `parse_program`: the legacy `entry(...)` list, or
the `globals = [...]` references resolved through the label table. -/
def resolveOrder (labels : List (String × Nat)) :
    Option (List (String ⊕ Int)) → List Nat → Except String (List Nat)
  | none, legacyOrder => Except.ok legacyOrder
  | some refs, _ =>
    mapMex (fun ref =>
      match ref with
      | Sum.inr off => u16chkInt off
      | Sum.inl lbl =>
        match labels.lookup lbl with
        | some off => u16chk off
        | none => Except.error ("Unknown label in globals: " ++ lbl ++ ".")) refs

/-- `_Parser.parse_program`. -/
def parse_program (toks : List Token) (text_present : Option Bool) :
    Except String KyraProgram := do
  let (strings, toks) ← parseStringsAssignment toks
  let (pendingGlobals, toks) ← (
    if (peekTok toks).kind = "IDENT" ∧
        ((peekTok toks).value = "globals" ∨ (peekTok toks).value = "entries") then do
      let (refs, toks) ← parseGlobalsAssignment toks
      Except.ok (some refs, toks)
    else Except.ok (none, toks) :
    Except String (Option (List (String ⊕ Int)) × List Token))
  let st ← parseStmts strings pendingGlobals.isSome (toks.length + 1)
    { toks, legacyOrder := [], pending := [], ifnots := [], labels := [], pc := 0,
      pendingLeave := none }
  if st.pendingLeave.isSome then
    Except.error "leave must be immediately followed by return."
  else do
    let order ← resolveOrder st.labels pendingGlobals st.legacyOrder
    let (data, ifnotUsed) ← resolveData st.labels st.ifnots st.pending 0
    if ifnotUsed ≠ st.ifnots.length then
      Except.error "Internal error: not all ifnot statements were emitted."
    else
      Except.ok { strings, text_present, order, data }

/-- Python `str.splitlines()` on the ASCII line terminators (`\n`, `\r`,
`\r\n`, `\x0b`, `\x0c`, `\x1c`, `\x1d`, `\x1e`); a trailing terminator
opens no empty final line. -/
def isLineTerm (c : Char) : Bool :=
  c = '\n' ∨ c = '\r' ∨ c = '\x0b' ∨ c = '\x0c' ∨
  c = '\x1c' ∨ c = '\x1d' ∨ c = '\x1e'

/-- The `\r\n` pairing of `splitlines`: after a `\r` terminator the
immediately following `\n` is consumed together with it. -/
def crlfRest (c : Char) (rest : List Char) : List Char :=
  match c, rest with
  | '\r', '\n' :: r2 => r2
  | _, _ => rest

/-- The scanning loop of `splitlines` (`acc` holds the current line,
reversed); one fuel unit per character. -/
def splitlinesLoop : Nat → List Char → List Char → List (List Char)
  | 0, _, _ => []
  | _ + 1, acc, [] => if acc.isEmpty then [] else [acc.reverse]
  | fuel + 1, acc, c :: rest =>
    if isLineTerm c then acc.reverse :: splitlinesLoop fuel [] (crlfRest c rest)
    else splitlinesLoop fuel (c :: acc) rest

def pySplitlines (cs : List Char) : List (List Char) :=
  splitlinesLoop (cs.length + 1) [] cs

def pragmaPresentLine : List Char :=
  '#' :: ' ' :: 't' :: 'e' :: 'x' :: 't' :: ':' :: ' ' ::
    'p' :: 'r' :: 'e' :: 's' :: 'e' :: 'n' :: 't' :: []

def pragmaAbsentLine : List Char :=
  '#' :: ' ' :: 't' :: 'e' :: 'x' :: 't' :: ':' :: ' ' ::
    'a' :: 'b' :: 's' :: 'e' :: 'n' :: 't' :: []

/-- One line of the pragma scan of `_parse_kyra_source`. -/
def scanStep (acc : Option Bool) (l : List Char) : Option Bool :=
  let s : List Char := (pyStrip l).map Char.toLower
  if s = pragmaPresentLine then some true
  else if s = pragmaAbsentLine then some false
  else acc

/-- The pragma scan of `_parse_kyra_source`: the last `# text: present` /
`# text: absent` comment line (after `strip().lower()`) wins. -/
def scanTextPragma (lines : List (List Char)) : Option Bool :=
  lines.foldl scanStep none

/-- `_parse_kyra_source`. -/
def parse_kyra_source (source : String) : Except String KyraProgram := do
  let text_present := scanTextPragma (pySplitlines source.data)
  let toks ← lexTokens (source.data.length + 1) source.data
  parse_program toks text_present

/-! ## `_desugar_structured_control_flow` -/

/-- `indent_of`: count leading tabs, with each full run of 4 spaces counting
as one tab; leftover spaces are an error. -/
def indentOfLoop : List Char → Nat → Nat → Nat × Nat
  | [], tabs, spaces => (tabs, spaces)
  | c :: rest, tabs, spaces =>
    if c = '\t' then indentOfLoop rest (tabs + 1) 0
    else if c = ' ' then
      if spaces + 1 = 4 then indentOfLoop rest (tabs + 1) 0
      else indentOfLoop rest tabs (spaces + 1)
    else (tabs, spaces)

def indentOf (line : List Char) : Except String Nat :=
  let (tabs, spaces) := indentOfLoop line 0 0
  if spaces ≠ 0 then Except.error "Indentation must use tabs or multiples of 4 spaces."
  else Except.ok tabs

/-- `strip_indent`: remove `n` tabs' worth of leading indentation. -/
def stripIndentLoop : List Char → Nat → Nat → List Char × Nat
  | cs, 0, _ => (cs, 0)
  | [], tl, _ => ([], tl)
  | c :: rest, tl + 1, spaces =>
    if c = '\t' then stripIndentLoop rest tl spaces
    else if c = ' ' then
      if spaces + 1 = 4 then stripIndentLoop rest tl 0
      else stripIndentLoop rest (tl + 1) (spaces + 1)
    else (c :: rest, tl + 1)

def stripIndent (line : List Char) (n : Nat) : Except String (List Char) :=
  let (rest, tl) := stripIndentLoop line n 0
  if tl ≠ 0 then Except.error "Internal error: failed to strip indentation."
  else Except.ok rest

/-- `s.rstrip('\r')`. -/
def rstripCR (cs : List Char) : List Char :=
  (cs.reverse.dropWhile fun c => c = '\x0d').reverse

def isIfHeader (s : List Char) : Bool :=
  s.take 3 = ('i' :: 'f' :: ' ' :: []) ∧ s.getLastD ' ' = ':'

def isElifHeader (s : List Char) : Bool :=
  s.take 5 = ('e' :: 'l' :: 'i' :: 'f' :: ' ' :: []) ∧ s.getLastD ' ' = ':'

def isElseHeader (s : List Char) : Bool :=
  s = ('e' :: 'l' :: 's' :: 'e' :: ':' :: [])

/-- `collect_suite`: take blank lines and lines indented deeper than the
header, returning the suite and the remaining lines. -/
def collectSuite : Nat → List (List Char) → Nat →
    Except String (List (List Char) × List (List Char))
  | 0, _, _ => Except.error "Internal error: fuel exhausted."
  | _ + 1, [], _ => Except.ok ([], [])
  | fuel + 1, raw :: rest, hdr =>
    if (pyStrip raw).isEmpty then do
      let (suite, r) ← collectSuite fuel rest hdr
      Except.ok (raw :: suite, r)
    else do
      let ind ← indentOf raw
      if ind ≤ hdr then Except.ok ([], raw :: rest)
      else do
        let (suite, r) ← collectSuite fuel rest hdr
        Except.ok (raw :: suite, r)

/-- `dedent_one`. -/
def dedentOne (suite : List (List Char)) (hdr : Nat) : Except String (List (List Char)) :=
  mapMex (fun raw =>
    if (pyStrip raw).isEmpty then Except.ok []
    else stripIndent raw (hdr + 1)) suite

/-- `reindent`. -/
def reindent (ls : List (List Char)) (indent : Nat) : List (List Char) :=
  ls.map fun l => if (pyStrip l).isEmpty then l else List.replicate indent '\t' ++ l

/-- The `elif` clause-collection loop inside `process`. -/
def elifClausesLoop : Nat → Nat → List (List Char) → List (List (List Char)) →
    Except String (List (List (List Char)) × List (List Char))
  | 0, _, _, _ => Except.error "Internal error: fuel exhausted."
  | _ + 1, _, [], clauses => Except.ok (clauses, [])
  | fuel + 1, ind, raw2 :: rest, clauses =>
    if (pyStrip raw2).isEmpty then Except.ok (clauses, raw2 :: rest)
    else do
      let ind2 ← indentOf raw2
      if ind2 ≠ ind then Except.ok (clauses, raw2 :: rest)
      else do
        let s2 ← stripIndent raw2 ind2
        if ¬ isElifHeader (rstripCR s2) then Except.ok (clauses, raw2 :: rest)
        else do
          let (suite2, rest) ← collectSuite (rest.length + 1) rest ind
          elifClausesLoop fuel ind rest (clauses ++ [suite2])

/-- The optional trailing `else:` block of an `if` chain. -/
def elseBlockOf (ind : Nat) (rest : List (List Char)) :
    Except String (Option (List (List Char)) × List (List Char)) :=
  match rest with
  | [] => Except.ok (none, rest)
  | raw3 :: tl =>
    if (pyStrip raw3).isEmpty then Except.ok (none, rest)
    else do
      let ind3 ← indentOf raw3
      let s3 ← stripIndent raw3 ind3
      if ind3 = ind ∧ isElseHeader (rstripCR s3) then do
        let (blk, rest') ← collectSuite (tl.length + 1) tl ind
        Except.ok (some blk, rest')
      else Except.ok (none, rest)

/-- One number rendered as Python `str(n)`. -/
def natStr (n : Nat) : List Char := (Nat.repr n).data

/-- The clause-emission loop of `process` over the collected `if`/`elif`
suites; `recur` is the recursive entry into `process` for each clause body,
with the running `label_counter` threaded through. -/
def emitIfClauses
    (recur : Nat → List (List Char) → Except String (List (List Char) × Nat)) :
    List (List (List Char)) → List Char → Nat → Bool → Nat → List Char →
    Except String (List (List Char) × List Char × Nat)
  | [], nextLabel, counter, _, _, _ => Except.ok ([], nextLabel, counter)
  | suite :: more, nextLabel, counter, hasElse, ind, endLabel => do
    let isLast := more.isEmpty
    let hasNext := ¬ isLast ∨ hasElse
    let elseLabel := if hasNext then nextLabel else endLabel
    let tabs : List Char := List.replicate ind '\t'
    let head1 := tabs ++ ('i' :: 'n' :: 's' :: 't' :: 'r' :: '_' :: '1' :: '5' ::
      '(' :: '1' :: ',' :: ' ' :: '0' :: 'x' :: '0' :: '0' :: ')' :: [])
    let head2 := tabs ++ ('j' :: 'm' :: 'p' :: '(' :: '4' :: ',' :: ' ' :: []) ++
      elseLabel ++ (')' :: [])
    let ded ← dedentOne suite ind
    let (body, counter) ← recur counter ded
    let out1 := [head1, head2] ++ reindent body ind
    let (out2, nextLabel, counter) ← (
      if hasNext then
        let j := tabs ++ ('j' :: 'm' :: 'p' :: '(' :: '4' :: ',' :: ' ' :: []) ++
          endLabel ++ (')' :: [])
        let l := tabs ++ elseLabel ++ (':' :: [])
        let newNext := ('i' :: 'f' :: '_' :: 'e' :: 'l' :: 's' :: 'e' :: '_' :: []) ++
          natStr counter
        Except.ok ([j, l], newNext, counter + 1)
      else Except.ok ([], nextLabel, counter) :
      Except String (List (List Char) × List Char × Nat))
    let (outRest, nextLabel, counter) ←
      emitIfClauses recur more nextLabel counter hasElse ind endLabel
    Except.ok (out1 ++ out2 ++ outRest, nextLabel, counter)

/-- `process`: expand every `if`/`elif`/`else` chain; returns the expanded
lines and the final `label_counter`.  One fuel unit per handled line or
clause-body recursion; `(n + 2) * (n + 2)` for `n` input lines suffices. -/
def processDesugar : Nat → Nat → List (List Char) → Except String (List (List Char) × Nat)
  | 0, _, _ => Except.error "Internal error: fuel exhausted."
  | _ + 1, counter, [] => Except.ok ([], counter)
  | fuel + 1, counter, raw :: rest =>
    if (pyStrip raw).isEmpty then do
      let (out, counter) ← processDesugar fuel counter rest
      Except.ok (raw :: out, counter)
    else do
      let ind ← indentOf raw
      let s0 ← stripIndent raw ind
      let s := rstripCR s0
      if isIfHeader s then do
        let (thenSuite, rest) ← collectSuite (rest.length + 1) rest ind
        let (clauses, rest) ← elifClausesLoop (rest.length + 1) ind rest [thenSuite]
        let (elseBlock, rest) ← elseBlockOf ind rest
        let endLabel := ('i' :: 'f' :: '_' :: 'e' :: 'n' :: 'd' :: '_' :: []) ++
          natStr counter
        let counter := counter + 1
        let nextLabel := ('i' :: 'f' :: '_' :: 'e' :: 'l' :: 's' :: 'e' :: '_' :: []) ++
          natStr counter
        let counter := counter + 1
        let (outClauses, _, counter) ← emitIfClauses (processDesugar fuel) clauses
          nextLabel counter elseBlock.isSome ind endLabel
        let (outElse, counter) ← (match elseBlock with
          | some blk => do
            let ded ← dedentOne blk ind
            let (lowered, counter) ← processDesugar fuel counter ded
            Except.ok (reindent lowered ind, counter)
          | none => Except.ok ([], counter) :
          Except String (List (List Char) × Nat))
        let endLine := List.replicate ind '\t' ++ endLabel ++ (':' :: [])
        let (outRest, counter) ← processDesugar fuel counter rest
        Except.ok (outClauses ++ outElse ++ [endLine] ++ outRest, counter)
      else if isElifHeader s ∨ isElseHeader s then
        Except.error "elif/else without matching if."
      else do
        let (out, counter) ← processDesugar fuel counter rest
        Except.ok (raw :: out, counter)

/-- `_desugar_structured_control_flow`. -/
def desugar_structured_control_flow (source : String) : Except String String := do
  let lines := pySplitlines source.data
  let endsWithNl := source.data.getLastD ' ' = '\n'
  let (expanded, _) ← processDesugar ((lines.length + 2) * (lines.length + 2)) 0 lines
  let joined := (List.intersperse ('\n' :: []) expanded).flatten
  Except.ok ⟨joined ++ (if endsWithNl then ('\n' :: []) else [])⟩

/-- `compile`. -/
def compile (source : String) : Except String Bytes := do
  let source ← desugar_structured_control_flow source
  let parsed ← parse_kyra_source source
  let strings := parsed.strings.map Prod.snd
  if ¬ strings.all asciiOk then
    Except.error "strings values must be ASCII."
  else do
    let text_present := match parsed.text_present with
      | none => ¬ strings.isEmpty
      | some b => b
    let order ← mapMex u16chk parsed.order
    let data ← mapMex u16chk parsed.data
    emit_emc2 { order, strings, data, text_present }

/-! ## Decompiler: context, hidden-PC pass, text-index collectors -/

/-- Python set insertion on an order-recording list. -/
def setInsert (s : List Nat) (x : Nat) : List Nat :=
  if s.contains x then s else s ++ [x]

def setInsertStr (s : List String) (x : String) : List String :=
  if s.contains x then s else s ++ [x]

/-- Stable ascending insertion sort (Python `sorted` on naturals). -/
def insertSorted (x : Nat) : List Nat → List Nat
  | [] => [x]
  | y :: r => if x ≤ y then x :: y :: r else y :: insertSorted x r

def sortNats (l : List Nat) : List Nat := l.foldr insertSorted []

/-- The immutable decompiler context after pass A. -/
structure DCtx where
  data : List Nat
  strings : List String
  executed : List Nat
  ifnotOps : List Nat
  embedded : List Nat
  deriving Repr

/-- `valid_jump_targets = executed_pcs | \x7blen(form.data)\x7d`. -/
def validTarget (c : DCtx) (x : Nat) : Bool :=
  c.executed.contains x || x == c.data.length

/-- `prev_executed(before_pc, lower_bound)`: the greatest executed PC in
`[lower_bound, before_pc)`. -/
def prevExecuted (c : DCtx) : Nat → Nat → Option Nat
  | 0, _ => none
  | before + 1, lower =>
    if before < lower then none
    else if c.executed.contains before then some before
    else prevExecuted c before lower

/-- `compute_hidden_pcs(start_pc, end_pc)`, threading the
`(hidden_pcs, structured_conditional_starts)` accumulator.  One fuel unit per
loop step or recursive entry; `(len + 2) ^ 2` suffices from the root call. -/
def computeHiddenPcs (c : DCtx) : Nat → Nat → Nat → List Nat × List Nat → List Nat × List Nat
  | 0, _, _, acc => acc
  | fuel + 1, pc, endPc, acc =>
    if ¬ pc < endPc then acc
    else if is_push16_at c.data pc then computeHiddenPcs c fuel (pc + 2) endPc acc
    else
      let d := decode_word (c.data.getD pc 0)
      if d.instr = 15 ∧ d.flags = 1 ∧ pc + 1 < c.data.length ∧ c.ifnotOps.contains (pc + 1) then
        let od := decode_word (c.data.getD (pc + 1) 0)
        if od.isLong ∧ od.instr = 0 ∧ validTarget c od.arg ∧ od.arg > pc ∧ od.arg < endPc then
          let acc := (acc.1, setInsert acc.2 pc)
          let elseStart := od.arg
          let thenStart := pc + 2
          let lastThen := prevExecuted c elseStart thenStart
          let joinTarget : Option Nat := match lastThen with
            | some lt =>
              let ld := decode_word (c.data.getD lt 0)
              if ld.isLong ∧ ld.instr = 0 ∧ validTarget c ld.arg ∧ ld.arg > elseStart ∧
                  ld.arg ≤ endPc then some ld.arg
              else none
            | none => none
          match joinTarget, lastThen with
          | some j, some lt =>
            let acc := (setInsert acc.1 lt, acc.2)
            let acc := computeHiddenPcs c fuel thenStart lt acc
            let acc := computeHiddenPcs c fuel elseStart j acc
            computeHiddenPcs c fuel j endPc acc
          | _, _ =>
            let acc := computeHiddenPcs c fuel thenStart elseStart acc
            computeHiddenPcs c fuel elseStart endPc acc
        else computeHiddenPcs c fuel (pc + 2) endPc acc
      else computeHiddenPcs c fuel (pc + 1) endPc acc

/-- `is_i8_push_at(p)` (signed index: out of range is false). -/
def isI8PushAt (c : DCtx) (p : Int) : Bool :=
  if p < 0 ∨ (c.data.length : Int) ≤ p then false
  else if is_push16_at c.data p.toNat then false
  else
    let d := decode_word (c.data.getD p.toNat 0)
    !d.isLong && d.flags == 2 && (d.instr == 3 || d.instr == 4)

/-- `push_arg_at(p)`. -/
def pushArgAt (c : DCtx) (p : Int) : Option Nat :=
  if isI8PushAt c p then some (decode_word (c.data.getD p.toNat 0)).arg else none

/-- The scan loop of `_collect_speech_text_indices`. -/
def collectSpeechLoop (c : DCtx) : Nat → Nat → List Nat → List Nat
  | 0, _, used => used
  | fuel + 1, pc, used =>
    if ¬ pc + 1 < c.data.length then used
    else if c.ifnotOps.contains pc then collectSpeechLoop c fuel (pc + 1) used
    else
      let d0 := decode_word (c.data.getD pc 0)
      if d0.isLong ∨ d0.instr ≠ 14 ∨ d0.flags ≠ 2 then
        collectSpeechLoop c fuel (pc + 1) used
      else
        let d1 := decode_word (c.data.getD (pc + 1) 0)
        if d1.isLong ∨ d1.instr ≠ 12 ∨ d1.flags ≠ 2 then
          collectSpeechLoop c fuel (pc + 1) used
        else
          let used := if d0.arg = 1 ∧ d1.arg = 3 then
              match pushArgAt c ((pc : Int) - 1) with
              | some idx => if idx < c.strings.length then setInsert used idx else used
              | none => used
            else used
          let used := if d0.arg = 52 ∧ d1.arg = 4 then
              match pushArgAt c ((pc : Int) - 1) with
              | some idx => if idx < c.strings.length then setInsert used idx else used
              | none => used
            else used
          collectSpeechLoop c fuel (pc + 1) used

/-- `_collect_speech_text_indices`. -/
def collectSpeechTextIndices (c : DCtx) : List Nat :=
  if c.strings.isEmpty then []
  else collectSpeechLoop c (c.data.length + 1) 0 []

/-- The scan loop of `_collect_title_text_indices`. -/
def collectTitleLoop (c : DCtx) : Nat → Nat → List Nat → List Nat
  | 0, _, used => used
  | fuel + 1, pc, used =>
    if ¬ pc + 1 < c.data.length then used
    else if c.ifnotOps.contains pc then collectTitleLoop c fuel (pc + 1) used
    else
      let d0 := decode_word (c.data.getD pc 0)
      if d0.isLong ∨ d0.instr ≠ 14 ∨ d0.flags ≠ 2 then
        collectTitleLoop c fuel (pc + 1) used
      else
        let d1 := decode_word (c.data.getD (pc + 1) 0)
        if d1.isLong ∨ d1.instr ≠ 12 ∨ d1.flags ≠ 2 then
          collectTitleLoop c fuel (pc + 1) used
        else
          let used := if d0.arg = 139 ∧ d1.arg = 2 then
            let base : Option Nat :=
              if 3 ≤ pc ∧ is_push16_at c.data (pc - 3) then some (c.data.getD (pc - 2) 0)
              else if 2 ≤ pc ∧ is_push16_at c.data (pc - 2) then some (c.data.getD (pc - 1) 0)
              else none
            if base = some 0x00B3 ∧ 1 ≤ pc then
              if is_push16_at c.data (pc - 1) then used
              else
                let dp := decode_word (c.data.getD (pc - 1) 0)
                if !dp.isLong && dp.flags == 2 && (dp.instr == 3 || dp.instr == 4) then
                  if dp.arg < c.strings.length then setInsert used dp.arg else used
                else used
            else used
          else used
          collectTitleLoop c fuel (pc + 1) used

/-- `_collect_title_text_indices`. -/
def collectTitleTextIndices (c : DCtx) : List Nat :=
  if c.strings.isEmpty then []
  else collectTitleLoop c (c.data.length + 1) 0 []

/-! ## Decompiler: text-key inference (`_compute_text_keys`) -/

/-- The stop-word set of `words_for_slug`. -/
def slugStopWords : List String :=
  ["a", "an", "and", "are", "as", "at", "be", "but", "by", "for", "from", "has",
   "have", "he", "her", "his", "i", "in", "is", "it", "its", "me", "my", "no",
   "not", "of", "on", "or", "our", "she", "so", "that", "the", "their", "then",
   "there", "they", "this", "to", "up", "was", "we", "were", "what", "when",
   "where", "who", "why", "will", "with", "you", "your",
   "theres", "thats", "whats", "heres", "wheres", "whos", "hows", "lets"]

/-- The apostrophe-merging substitution: drop `\x27` (or U+2019) characters
standing between two word characters; `prev` is the previous character of the
original string. -/
def remApostrophes : Option Char → List Char → List Char
  | _, [] => []
  | prev, c :: rest =>
    if (c == '\x27' || c.toNat == 0x2019) &&
        (match prev with | some p => isWordChar p | none => false) &&
        (match rest with | n :: _ => isWordChar n | [] => false) then
      remApostrophes (some c) rest
    else c :: remApostrophes (some c) rest

/-- `re.findall(r\x27[A-Za-z0-9]+\x27, ...)`: maximal alphanumeric runs. -/
def alnumGroups : Nat → List Char → List String
  | 0, _ => []
  | fuel + 1, cs =>
    let cs := cs.dropWhile fun c => ¬ c.isAlphanum
    match cs.takeWhile Char.isAlphanum with
    | [] => []
    | g => ⟨g⟩ :: alnumGroups fuel (cs.dropWhile Char.isAlphanum)

/-- `words_for_slug`.  The source applies NFKD normalization followed by an
`ascii`-`ignore` re-encoding; on the ASCII strings admitted by the TEXT
decoder this equals dropping non-ASCII characters, which is how it is
modelled. -/
def wordsForSlug (s : String) : List String :=
  let cs := pyStrip s.data
  let cs := remApostrophes none cs
  let cs := cs.filter fun c => c.toNat ≤ 127
  let parts := alnumGroups (cs.length + 1) (cs.map Char.toLower)
  if parts.isEmpty then []
  else
    let good := parts.filter fun p => ¬ slugStopWords.contains p ∧ 1 < p.length
    if 3 ≤ good.length then good else parts

/-- The `while cand in used_names` fresh-name loop (`base`, then `base_2`,
`base_3`, ...); `used.length + 2` fuel always suffices. -/
def dedupName (used : List String) (base : String) : Nat → String → Nat → String
  | 0, cand, _ => cand
  | fuel + 1, cand, k =>
    if used.contains cand then
      dedupName used base fuel (base ++ "_" ++ Nat.repr k) (k + 1)
    else cand

/-- `re.fullmatch(r\x27s\\d\x7b3\x7d\x27, key)`. -/
def isDefaultKey (s : String) : Bool :=
  match s.data with
  | 's' :: rest => rest.length == 3 && rest.all Char.isDigit
  | _ => false

/-- `re.sub(r\x27[^A-Za-z0-9_]\x27, \x27_\x27, base)`. -/
def sanitizeSlug (base : String) : String :=
  ⟨base.data.map fun ch => if ch.isAlphanum ∨ ch = '_' then ch else '_'⟩

/-- `_compute_text_keys`. -/
def computeTextKeys (c : DCtx) : List String :=
  let usedSpeech := collectSpeechTextIndices c
  let usedTitle := collectTitleTextIndices c
  let keys := (List.range c.strings.length).map fun i => "s" ++ fmtDec3 i
  if usedSpeech.isEmpty ∧ usedTitle.isEmpty then keys
  else
    let usedNames := keys
    let (keys, usedNames) := (sortNats usedTitle).foldl (fun (st : List String × List String) i =>
      let (keys, usedNames) := st
      if isDefaultKey (keys.getD i "") then
        let cand := dedupName usedNames "s_title" (usedNames.length + 2) "s_title" 2
        (keys.set i cand, setInsertStr usedNames cand)
      else st) (keys, usedNames)
    let (keys, _) := (sortNats usedSpeech).foldl (fun (st : List String × List String) i =>
      let (keys, usedNames) := st
      let w := wordsForSlug (c.strings.getD i "")
      if w.isEmpty then st
      else
        let base := "s_" ++ String.intercalate "_" (w.take 4)
        let base := sanitizeSlug base
        let base := if ¬ ((base.data.getD 0 ' ').isAlpha ∨ base.data.getD 0 ' ' = '_') then
            "s_" ++ base
          else base
        let cand := dedupName usedNames base (usedNames.length + 2) base 2
        (keys.set i cand, setInsertStr usedNames cand)) (keys, usedNames)
    keys

/-! ## Decompiler: label assignment passes -/

/-- `labels_at.get(pc, [])`. -/
def labAt (m : List (Nat × List String)) (pc : Nat) : List String :=
  (m.lookup pc).getD []

/-- Store a label list at a PC (insert or update). -/
def labSet (m : List (Nat × List String)) (pc : Nat) (ls : List String) :
    List (Nat × List String) :=
  if m.any fun p => p.1 = pc then m.map fun p => if p.1 = pc then (pc, ls) else p
  else m ++ [(pc, ls)]

/-- `labels_at.setdefault(pc, []).append(name)`. -/
def labAppend (m : List (Nat × List String)) (pc : Nat) (name : String) :
    List (Nat × List String) :=
  labSet m pc (labAt m pc ++ [name])

/-- `preferred_label_at.setdefault(pc, name)`. -/
def prefSetdefault (m : List (Nat × String)) (pc : Nat) (name : String) :
    List (Nat × String) :=
  if (m.lookup pc).isSome then m else m ++ [(pc, name)]

/-- `preferred_label_at[pc] = name`. -/
def prefSet (m : List (Nat × String)) (pc : Nat) (name : String) :
    List (Nat × String) :=
  if m.any fun p => p.1 = pc then m.map fun p => if p.1 = pc then (pc, name) else p
  else m ++ [(pc, name)]

def strStartsWith (s : String) (p : List Char) : Bool :=
  s.data.take p.length == p

def lblPrefix : List Char := 'l' :: 'a' :: 'b' :: 'e' :: 'l' :: '_' :: []
def glbPrefix : List Char := 'g' :: 'l' :: 'o' :: 'b' :: 'a' :: 'l' :: '_' :: []

/-- The `global_N` labels from `form.order`, seeding `labels_at` and
`preferred_label_at`. -/
def seedGlobalLabels (order : List Nat) :
    List (Nat × List String) × List (Nat × String) :=
  (List.range order.length).foldl (fun (st : List (Nat × List String) × List (Nat × String)) i =>
    let name := "global_" ++ Nat.repr i
    let off := order.getD i 0
    (labAppend st.1 off name, prefSetdefault st.2 off name))
    ([], [])

/-- The synthetic `label_N` jump-label passes (`jmp` arguments, then embedded
conditional targets), merged into `labels_at`/`preferred_label_at` in sorted
order. -/
def addJumpLabels (c : DCtx) (labels : List (Nat × List String))
    (pref : List (Nat × String)) :
    List (Nat × List String) × List (Nat × String) :=
  let jl : List (Nat × String) := (sortNats c.executed).foldl (fun jl pc =>
    let d := decode_word (c.data.getD pc 0)
    if d.instr ≠ 0 then jl
    else if ¬ validTarget c d.arg then jl
    else if (pref.lookup d.arg).isSome then jl
    else if (jl.lookup d.arg).isSome then jl
    else jl ++ [(d.arg, "label_" ++ Nat.repr d.arg)]) []
  let jl : List (Nat × String) := (sortNats c.embedded).foldl (fun jl arg =>
    if ¬ validTarget c arg then jl
    else if (pref.lookup arg).isSome then jl
    else if (jl.lookup arg).isSome then jl
    else jl ++ [(arg, "label_" ++ Nat.repr arg)]) jl
  (sortNats (jl.map Prod.fst)).foldl (fun (st : List (Nat × List String) × List (Nat × String)) pc =>
    let label := (jl.lookup pc).getD ""
    (labAppend st.1 pc label, prefSetdefault st.2 pc label)) (labels, pref)

/-- The scripted-function entry PCs (stackctl prologue + long jump). -/
def funcEntryPcs (c : DCtx) : List Nat :=
  (List.range (c.data.length - 1)).foldl (fun acc pc =>
    let d0 := decode_word (c.data.getD pc 0)
    if d0.isLong then acc
    else if ¬ (d0.flags = 2 ∧ d0.instr = 2 ∧ d0.arg = 1) then acc
    else
      let d1 := decode_word (c.data.getD (pc + 1) 0)
      if ¬ (d1.instr = 0 ∧ d1.flags = 4) then acc
      else if ¬ validTarget c d1.arg then acc
      else setInsert acc d1.arg) []

/-- The `func_NNN` entry-label pass: add the explicit label, prefer it over a
synthetic `label_N`, and drop the redundant synthetic label. -/
def addFuncEntryLabels (c : DCtx) (labels : List (Nat × List String))
    (pref : List (Nat × String)) :
    List (Nat × List String) × List (Nat × String) :=
  (sortNats (funcEntryPcs c)).foldl (fun (st : List (Nat × List String) × List (Nat × String)) entry =>
    let (labels, pref) := st
    let funcLabel := "func_" ++ Nat.repr entry
    let lst := labAt labels entry
    let lst := if lst.contains funcLabel then lst else lst ++ [funcLabel]
    let pref := match pref.lookup entry with
      | none => prefSet pref entry funcLabel
      | some p => if strStartsWith p lblPrefix then prefSet pref entry funcLabel else pref
    let auto := "label_" ++ Nat.repr entry
    (labSet labels entry (lst.erase auto), pref)) (labels, pref)

/-- `would_render_jump_target_as_label(arg)`. -/
def wouldRenderLabel (c : DCtx) (pref : List (Nat × String)) (hidden : List Nat)
    (arg : Nat) : Bool :=
  match pref.lookup arg with
  | none => false
  | some p =>
    validTarget c arg && ¬ (hidden.contains arg && strStartsWith p lblPrefix)

/-- `rendered_label_jump_targets`: targets of printed `jmp(...)` lines and of
raw-form conditional operands. -/
def renderedLabelJumpTargets (c : DCtx) (pref : List (Nat × String))
    (hidden : List Nat) (structuredStarts : List Nat) : List Nat :=
  let r := (sortNats c.executed).foldl (fun acc pc =>
    if c.ifnotOps.contains pc then acc
    else
      let d := decode_word (c.data.getD pc 0)
      if d.instr ≠ 0 then acc
      else if wouldRenderLabel c pref hidden d.arg then setInsert acc d.arg
      else acc) []
  (sortNats c.executed).foldl (fun acc pc =>
    let d := decode_word (c.data.getD pc 0)
    if ¬ (d.instr = 15 ∧ d.flags = 1 ∧ pc + 1 < c.data.length ∧
        c.ifnotOps.contains (pc + 1)) then acc
    else if structuredStarts.contains pc then acc
    else
      let od := decode_word (c.data.getD (pc + 1) 0)
      if (od.isLong ∨ od.instr = 0) ∧ wouldRenderLabel c pref hidden od.arg then
        setInsert acc od.arg
      else acc) r

/-! ## Decompiler: stack expressions (`_E`, `parse_stack_exprs`) -/

/-- `_E`: a reconstructed VM stack expression. -/
inductive SE where
  | i8 (n : Nat)
  | u16e (n : Nat)
  | varE (n : Nat)
  | argE (n : Nat)
  | localE (n : Nat)
  | accE
  | unE (name : String) (a : SE)
  | binE (name : String) (a b : SE)
  deriving Repr

/-- `_BIN_ID_TO_NAME`. -/
def binIdToName (n : Nat) : Option String :=
  if n = 0 then some "and" else if n = 1 then some "or"
  else if n = 2 then some "eq" else if n = 3 then some "ne"
  else if n = 4 then some "lt" else if n = 5 then some "le"
  else if n = 6 then some "gt" else if n = 7 then some "ge"
  else if n = 8 then some "add" else if n = 9 then some "sub"
  else if n = 10 then some "mul" else if n = 11 then some "div"
  else if n = 12 then some "shr" else if n = 13 then some "shl"
  else if n = 14 then some "band" else if n = 15 then some "bor"
  else if n = 16 then some "mod" else if n = 17 then some "xor"
  else none

/-- `_UN_ID_TO_NAME`. -/
def unIdToName (n : Nat) : Option String :=
  if n = 0 then some "not" else if n = 1 then some "neg"
  else if n = 2 then some "bnot" else none

def fmtI8 (x : Nat) : String := "0x" ++ fmtHex2 x

def fmtU16 (x : Nat) : String := "0x" ++ fmtHex4 x

/-- `render_expr`. -/
def render_expr : SE → String
  | SE.i8 n => fmtI8 n
  | SE.u16e n => "u16(" ++ fmtU16 n ++ ")"
  | SE.varE n => "var(" ++ fmtI8 n ++ ")"
  | SE.argE n => "arg(" ++ fmtI8 n ++ ")"
  | SE.localE n => "local(" ++ fmtI8 n ++ ")"
  | SE.accE => "acc"
  | SE.unE nm a => nm ++ "(" ++ render_expr a ++ ")"
  | SE.binE nm a b => nm ++ "(" ++ render_expr a ++ ", " ++ render_expr b ++ ")"

/-- `render_call_args`: replace a trailing `i8` text index of `speak`/`tell`
with its TEXT key. -/
def render_call_args (textKeys : List String) (callTarget : Nat) (exprs : List SE) : String :=
  let rendered := exprs.map render_expr
  let rendered := if callTarget = 1 ∧ ¬ exprs.isEmpty then
      match exprs.getLast? with
      | some (SE.i8 idx) =>
        if idx < textKeys.length then
          rendered.set (rendered.length - 1) (textKeys.getD idx "")
        else rendered
      | _ => rendered
    else rendered
  let rendered := if callTarget = 52 ∧ ¬ exprs.isEmpty then
      match exprs.getLast? with
      | some (SE.i8 idx) =>
        if idx < textKeys.length then
          rendered.set (rendered.length - 1) (textKeys.getD idx "")
        else rendered
      | _ => rendered
    else rendered
  String.intercalate ", " rendered

/-- `parse_stack_exprs(seq_start, seq_end)`: the reconstruction loop, with
the stack top at the head; the final stack is returned bottom-first.  One
fuel unit per word; `data.length + 1` suffices. -/
def parseStackExprsLoop (c : DCtx) (labels : List (Nat × List String)) (seqStart : Nat) :
    Nat → Nat → Nat → List SE → Option (List SE)
  | 0, _, _, _ => none
  | fuel + 1, pc, seqEnd, stack =>
    if ¬ pc < seqEnd then some stack.reverse
    else if c.ifnotOps.contains pc then none
    else if pc ≠ seqStart ∧ ¬ (labAt labels pc).isEmpty then none
    else if is_push16_at c.data pc then
      parseStackExprsLoop c labels seqStart fuel (pc + 2) seqEnd
        (SE.u16e (c.data.getD (pc + 1) 0) :: stack)
    else
      let d := decode_word (c.data.getD pc 0)
      if d.isLong then none
      else if (d.instr = 3 ∨ d.instr = 4) ∧ d.flags = 2 then
        parseStackExprsLoop c labels seqStart fuel (pc + 1) seqEnd (SE.i8 d.arg :: stack)
      else if d.instr = 5 ∧ d.flags = 2 then
        parseStackExprsLoop c labels seqStart fuel (pc + 1) seqEnd (SE.varE d.arg :: stack)
      else if d.instr = 6 ∧ d.flags = 2 then
        parseStackExprsLoop c labels seqStart fuel (pc + 1) seqEnd (SE.argE d.arg :: stack)
      else if d.instr = 7 ∧ d.flags = 2 then
        parseStackExprsLoop c labels seqStart fuel (pc + 1) seqEnd (SE.localE d.arg :: stack)
      else if d.instr = 2 ∧ d.flags = 2 ∧ d.arg = 0 then
        parseStackExprsLoop c labels seqStart fuel (pc + 1) seqEnd (SE.accE :: stack)
      else if d.instr = 16 ∧ d.flags = 2 then
        match stack, unIdToName d.arg with
        | x :: rest, some nm =>
          parseStackExprsLoop c labels seqStart fuel (pc + 1) seqEnd (SE.unE nm x :: rest)
        | _, _ => none
      else if d.instr = 17 ∧ d.flags = 2 then
        match stack, binIdToName d.arg with
        | b :: a :: rest, some nm =>
          parseStackExprsLoop c labels seqStart fuel (pc + 1) seqEnd (SE.binE nm a b :: rest)
        | _, _ => none
      else none

def parseStackExprs (c : DCtx) (labels : List (Nat × List String))
    (seqStart seqEnd : Nat) : Option (List SE) :=
  parseStackExprsLoop c labels seqStart (c.data.length + 1) seqStart seqEnd []

/-! ## Decompiler: emit helpers and call sugar folds -/

/-- The post-labelling emission context. -/
structure ECtx where
  c : DCtx
  hidden : List Nat
  structuredStarts : List Nat
  labelsAt : List (Nat × List String)
  pref : List (Nat × String)
  rendered : List Nat
  textKeys : List String
  callSugar : Bool
  deriving Repr

def tabsStr (n : Nat) : String := ⟨List.replicate n '\t'⟩

/-- `emit_blank_line()`. -/
def emitBlank (lines : List String) : List String :=
  if ¬ lines.isEmpty ∧ lines.getLastD "" ≠ "" then lines ++ [""] else lines

/-- `emit(indent, s)`. -/
def emitLine (lines : List String) (indent : Nat) (s : String) : List String :=
  let lines := if s = "else:" ∨
      (s.data.take 5 = ('e' :: 'l' :: 'i' :: 'f' :: ' ' :: []) ∧ s.data.getLastD ' ' = ':') then
      emitBlank lines
    else lines
  lines ++ [tabsStr indent ++ s]

/-- The label display order: `global_*` first, then lexicographic. -/
def labelLe (a b : String) : Bool :=
  let ka : Nat := if strStartsWith a glbPrefix then 0 else 1
  let kb : Nat := if strStartsWith b glbPrefix then 0 else 1
  ka < kb || (ka == kb && (a < b || a == b))

def insertLabelSorted (x : String) : List String → List String
  | [] => [x]
  | y :: r => if labelLe x y then x :: y :: r else y :: insertLabelSorted x r

def sortLabels (l : List String) : List String := l.foldr insertLabelSorted []

/-- `emit_labels(indent, at_pc)` (respecting the suppressed synthetic-label
set collected so far). -/
def emitLabelsAt (e : ECtx) (suppressed : List Nat) (lines : List String)
    (indent atPc : Nat) : List String :=
  let pcLabels := sortLabels (labAt e.labelsAt atPc)
  let lines := if indent = 0 ∧ ¬ pcLabels.isEmpty then emitBlank lines else lines
  pcLabels.foldl (fun lines label =>
    if suppressed.contains atPc ∧ strStartsWith label lblPrefix then lines
    else emitLine lines indent ("label " ++ label)) lines

/-- `_INSTR_ID_TO_NAME.get(instr, f\x27instr_\x7binstr\x7d\x27)`. -/
def instrName (i : Nat) : String :=
  if i = 0 then "jmp" else if i = 4 then "push" else if i = 14 then "call"
  else if i = 16 then "unary" else if i = 17 then "binary"
  else "instr_" ++ Nat.repr i

/-- `emit_instr(indent, at_pc)`. -/
def emitInstrLine (e : ECtx) (lines : List String) (indent atPc : Nat) : List String :=
  let d := decode_word (e.c.data.getD atPc 0)
  let name := instrName d.instr
  if d.instr = 14 ∧ ¬ d.isLong then
    emitLine lines indent
      (name ++ "(" ++ Nat.repr d.flags ++ ", " ++ native_call_symbol d.arg ++ ")")
  else if d.instr = 0 ∧ wouldRenderLabel e.c e.pref e.hidden d.arg then
    emitLine lines indent
      (name ++ "(" ++ Nat.repr d.flags ++ ", " ++ ((e.pref.lookup d.arg).getD "") ++ ")")
  else if d.instr = 0 ∧ d.isLong ∧ 0xFF < d.arg then
    emitLine lines indent (name ++ "(" ++ Nat.repr d.flags ++ ", " ++ fmtU16 d.arg ++ ")")
  else
    emitLine lines indent (name ++ "(" ++ Nat.repr d.flags ++ ", " ++ fmtI8 d.arg ++ ")")

/-- `try_emit_call_sugar`: scan for `call(2, id) ; instr_12(2, N)` preceded by
a pure stack sequence.  Returns the rendered lines and the next PC. -/
def tryCallSugarLoop (e : ECtx) (indent startPc endPc : Nat) :
    Nat → Nat → Option (List String × Nat)
  | 0, _ => none
  | fuel + 1, callPc =>
    if ¬ callPc + 1 < endPc then none
    else if e.c.ifnotOps.contains callPc then none
    else if callPc ≠ startPc ∧ ¬ (labAt e.labelsAt callPc).isEmpty then none
    else
      let d := decode_word (e.c.data.getD callPc 0)
      if d.isLong then tryCallSugarLoop e indent startPc endPc fuel (callPc + 1)
      else if ¬ (d.instr = 14 ∧ d.flags = 2) then
        tryCallSugarLoop e indent startPc endPc fuel (callPc + 1)
      else
        let cleanupPc := callPc + 1
        if ¬ cleanupPc < endPc ∨ e.c.ifnotOps.contains cleanupPc ∨
            ¬ (labAt e.labelsAt cleanupPc).isEmpty then
          tryCallSugarLoop e indent startPc endPc fuel (callPc + 1)
        else
          let cd := decode_word (e.c.data.getD cleanupPc 0)
          if cd.isLong ∨ ¬ (cd.instr = 12 ∧ cd.flags = 2) then
            tryCallSugarLoop e indent startPc endPc fuel (callPc + 1)
          else
            match parseStackExprs e.c e.labelsAt startPc callPc with
            | none => tryCallSugarLoop e indent startPc endPc fuel (callPc + 1)
            | some exprs =>
              if exprs.length ≠ cd.arg then
                tryCallSugarLoop e indent startPc endPc fuel (callPc + 1)
              else
                let rendered := render_call_args e.textKeys d.arg exprs
                let callName := native_call_symbol d.arg
                let line := if rendered ≠ "" then callName ++ "(" ++ rendered ++ ")"
                  else callName ++ "()"
                some ([tabsStr indent ++ line], cleanupPc + 1)

def tryEmitCallSugar (e : ECtx) (indent startPc endPc : Nat) :
    Option (List String × Nat) :=
  tryCallSugarLoop e indent startPc endPc (e.c.data.length + 1) startPc

/-- `try_emit_return_call_sugar`: `call ; [sp_add] ; ret` folded into
`return call_NNN(...)`. -/
def tryReturnCallSugarLoop (e : ECtx) (indent startPc endPc : Nat) :
    Nat → Nat → Option (List String × Nat)
  | 0, _ => none
  | fuel + 1, callPc =>
    if ¬ callPc + 1 < endPc then none
    else if e.c.ifnotOps.contains callPc then none
    else if callPc ≠ startPc ∧ ¬ (labAt e.labelsAt callPc).isEmpty then none
    else
      let next := tryReturnCallSugarLoop e indent startPc endPc fuel (callPc + 1)
      let d := decode_word (e.c.data.getD callPc 0)
      if d.isLong then next
      else if ¬ (d.instr = 14 ∧ d.flags = 2) then next
      else
        let nextPc := callPc + 1
        if ¬ nextPc < endPc ∨ e.c.ifnotOps.contains nextPc ∨
            ¬ (labAt e.labelsAt nextPc).isEmpty then next
        else
          let nd := decode_word (e.c.data.getD nextPc 0)
          if nd.isLong then next
          else
            let pat : Option (Nat × Nat) :=
              if nd.instr = 8 ∧ nd.flags = 2 ∧ nd.arg = 1 then some (0, nextPc)
              else if nd.instr = 12 ∧ nd.flags = 2 then
                let retPc2 := nextPc + 1
                if ¬ retPc2 < endPc ∨ e.c.ifnotOps.contains retPc2 ∨
                    ¬ (labAt e.labelsAt retPc2).isEmpty then none
                else
                  let rd := decode_word (e.c.data.getD retPc2 0)
                  if rd.isLong then none
                  else if rd.instr = 8 ∧ rd.flags = 2 ∧ rd.arg = 1 then
                    some (nd.arg, retPc2)
                  else none
              else none
            match pat with
            | none => next
            | some (nargs, retPc) =>
              match parseStackExprs e.c e.labelsAt startPc callPc with
              | none => next
              | some exprs =>
                if exprs.length ≠ nargs then next
                else
                  let rendered := render_call_args e.textKeys d.arg exprs
                  let callName := native_call_symbol d.arg
                  let line := if rendered ≠ "" then
                      "return " ++ callName ++ "(" ++ rendered ++ ")"
                    else "return " ++ callName ++ "()"
                  some ([tabsStr indent ++ line], retPc + 1)

def tryEmitReturnCallSugar (e : ECtx) (indent startPc endPc : Nat) :
    Option (List String × Nat) :=
  tryReturnCallSugarLoop e indent startPc endPc (e.c.data.length + 1) startPc

/-- The optional canonical cleanup word after a scripted call\x27s long jump:
`(nargs, next_pc)`. -/
def funcCleanupAt (e : ECtx) (jpc endPc : Nat) : Nat × Nat :=
  let cleanupPc := jpc + 1
  if cleanupPc < endPc ∧ ¬ e.c.ifnotOps.contains cleanupPc ∧
      (labAt e.labelsAt cleanupPc).isEmpty then
    let cd := decode_word (e.c.data.getD cleanupPc 0)
    if ¬ cd.isLong ∧ cd.flags = 2 ∧ cd.instr = 12 then (cd.arg, cleanupPc + 1)
    else (0, jpc + 1)
  else (0, jpc + 1)

/-- `try_emit_return_func_sugar`: stack exprs + `instr_2(2,1) ; jmp(4,entry) ;
[sp_add] ; ret` folded into `return func_ENTRY(...)`. -/
def tryReturnFuncSugarLoop (e : ECtx) (indent startPc endPc : Nat) :
    Nat → Nat → Option (List String × Nat)
  | 0, _ => none
  | fuel + 1, proPc =>
    if ¬ proPc + 2 < endPc then none
    else if e.c.ifnotOps.contains proPc then none
    else if proPc ≠ startPc ∧ ¬ (labAt e.labelsAt proPc).isEmpty then none
    else
      let next := tryReturnFuncSugarLoop e indent startPc endPc fuel (proPc + 1)
      if is_push16_at e.c.data proPc then next
      else
        let d0 := decode_word (e.c.data.getD proPc 0)
        if d0.isLong then next
        else if ¬ (d0.flags = 2 ∧ d0.instr = 2 ∧ d0.arg = 1) then next
        else
          let jpc := proPc + 1
          if ¬ jpc < endPc ∨ e.c.ifnotOps.contains jpc ∨
              ¬ (labAt e.labelsAt jpc).isEmpty then next
          else
            let d1 := decode_word (e.c.data.getD jpc 0)
            if ¬ (d1.isLong ∧ d1.instr = 0 ∧ validTarget e.c d1.arg) then next
            else
              let (nargs, nextPc) := funcCleanupAt e jpc endPc
              if ¬ nextPc < endPc ∨ e.c.ifnotOps.contains nextPc ∨
                  ¬ (labAt e.labelsAt nextPc).isEmpty then next
              else
                let rd := decode_word (e.c.data.getD nextPc 0)
                if rd.isLong then next
                else if ¬ (rd.instr = 8 ∧ rd.flags = 2 ∧ rd.arg = 1) then next
                else
                  match parseStackExprs e.c e.labelsAt startPc proPc with
                  | none => next
                  | some exprs =>
                    if exprs.length ≠ nargs then next
                    else
                      let rendered := String.intercalate ", " (exprs.map render_expr)
                      let line := if rendered ≠ "" then
                          "return func_" ++ Nat.repr d1.arg ++ "(" ++ rendered ++ ")"
                        else "return func_" ++ Nat.repr d1.arg ++ "()"
                      some ([tabsStr indent ++ line], nextPc + 1)

def tryEmitReturnFuncSugar (e : ECtx) (indent startPc endPc : Nat) :
    Option (List String × Nat) :=
  tryReturnFuncSugarLoop e indent startPc endPc (e.c.data.length + 1) startPc

/-- `try_emit_func_sugar`: stack exprs + `instr_2(2,1) ; jmp(4,entry)` with
optional cleanup, folded into `func_ENTRY(...)`. -/
def tryFuncSugarLoop (e : ECtx) (indent startPc endPc : Nat) :
    Nat → Nat → Option (List String × Nat)
  | 0, _ => none
  | fuel + 1, proPc =>
    if ¬ proPc + 1 < endPc then none
    else if e.c.ifnotOps.contains proPc then none
    else if proPc ≠ startPc ∧ ¬ (labAt e.labelsAt proPc).isEmpty then none
    else
      let next := tryFuncSugarLoop e indent startPc endPc fuel (proPc + 1)
      if is_push16_at e.c.data proPc then next
      else
        let d0 := decode_word (e.c.data.getD proPc 0)
        if d0.isLong then next
        else if ¬ (d0.flags = 2 ∧ d0.instr = 2 ∧ d0.arg = 1) then next
        else
          let jpc := proPc + 1
          if ¬ jpc < endPc ∨ e.c.ifnotOps.contains jpc ∨
              ¬ (labAt e.labelsAt jpc).isEmpty then next
          else
            let d1 := decode_word (e.c.data.getD jpc 0)
            if ¬ (d1.isLong ∧ d1.instr = 0 ∧ validTarget e.c d1.arg) then next
            else
              let (nargs, nextPc) := funcCleanupAt e jpc endPc
              match parseStackExprs e.c e.labelsAt startPc proPc with
              | none => next
              | some exprs =>
                if exprs.length ≠ nargs then next
                else
                  let line := "func_" ++ Nat.repr d1.arg ++ "(" ++
                    String.intercalate ", " (exprs.map render_expr) ++ ")"
                  some ([tabsStr indent ++ line], nextPc)

def tryEmitFuncSugar (e : ECtx) (indent startPc endPc : Nat) :
    Option (List String × Nat) :=
  tryFuncSugarLoop e indent startPc endPc (e.c.data.length + 1) startPc

/-- `try_emit_return_sugar`: a pure stack expression followed by
`instr_8(2,0) ; [sp_add] ; instr_8(2,1)`, folded into `return <expr>` (with a
`leave` line for the cleanup form). -/
def tryReturnSugarLoop (e : ECtx) (indent startPc endPc : Nat) :
    Nat → Nat → Option (List String × Nat)
  | 0, _ => none
  | fuel + 1, pc =>
    if ¬ pc + 1 < endPc then none
    else if e.c.ifnotOps.contains pc then none
    else if pc ≠ startPc ∧ ¬ (labAt e.labelsAt pc).isEmpty then none
    else if is_push16_at e.c.data pc then
      tryReturnSugarLoop e indent startPc endPc fuel (pc + 2)
    else
      let d0 := decode_word (e.c.data.getD pc 0)
      if d0.isLong then none
      else if d0.instr = 8 ∧ d0.flags = 2 ∧ d0.arg = 0 then
        let nextPc := pc + 1
        if e.c.ifnotOps.contains nextPc then none
        else if ¬ (labAt e.labelsAt nextPc).isEmpty then none
        else
          let d1 := decode_word (e.c.data.getD nextPc 0)
          if ¬ d1.isLong ∧ d1.instr = 8 ∧ d1.flags = 2 ∧ d1.arg = 1 then
            match parseStackExprs e.c e.labelsAt startPc pc with
            | none => none
            | some exprs =>
              match exprs with
              | [ex] =>
                match ex with
                | SE.accE => none
                | _ => some ([tabsStr indent ++ ("return " ++ render_expr ex)], nextPc + 1)
              | _ => none
          else if ¬ d1.isLong ∧ d1.instr = 12 ∧ d1.flags = 2 then
            let retPc := nextPc + 1
            if ¬ retPc < endPc then none
            else if e.c.ifnotOps.contains retPc then none
            else if ¬ (labAt e.labelsAt retPc).isEmpty then none
            else
              let d2 := decode_word (e.c.data.getD retPc 0)
              if ¬ d2.isLong ∧ d2.instr = 8 ∧ d2.flags = 2 ∧ d2.arg = 1 then
                match parseStackExprs e.c e.labelsAt startPc pc with
                | none => none
                | some exprs =>
                  match exprs with
                  | [ex] =>
                    match ex with
                    | SE.accE => none
                    | _ => some ([tabsStr indent ++ ("leave " ++ fmtI8 d1.arg),
                        tabsStr indent ++ ("return " ++ render_expr ex)], retPc + 1)
                  | _ => none
              else tryReturnSugarLoop e indent startPc endPc fuel (pc + 1)
          else tryReturnSugarLoop e indent startPc endPc fuel (pc + 1)
      else tryReturnSugarLoop e indent startPc endPc fuel (pc + 1)

def tryEmitReturnSugar (e : ECtx) (indent startPc endPc : Nat) :
    Option (List String × Nat) :=
  tryReturnSugarLoop e indent startPc endPc (e.c.data.length + 1) startPc

/-- The conservative basic-block start of `infer_acc_expr`: one past the
nearest labelled PC below `start_pc` (ifnot operand words are skipped). -/
def blockStartLoop (e : ECtx) : Nat → Nat
  | 0 => 0
  | p + 1 =>
    if e.c.ifnotOps.contains p then blockStartLoop e p
    else if ¬ (labAt e.labelsAt p).isEmpty then p + 1
    else blockStartLoop e p

/-- `acc_overwritten_between(write_pc)`: an acc writer (or a label) occurs in
`(write_pc, start_pc)`. -/
def accOverwrittenLoop (e : ECtx) (startPc writePc : Nat) : Nat → Nat → Bool
  | 0, _ => false
  | fuel + 1, p2 =>
    if ¬ p2 < startPc then false
    else if e.c.ifnotOps.contains p2 then accOverwrittenLoop e startPc writePc fuel (p2 + 1)
    else if ¬ (labAt e.labelsAt p2).isEmpty then true
    else
      let d := decode_word (e.c.data.getD p2 0)
      if d.isLong then accOverwrittenLoop e startPc writePc fuel (p2 + 1)
      else if d.instr = 1 then true
      else if d.instr = 14 ∧ d.flags = 2 ∧ p2 ≠ writePc then true
      else if d.instr = 8 ∧ d.flags = 2 ∧ d.arg = 0 then true
      else accOverwrittenLoop e startPc writePc fuel (p2 + 1)

def accOverwritten (e : ECtx) (startPc writePc : Nat) : Bool :=
  accOverwrittenLoop e startPc writePc (e.c.data.length + 1) (writePc + 1)

/-- `try_parse_single_stack_expr(end_at_pc)`: scan start points downwards for
a pure single-value stack sequence ending at `end_at_pc`.  The argument is
the candidate start plus one. -/
def singleExprLoop (e : ECtx) (endAt searchStart : Nat) : Nat → Option SE
  | 0 => none
  | s + 1 =>
    if s < searchStart then none
    else if e.c.ifnotOps.contains s then singleExprLoop e endAt searchStart s
    else if ¬ (labAt e.labelsAt s).isEmpty then none
    else if 0 < s ∧ is_push16_at e.c.data (s - 1) then singleExprLoop e endAt searchStart s
    else
      match parseStackExprs e.c e.labelsAt s endAt with
      | some [ex] => some ex
      | _ => singleExprLoop e endAt searchStart s

def tryParseSingleStackExpr (e : ECtx) (blockStart endAt : Nat) : Option SE :=
  singleExprLoop e endAt (max blockStart (endAt - 96)) endAt

/-- The first scan of `infer_acc_expr`: the most recent explicit pop-to-acc
whose expression can be reconstructed.  The argument is the candidate PC plus
one. -/
def accScanPop (e : ECtx) (startPc blockStart : Nat) : Nat → Option String
  | 0 => none
  | pc0 + 1 =>
    if pc0 + 1 ≤ blockStart then none
    else if e.c.ifnotOps.contains pc0 then accScanPop e startPc blockStart pc0
    else if ¬ (labAt e.labelsAt pc0).isEmpty then none
    else
      let d := decode_word (e.c.data.getD pc0 0)
      if d.isLong then accScanPop e startPc blockStart pc0
      else if d.instr = 8 ∧ d.flags = 2 ∧ d.arg = 0 then
        if accOverwritten e startPc pc0 then accScanPop e startPc blockStart pc0
        else
          match tryParseSingleStackExpr e blockStart pc0 with
          | none => accScanPop e startPc blockStart pc0
          | some ex => some (render_expr ex)
      else accScanPop e startPc blockStart pc0

/-- The second scan of `infer_acc_expr`: a direct `set_acc` immediate. -/
def accScanSet (e : ECtx) (startPc blockStart : Nat) : Nat → Option String
  | 0 => none
  | pc1 + 1 =>
    if pc1 + 1 ≤ blockStart then none
    else if e.c.ifnotOps.contains pc1 then accScanSet e startPc blockStart pc1
    else if ¬ (labAt e.labelsAt pc1).isEmpty then none
    else
      let d := decode_word (e.c.data.getD pc1 0)
      if d.isLong then accScanSet e startPc blockStart pc1
      else if d.instr = 1 then
        if accOverwritten e startPc pc1 then accScanSet e startPc blockStart pc1
        else some (fmtI8 d.arg)
      else accScanSet e startPc blockStart pc1

/-- The argument-suffix search of the native-call scan (break on ifnot
operands and labels).  The argument is the candidate start plus one. -/
def accCallArgsLoop (e : ECtx) (callPc searchStart : Nat) (nargs : Nat) :
    Nat → Option (List SE)
  | 0 => none
  | s + 1 =>
    if s < searchStart then none
    else if e.c.ifnotOps.contains s then none
    else if ¬ (labAt e.labelsAt s).isEmpty then none
    else if 0 < s ∧ is_push16_at e.c.data (s - 1) then accCallArgsLoop e callPc searchStart nargs s
    else
      match parseStackExprs e.c e.labelsAt s callPc with
      | some exprs =>
        if exprs.length = nargs then some exprs
        else accCallArgsLoop e callPc searchStart nargs s
      | none => accCallArgsLoop e callPc searchStart nargs s

/-- The third scan of `infer_acc_expr`: the most recent native call writing
`acc`, rendered with reconstructed arguments when possible. -/
def accScanCall (e : ECtx) (startPc blockStart : Nat) : Nat → Option String
  | 0 => none
  | callPc + 1 =>
    if callPc + 1 ≤ blockStart then none
    else if e.c.ifnotOps.contains callPc then accScanCall e startPc blockStart callPc
    else if ¬ (labAt e.labelsAt callPc).isEmpty then none
    else
      let d := decode_word (e.c.data.getD callPc 0)
      if d.isLong then accScanCall e startPc blockStart callPc
      else if ¬ (d.instr = 14 ∧ d.flags = 2) then accScanCall e startPc blockStart callPc
      else
        let nargs? : Option Nat :=
          let cleanupPc := callPc + 1
          if cleanupPc < startPc ∧ ¬ e.c.ifnotOps.contains cleanupPc ∧
              (labAt e.labelsAt cleanupPc).isEmpty then
            let cd := decode_word (e.c.data.getD cleanupPc 0)
            if ¬ cd.isLong ∧ cd.instr = 12 ∧ cd.flags = 2 then some cd.arg else none
          else none
        if accOverwritten e startPc callPc then accScanCall e startPc blockStart callPc
        else
          match nargs? with
          | some nargs =>
            let searchStart := max blockStart (callPc - 96)
            match accCallArgsLoop e callPc searchStart nargs callPc with
            | some exprs =>
              let rendered := String.intercalate ", " (exprs.map render_expr)
              let callName := native_call_symbol d.arg
              some (if rendered ≠ "" then callName ++ "(" ++ rendered ++ ")"
                else callName ++ "()")
            | none => some (native_call_symbol d.arg ++ "(...)")
          | none => some (native_call_symbol d.arg ++ "(...)")

/-- `infer_acc_expr()`. -/
def inferAccExpr (e : ECtx) (startPc : Nat) : Option String :=
  let blockStart := blockStartLoop e startPc
  match accScanPop e startPc blockStart startPc with
  | some s => some s
  | none =>
    match accScanSet e startPc blockStart startPc with
    | some s => some s
    | none => accScanCall e startPc blockStart startPc

/-- `try_emit_return_acc_sugar`: `sp_add ; ret` as `leave N ; return acc`, or
a bare `ret` as `return acc` with an inferred accumulator comment. -/
def tryEmitReturnAccSugar (e : ECtx) (indent startPc endPc : Nat) :
    Option (List String × Nat) :=
  if ¬ startPc < endPc then none
  else if e.c.ifnotOps.contains startPc then none
  else
    let d := decode_word (e.c.data.getD startPc 0)
    if d.isLong then none
    else if d.instr = 12 ∧ d.flags = 2 then
      let retPc := startPc + 1
      if ¬ retPc < endPc then none
      else if e.c.ifnotOps.contains retPc then none
      else if ¬ (labAt e.labelsAt retPc).isEmpty then none
      else
        let d2 := decode_word (e.c.data.getD retPc 0)
        if ¬ d2.isLong ∧ d2.instr = 8 ∧ d2.flags = 2 ∧ d2.arg = 1 then
          some ([tabsStr indent ++ ("leave " ++ fmtI8 d.arg),
            tabsStr indent ++ "return acc"], retPc + 1)
        else none
    else if d.instr = 8 ∧ d.flags = 2 ∧ d.arg = 1 then
      match inferAccExpr e startPc with
      | some accExpr =>
        some ([tabsStr indent ++ ("return acc  # acc = " ++ accExpr)], startPc + 1)
      | none => some ([tabsStr indent ++ "return acc"], startPc + 1)
    else none

/-- The `call_sugar` fold chain of `emit_range`, in source order. -/
def firstSugar (e : ECtx) (indent pc endPc : Nat) : Option (List String × Nat) :=
  match tryEmitReturnSugar e indent pc endPc with
  | some r => some r
  | none =>
    match tryEmitReturnFuncSugar e indent pc endPc with
    | some r => some r
    | none =>
      match tryEmitReturnCallSugar e indent pc endPc with
      | some r => some r
      | none =>
        match tryEmitReturnAccSugar e indent pc endPc with
        | some r => some r
        | none =>
          match tryEmitFuncSugar e indent pc endPc with
          | some r => some r
          | none => tryEmitCallSugar e indent pc endPc

/-- `emit_range(start_pc, end_pc, indent)`, threading `(lines, suppressed)`.
One fuel unit per emitted item or structured-block recursion;
`(len + 2) ^ 2` from the root suffices. -/
def emitRange (e : ECtx) : Nat → Nat → Nat → Nat → List String × List Nat →
    List String × List Nat
  | 0, _, _, _, st => st
  | fuel + 1, pc, endPc, indent, st =>
    if ¬ pc < endPc then st
    else
      let st := (emitLabelsAt e st.2 st.1 indent pc, st.2)
      let sugar := if e.callSugar then firstSugar e indent pc endPc else none
      match sugar with
      | some (ls, next) => emitRange e fuel next endPc indent (st.1 ++ ls, st.2)
      | none =>
        if is_push16_at e.c.data pc then
          let imm := e.c.data.getD (pc + 1) 0
          emitRange e fuel (pc + 2) endPc indent
            (emitLine st.1 indent ("push16(" ++ fmtU16 imm ++ ")"), st.2)
        else
          let d := decode_word (e.c.data.getD pc 0)
          if d.instr = 15 ∧ d.flags = 1 ∧ pc + 1 < e.c.data.length ∧
              e.c.ifnotOps.contains (pc + 1) then
            let od := decode_word (e.c.data.getD (pc + 1) 0)
            if od.isLong ∧ od.instr = 0 ∧ validTarget e.c od.arg ∧ od.arg > pc ∧
                od.arg < endPc then
              let elseStart := od.arg
              let thenStart := pc + 2
              let suppressed := match e.pref.lookup elseStart with
                | some p =>
                  if strStartsWith p lblPrefix ∧ e.c.embedded.contains elseStart ∧
                      ¬ e.rendered.contains elseStart then
                    setInsert st.2 elseStart
                  else st.2
                | none => st.2
              let st := (st.1, suppressed)
              let lastThen := prevExecuted e.c elseStart thenStart
              let joinTarget : Option Nat := match lastThen with
                | some lt =>
                  let ld := decode_word (e.c.data.getD lt 0)
                  if ld.isLong ∧ ld.instr = 0 ∧ validTarget e.c ld.arg ∧
                      ld.arg > elseStart ∧ ld.arg ≤ endPc then some ld.arg
                  else none
                | none => none
              let st := (emitLine st.1 indent "if cond:", st.2)
              match joinTarget, lastThen with
              | some j, some lt =>
                let st := emitRange e fuel thenStart lt (indent + 1) st
                let st := (emitLine st.1 indent "else:", st.2)
                let st := emitRange e fuel elseStart j (indent + 1) st
                emitRange e fuel j endPc indent (emitBlank st.1, st.2)
              | _, _ =>
                let st := emitRange e fuel thenStart elseStart (indent + 1) st
                emitRange e fuel elseStart endPc indent (emitBlank st.1, st.2)
            else if od.isLong ∧ od.instr = 0 then
              let line := if wouldRenderLabel e.c e.pref e.hidden od.arg then
                  "ifnot(1, " ++ ((e.pref.lookup od.arg).getD "") ++ ")"
                else "ifnot(1, " ++ fmtU16 od.arg ++ ")"
              emitRange e fuel (pc + 2) endPc indent (emitLine st.1 indent line, st.2)
            else
              let st := (emitLine st.1 indent "instr_15(1, 0x00)", st.2)
              let opName := instrName od.instr
              let line := if od.instr = 0 ∧ wouldRenderLabel e.c e.pref e.hidden od.arg then
                  opName ++ "(4, " ++ ((e.pref.lookup od.arg).getD "") ++ ")"
                else opName ++ "(4, " ++ fmtU16 od.arg ++ ")"
              emitRange e fuel (pc + 2) endPc indent (emitLine st.1 indent line, st.2)
          else
            emitRange e fuel (pc + 1) endPc indent (emitInstrLine e st.1 indent pc, st.2)

/-- `decompile(emc_bytes, name, call_sugar=...)`. -/
def decompile (emcBytes : Bytes) (name : Option String) (callSugar : Bool) :
    Except String String := do
  let form ← parse_emc2 emcBytes
  let strings := form.strings
  let (executed, ifnotOps, embedded) := passA (form.data.length + 1) form.data 0
  let c : DCtx := { data := form.data, strings, executed, ifnotOps, embedded }
  let textKeys := computeTextKeys c
  let lines : List String := match name with
    | some n => ["# `" ++ n ++ "`.", ""]
    | none => []
  let lines := if strings.isEmpty then lines ++ ["strings = \x7b\x7d"]
    else
      (lines ++ ["strings = \x7b"]) ++
      ((List.range strings.length).map fun i =>
        "\t" ++ textKeys.getD i "" ++ ": " ++ quote_string (strings.getD i "") ++ ",") ++
      ["\x7d"]
  let lines := lines ++ [""]
  let globalLabels := (List.range form.order.length).map fun i => "global_" ++ Nat.repr i
  let lines := lines ++ ["globals = [" ++ String.intercalate ", " globalLabels ++ "]", ""]
  let (labels0, pref0) := seedGlobalLabels form.order
  let (hidden, structuredStarts) :=
    computeHiddenPcs c ((form.data.length + 2) * (form.data.length + 2)) 0
      form.data.length ([], [])
  let (labels1, pref1) := addJumpLabels c labels0 pref0
  let (labels2, pref2) := addFuncEntryLabels c labels1 pref1
  let rendered := renderedLabelJumpTargets c pref2 hidden structuredStarts
  let e : ECtx :=
    ECtx.mk c hidden structuredStarts labels2 pref2 rendered textKeys callSugar
  let st := emitRange e ((form.data.length + 2) * (form.data.length + 2)) 0
    form.data.length 0 (lines, [])
  let lines := st.1
  let endLabels := sortLabels (labAt labels2 form.data.length)
  let lines := endLabels.foldl (fun lines label =>
    emitBlank lines ++ ["label " ++ label]) lines
  let swept := sweepLines (lines.map String.data)
  Except.ok (String.intercalate "\n" (swept.map fun l => (⟨l⟩ : String)) ++ "\n")

/-! ## Concrete test vectors -/

/-- The canonical minimal container: `ORDR = [0]`, no `TEXT`,
`DATA = [jmp(0, 0)]`, chunks in the emitter's order. -/
def sampleMin : Bytes :=
  formTag ++ [0, 0, 0, 32] ++ emc2Tag ++
    ordrTag ++ [0, 0, 0, 2] ++ [0, 0] ++
    dataTag ++ [0, 0, 0, 2] ++ [0, 0]

/-- The same program, but with the `DATA` chunk stored before the `ORDR`
chunk.  The parser accepts any chunk order; the emitter always writes
`ORDR` first. -/
def sampleSwapped : Bytes :=
  formTag ++ [0, 0, 0, 32] ++ emc2Tag ++
    dataTag ++ [0, 0, 0, 2] ++ [0, 0] ++
    ordrTag ++ [0, 0, 0, 2] ++ [0, 0]

/-- The same program with an extra unknown (`XXXX`) chunk, which the parser
tolerates and drops. -/
def sampleUnknown : Bytes :=
  formTag ++ [0, 0, 0, 40] ++ emc2Tag ++
    [88, 88, 88, 88] ++ [0, 0, 0, 0] ++
    ordrTag ++ [0, 0, 0, 2] ++ [0, 0] ++
    dataTag ++ [0, 0, 0, 2] ++ [0, 0]

/-- The program value of the minimal container. -/
def sampleMinForm : Emc2Form :=
  { order := [0], strings := [], data := [0], text_present := false }

/-- The expected decompilation of the minimal container (the C9 text). -/
def minimalSourceText : String :=
  "strings = \x7b\x7d\n\nglobals = [global_0]\n\nlabel global_0\njmp(0, global_0)\n"

/-- The minimal source with a `# text: present` pragma comment prepended. -/
def pragmaSourceText : String :=
  "# text: present\n" ++ minimalSourceText

/-- The container compiled from `pragmaSourceText` (it carries an empty TEXT
chunk even though `strings` is empty). -/
def pragmaSourceBytes : Bytes :=
  match compile pragmaSourceText with
  | Except.ok b => b
  | Except.error _ => []

end Kyra

/-! ## Theorems -/

namespace Kyra

theorem bytesToNatBE_pair (a b : Nat) : bytesToNatBE [a, b] = a * 256 + b := by
  simp [bytesToNatBE, List.foldl]

theorem bytesToNatBE_quad (a b c d : Nat) :
    bytesToNatBE [a, b, c, d] = ((a * 256 + b) * 256 + c) * 256 + d := by
  simp [bytesToNatBE, List.foldl]

theorem u16chk_ok {x : Nat} (h : x ≤ 65535) : u16chk x = Except.ok x := by
  simp [u16chk]
  omega

theorem write_u16be_ok {x : Nat} (h : x < 65536) :
    write_u16be x = Except.ok [x / 256 % 256, x % 256] := by
  simp [write_u16be, h]

theorem write_u32be_ok {x : Nat} (h : x < 4294967296) :
    write_u32be x =
      Except.ok [x / 16777216 % 256, x / 65536 % 256, x / 256 % 256, x % 256] := by
  simp [write_u32be, h]

theorem bytesToNatBE_u16_round {x : Nat} (h : x < 65536) :
    bytesToNatBE [x / 256 % 256, x % 256] = x := by
  rw [bytesToNatBE_pair]
  omega

theorem bytesToNatBE_u32_round {x : Nat} (h : x < 4294967296) :
    bytesToNatBE [x / 16777216 % 256, x / 65536 % 256, x / 256 % 256, x % 256] = x := by
  rw [bytesToNatBE_quad]
  omega

theorem emitU16_ok {x : Nat} (h : x ≤ 65535) :
    (u16chk x >>= write_u16be) = Except.ok [x / 256 % 256, x % 256] := by
  rw [u16chk_ok h]
  simpa using write_u16be_ok (by omega)

theorem mapMex_u16_ok {l : List Nat} {ys : List Kyra.Bytes}
    (h : mapMex (fun x => u16chk x >>= write_u16be) l = Except.ok ys) :
    (∀ x ∈ l, x ≤ 65535) ∧ ys = l.map fun x => [x / 256 % 256, x % 256] := by
  induction l generalizing ys with
  | nil =>
    simp [mapMex] at h
    simp [h.symm]
  | cons x t ih =>
    rw [mapMex] at h
    by_cases hx : x ≤ 65535
    · rw [emitU16_ok hx] at h
      cases ht : mapMex (fun x => u16chk x >>= write_u16be) t with
      | error e => rw [ht] at h; exact absurd h (by simp)
      | ok ys' =>
        rw [ht] at h
        obtain ⟨h1, h2⟩ := ih ht
        refine ⟨?_, ?_⟩
        · intro z hz
          rcases List.mem_cons.mp hz with hz | hz
          · exact hz ▸ hx
          · exact h1 z hz
        · cases h
          simp [h2]
    · exfalso
      have : u16chk x = Except.error "Value out of u16 range." := by
        simp [u16chk]
        omega
      rw [this] at h
      exact absurd h (by simp [Bind.bind, Except.bind])

theorem emit_chunk_ok {name d c : Bytes} (h : emit_chunk name d = Except.ok c) :
    name.length = 4 ∧ d.length < 4294967296 ∧
    c = name ++
      [d.length / 16777216 % 256, d.length / 65536 % 256, d.length / 256 % 256,
        d.length % 256] ++ d ++ (if d.length % 2 = 1 then [0] else []) := by
  unfold emit_chunk at h
  by_cases hn : name.length = 4
  · simp only [hn, ne_eq, not_true_eq_false, if_false, reduceIte] at h
    by_cases hd : d.length < 4294967296
    · rw [write_u32be] at h
      simp only [if_pos hd] at h
      simp only [Bind.bind, Except.bind, pure, Except.pure] at h
      cases h
      exact ⟨hn, hd, rfl⟩
    · rw [write_u32be] at h
      simp only [if_neg hd] at h
      simp [Bind.bind, Except.bind, pure, Except.pure] at h
  · simp [hn, Bind.bind, Except.bind, throw, throwThe, MonadExceptOf.throw] at h

theorem chunkWalk_chunk {name d c rest : Bytes} {bs : ChunkBlocks} {fuel : Nat}
    (hc : emit_chunk name d = Except.ok c) :
    chunkWalk (fuel + 1) (c ++ rest) bs =
      chunkWalk fuel rest
        (if name = ordrTag then { bs with ordr := some d }
         else if name = textTag then { bs with text := some d }
         else if name = dataTag then { bs with data := some d }
         else bs) := by
  obtain ⟨hn, hd, hcc⟩ := emit_chunk_ok hc
  have hsz :
      ([d.length / 16777216 % 256, d.length / 65536 % 256, d.length / 256 % 256,
        d.length % 256] : Bytes).length = 4 := by simp
  have hassoc : c ++ rest =
      name ++
        ([d.length / 16777216 % 256, d.length / 65536 % 256, d.length / 256 % 256,
          d.length % 256] ++
          (d ++ ((if d.length % 2 = 1 then [0] else []) ++ rest))) := by
    rw [hcc]; simp [List.append_assoc]
  rw [chunkWalk, hassoc]
  rw [List.take_left' hn, List.drop_left' hn, List.take_left' hsz,
    bytesToNatBE_u32_round hd]
  have hlen :
      (name ++
        ([d.length / 16777216 % 256, d.length / 65536 % 256, d.length / 256 % 256,
          d.length % 256] ++
          (d ++ ((if d.length % 2 = 1 then [0] else []) ++ rest)))).length =
      8 + d.length + (if d.length % 2 = 1 then 1 else 0) + rest.length := by
    by_cases hodd : d.length % 2 = 1 <;> simp [hodd, hn] <;> omega
  rw [hlen]
  have h0 : 0 < 8 + d.length + (if d.length % 2 = 1 then 1 else 0) + rest.length := by
    omega
  rw [if_pos h0]
  have h8 : ¬ (8 > 8 + d.length + (if d.length % 2 = 1 then 1 else 0) + rest.length) := by
    omega
  rw [if_neg h8]
  have hdrop8 :
      (name ++
        ([d.length / 16777216 % 256, d.length / 65536 % 256, d.length / 256 % 256,
          d.length % 256] ++
          (d ++ ((if d.length % 2 = 1 then [0] else []) ++ rest)))).drop 8 =
        d ++ ((if d.length % 2 = 1 then [0] else []) ++ rest) := by
    have h84 : (8 : Nat) = 4 + 4 := rfl
    rw [h84, ← List.drop_drop, List.drop_left' hn, List.drop_left' hsz]
  rw [hdrop8]
  have htr : ¬ (8 + d.length > 8 + d.length + (if d.length % 2 = 1 then 1 else 0) +
      rest.length) := by omega
  rw [if_neg htr]
  rw [List.take_left' rfl]
  have hdropfull :
      (name ++
        ([d.length / 16777216 % 256, d.length / 65536 % 256, d.length / 256 % 256,
          d.length % 256] ++
          (d ++ ((if d.length % 2 = 1 then [0] else []) ++ rest)))).drop (8 + d.length) =
        (if d.length % 2 = 1 then [0] else []) ++ rest := by
    rw [← List.drop_drop, hdrop8, List.drop_left' rfl]
  by_cases hodd : d.length % 2 = 1
  · simp only [hodd, reduceIte] at hdropfull ⊢
    rw [hdropfull]
    have hcond :
        ¬ (8 + d.length ≥ 8 + d.length + 1 + rest.length ∨
          ([(0 : Nat)] ++ rest).take 1 ≠ [(0 : Nat)]) := by
      push_neg
      exact ⟨by omega, by simp⟩
    rw [if_neg hcond]
    have hdropnext :
        (name ++
          ([d.length / 16777216 % 256, d.length / 65536 % 256, d.length / 256 % 256,
            d.length % 256] ++
            (d ++ ([(0 : Nat)] ++ rest)))).drop (8 + d.length + 1) = rest := by
      rw [← List.drop_drop, hdropfull]
      simp
    rw [hdropnext]
  · simp only [hodd, reduceIte] at hdropfull ⊢
    rw [hdropfull]
    simp

theorem chunkWalk_nil {fuel : Nat} (hf : 0 < fuel) (bs : ChunkBlocks) :
    chunkWalk fuel [] bs = Except.ok bs := by
  cases fuel with
  | zero => omega
  | succ f => rw [chunkWalk]; simp

theorem checkTextStrings_ok {ss : List String} (h : checkTextStrings ss = Except.ok ()) :
    ∀ s ∈ ss, asciiOk s = true ∧ s.data.contains '\x00' = false := by
  induction ss with
  | nil => simp
  | cons s t ih =>
    rw [checkTextStrings] at h
    split_ifs at h with h1 h2
    · intro z hz
      rcases List.mem_cons.mp hz with hz | hz
      · subst hz
        refine ⟨?_, by simpa using h1⟩
        by_contra hna
        exact absurd h (by simp [hna] at h2 ⊢)
      · exact ih h z hz
  
theorem textOffsetsFrom_length (c : Nat) (ss : List String) :
    (textOffsetsFrom c ss).length = ss.length := by
  induction ss generalizing c with
  | nil => rfl
  | cons s t ih => simp [textOffsetsFrom, ih]

theorem textOffsetsFrom_headD (c : Nat) {ss : List String} (hne : ss ≠ []) :
    (textOffsetsFrom c ss).headD 0 = c := by
  cases ss with
  | nil => exact absurd rfl hne
  | cons s t => rfl

theorem textOffsetsFrom_ne_nil (c : Nat) {ss : List String} (hne : ss ≠ []) :
    textOffsetsFrom c ss ≠ [] := by
  cases ss with
  | nil => exact absurd rfl hne
  | cons s t => simp [textOffsetsFrom]

theorem read_flatten_pairs (off : List Nat) (tailB : Bytes)
    (hb : ∀ x ∈ off, x < 65536) :
    ∀ j, j < off.length →
      read_u16be ((off.map pairB).flatten ++ tailB) (2 * j) = off.getD j 0 := by
  induction off generalizing tailB with
  | nil => simp
  | cons o t ih =>
    intro j hj
    cases j with
    | zero =>
      have : ((o :: t).map pairB).flatten ++ tailB =
          pairB o ++ ((t.map pairB).flatten ++ tailB) := by simp [pairB]
      rw [read_u16be]
      simp only [Nat.mul_zero, List.drop_zero]
      rw [this, pairB]
      have h2 : ([o / 256 % 256, o % 256] ++ ((t.map pairB).flatten ++ tailB)).take 2 =
          [o / 256 % 256, o % 256] := List.take_left' rfl
      rw [h2, bytesToNatBE_pair]
      simp [List.getD]
      have ho : o < 65536 := hb o (by simp)
      omega
    | succ j =>
      have hstep : ((o :: t).map pairB).flatten ++ tailB =
          o / 256 % 256 :: o % 256 :: ((t.map pairB).flatten ++ tailB) := by
        simp [pairB]
      rw [read_u16be, hstep]
      have h2 : 2 * (j + 1) = (2 * j + 1) + 1 := by ring
      rw [h2, List.drop_succ_cons, List.drop_succ_cons, ← read_u16be]
      have := ih tailB (fun x hx => hb x (by simp [hx])) j (by simpa using hj)
      rw [this]
      simp [List.getD]

theorem textOffsetsLoop_run (tb : Bytes) :
    ∀ (todo done : List Nat) (fuel : Nat),
    todo.length ≤ fuel →
    todo ≠ [] →
    (done ++ todo).headD 0 = 2 * (done ++ todo).length →
    2 * (done ++ todo).length ≤ tb.length →
    (∀ j, j < todo.length → read_u16be tb (2 * done.length + 2 * j) = todo.getD j 0) →
    textOffsetsLoop fuel tb (2 * done.length) done = Except.ok (done ++ todo) := by
  intro todo
  induction todo with
  | nil => intro done fuel _ hne; exact absurd rfl hne
  | cons o rest ih =>
    intro done fuel hfuel _ hfirst hlen hread
    obtain ⟨f, rfl⟩ : ∃ f, fuel = f + 1 := by
      refine ⟨fuel - 1, ?_⟩
      simp only [List.length_cons] at hfuel
      omega
    have hi : 2 * done.length < tb.length := by
      simp only [List.length_append, List.length_cons] at hlen
      omega
    rw [textOffsetsLoop, if_pos hi]
    have h2 : ¬ (2 * done.length + 2 > tb.length) := by
      simp only [List.length_append, List.length_cons] at hlen
      omega
    rw [if_neg h2]
    have hro : read_u16be tb (2 * done.length) = o := by
      have := hread 0 (by simp)
      simpa using this
    rw [hro]
    have hhead : (done ++ [o]).headD 0 = (done ++ o :: rest).headD 0 := by
      cases done <;> simp
    by_cases hrest : rest = []
    · subst hrest
      have hfe : (done ++ [o]).headD 0 = 2 * done.length + 2 := by
        rw [hhead, hfirst]
        simp only [List.length_append, List.length_cons, List.length_nil]
        omega
      rw [if_pos (le_of_eq hfe), if_neg (by rw [hfe]; simp)]
    · have hgt : ¬ ((done ++ [o]).headD 0 ≤ 2 * done.length + 2) := by
        rw [hhead, hfirst]
        simp only [List.length_append, List.length_cons, List.length_nil]
        have : rest.length ≠ 0 := fun hc => hrest (List.length_eq_zero.mp hc)
        omega
      rw [if_neg hgt]
      have hstep := ih (done ++ [o]) f
        (by simp only [List.length_cons] at hfuel; omega) hrest
        (by simpa [List.append_assoc] using hfirst)
        (by simpa [List.append_assoc] using hlen)
        (fun j hj => by
          have := hread (j + 1) (by simpa using Nat.succ_lt_succ hj)
          simp only [List.length_append, List.length_cons, List.getD] at this ⊢
          have harith : 2 * done.length + 2 * (j + 1) = 2 * (done.length + 1) + 2 * j := by
            ring
          rw [harith] at this
          simpa using this)
      have harr : 2 * (done.length + 1) = 2 * done.length + 2 := by ring
      rw [← harr]
      have : 2 * (done ++ [o]).length = 2 * (done.length + 1) := by simp
      rw [← this]
      simpa [List.append_assoc] using hstep


theorem nondecreasing_cons {a : Nat} {l : List Nat} (hne : l ≠ [])
    (h1 : a ≤ l.headD 0) (h2 : nondecreasing l = true) :
    nondecreasing (a :: l) = true := by
  cases l with
  | nil => exact absurd rfl hne
  | cons b t =>
    simp only [List.headD] at h1
    simp [nondecreasing, h1, h2]

theorem textOffsetsFrom_append_headD (c y : Nat) (ss : List String) (hy : c ≤ y) :
    c ≤ (textOffsetsFrom c ss ++ [y]).headD 0 := by
  cases ss with
  | nil => simpa using hy
  | cons s t => simp [textOffsetsFrom]

theorem textOffsetsFrom_nondecreasing (ss : List String) :
    ∀ c, nondecreasing (textOffsetsFrom c ss ++ [c + strTotal ss]) = true := by
  induction ss with
  | nil => intro c; rfl
  | cons s t ih =>
    intro c
    have hshift : c + strTotal (s :: t) =
        (c + (encodeAscii s).length + 1) + strTotal t := by
      simp [strTotal]
      omega
    rw [textOffsetsFrom, hshift]
    simp only [List.cons_append]
    apply nondecreasing_cons (by simp)
    · have := textOffsetsFrom_append_headD (c + (encodeAscii s).length + 1)
        ((c + (encodeAscii s).length + 1) + strTotal t) t (by omega)
      omega
    · exact ih (c + (encodeAscii s).length + 1)

theorem textStringsLoop_run (tb : Bytes) :
    ∀ (ss : List String) (c : Nat),
    (∀ s ∈ ss, asciiOk s = true) →
    tb.drop c = (ss.map fun s => encodeAscii s ++ [0]).flatten →
    c + strTotal ss = tb.length →
    textStringsLoop tb ((textOffsetsFrom c ss ++ [tb.length]).zip
      ((textOffsetsFrom c ss ++ [tb.length]).tail)) = Except.ok ss := by
  intro ss
  induction ss with
  | nil =>
    intro c _ _ _
    rfl
  | cons s t ih =>
    intro c hascii hdrop hclen
    have hLc : c + ((encodeAscii s).length + 1) + strTotal t = tb.length := by
      simp only [strTotal, List.map_cons, List.sum_cons] at hclen ⊢
      omega
    -- The first zipped pair is (c, c') where c' is the cursor after `s`.
    have hzip :
        ((textOffsetsFrom c (s :: t) ++ [tb.length]).zip
          ((textOffsetsFrom c (s :: t) ++ [tb.length]).tail)) =
        (c, (textOffsetsFrom (c + (encodeAscii s).length + 1) t ++ [tb.length]).headD 0) ::
          ((textOffsetsFrom (c + (encodeAscii s).length + 1) t ++ [tb.length]).zip
            ((textOffsetsFrom (c + (encodeAscii s).length + 1) t ++ [tb.length]).tail)) := by
      rw [textOffsetsFrom]
      simp only [List.cons_append, List.tail_cons]
      cases htail : textOffsetsFrom (c + (encodeAscii s).length + 1) t ++ [tb.length] with
      | nil => exact absurd htail (by simp)
      | cons x xs => simp
    rw [hzip]
    have hheadval :
        (textOffsetsFrom (c + (encodeAscii s).length + 1) t ++ [tb.length]).headD 0 =
          c + (encodeAscii s).length + 1 := by
      cases t with
      | nil =>
        simp only [textOffsetsFrom, List.nil_append, List.headD]
        rw [← hLc]
        simp only [strTotal, List.map_nil, List.sum_nil]
        omega
      | cons u v => simp [textOffsetsFrom]
    rw [hheadval]
    rw [textStringsLoop]
    have hslice : (tb.drop c).take (c + (encodeAscii s).length + 1 - c) =
        encodeAscii s ++ [0] := by
      rw [hdrop]
      have harith : c + (encodeAscii s).length + 1 - c = (encodeAscii s).length + 1 := by
        omega
      rw [harith]
      simp only [List.map_cons, List.flatten_cons]
      have : ((encodeAscii s ++ [0]) : Bytes).length = (encodeAscii s).length + 1 := by
        simp
      rw [← this, List.take_left' rfl]
    simp only [hslice]
    have hasciis : ((encodeAscii s ++ [0]).all fun x => decide (x ≤ 127)) = true := by
      have hall := hascii s (by simp)
      simp only [asciiOk, List.all_eq_true] at hall
      rw [List.all_eq_true]
      intro x hx
      rcases List.mem_append.mp hx with hx | hx
      · simp only [encodeAscii, List.mem_map] at hx
        obtain ⟨ch, hch, hche⟩ := hx
        subst hche
        simpa using hall ch hch
      · simp only [List.mem_singleton] at hx
        subst hx
        simp
    rw [if_pos hasciis]
    have hchars : ((encodeAscii s ++ [0]).map fun x => Char.ofNat x) =
        s.data ++ ['\x00'] := by
      simp only [encodeAscii, List.map_append, List.map_map, List.map_cons, List.map_nil,
        Function.comp_def, Char.ofNat_toNat, List.map_id_fun', id]

    rw [hchars]
    have hlast : ((s.data ++ ['\x00']).getLast? = some '\x00') := by
      simp [List.getLast?_append]
    rw [if_pos hlast]
    have hdrop2 : tb.drop (c + (encodeAscii s).length + 1) =
        (t.map fun s => encodeAscii s ++ [0]).flatten := by
      have hsplit : c + (encodeAscii s).length + 1 = c + ((encodeAscii s).length + 1) := by
        omega
      rw [hsplit, ← List.drop_drop, hdrop]
      simp only [List.map_cons, List.flatten_cons]
      have hlen2 : ((encodeAscii s ++ [0]) : Bytes).length = (encodeAscii s).length + 1 := by
        simp
      rw [← hlen2, List.drop_left]
    have := ih (c + (encodeAscii s).length + 1) (fun z hz => hascii z (by simp [hz]))
      hdrop2 (by omega)
    rw [this]
    simp only [Bind.bind, Except.bind]
    congr 2
    rw [List.dropLast_append_of_ne_nil]
    · simp
    · simp

theorem pairsFlatten_length (off : List Nat) :
    ((off.map pairB).flatten).length = 2 * off.length := by
  induction off with
  | nil => rfl
  | cons o t ih => simp [pairB, ih]; omega

theorem strFlatten_length (ss : List String) :
    ((ss.map fun s => encodeAscii s ++ [0]).flatten).length = strTotal ss := by
  induction ss with
  | nil => rfl
  | cons s t ih => simp [strTotal, ih] at ih ⊢; omega

theorem wordsOfBytes_pairs {l : List Nat} (hb : ∀ x ∈ l, x ≤ 65535) :
    wordsOfBytes ((l.map pairB).flatten) = l := by
  induction l with
  | nil => rfl
  | cons x t ih =>
    have hx : x ≤ 65535 := hb x (by simp)
    have : ((x :: t).map pairB).flatten =
        x / 256 % 256 :: x % 256 :: (t.map pairB).flatten := by simp [pairB]
    rw [this, wordsOfBytes, ih (fun z hz => hb z (by simp [hz]))]
    congr 1
    omega

theorem decode_encode_text {ss : List String} {tb : Bytes}
    (h : encode_text_block ss = Except.ok tb) : decode_text_block tb = Except.ok ss := by
  unfold encode_text_block at h
  cases hchk : checkTextStrings ss with
  | error e => rw [hchk] at h; simp [Bind.bind, Except.bind] at h
  | ok u =>
    cases u
    rw [hchk] at h
    simp only [Bind.bind, Except.bind] at h
    split at h
    case h_1 => exact absurd h (by simp)
    case h_2 obs hm =>
      simp only [Except.ok.injEq] at h
      obtain ⟨hbound, hobs⟩ := mapMex_u16_ok hm
      have hobs2 : obs.flatten =
          ((textOffsetsFrom (2 * ss.length) ss).map pairB).flatten := by
        rw [hobs]; rfl
      have hstrs := checkTextStrings_ok hchk
      by_cases hne : ss = []
      · subst hne
        have htb : tb = [] := by
          rw [← h, hobs2]
          rfl
        subst htb
        rfl
      · have hn1 : 1 ≤ ss.length := by
          cases ss with
          | nil => exact absurd rfl hne
          | cons a b => simp
        have htb : tb = ((textOffsetsFrom (2 * ss.length) ss).map pairB).flatten ++
            (ss.map fun s => encodeAscii s ++ [0]).flatten := by
          rw [← h, hobs2]
        have holen : (textOffsetsFrom (2 * ss.length) ss).length = ss.length :=
          textOffsetsFrom_length _ _
        have htblen : tb.length = 2 * ss.length + strTotal ss := by
          rw [htb]
          simp only [List.length_append, pairsFlatten_length, strFlatten_length, holen]
        have hfirstoff : (textOffsetsFrom (2 * ss.length) ss).headD 0 = 2 * ss.length :=
          textOffsetsFrom_headD _ hne
        -- Run the offset-table loop.
        have hloop := textOffsetsLoop_run tb (textOffsetsFrom (2 * ss.length) ss) []
          (tb.length + 1)
          (by rw [holen]; omega)
          (textOffsetsFrom_ne_nil _ hne)
          (by simpa [holen] using hfirstoff)
          (by simp only [List.nil_append, holen]; omega)
          (by
            intro j hj
            have := read_flatten_pairs (textOffsetsFrom (2 * ss.length) ss)
              ((ss.map fun s => encodeAscii s ++ [0]).flatten)
              (fun x hx => by have := hbound x hx; omega) j (by simpa [holen] using hj)
            rw [← htb] at this
            simpa using this)
        simp only [List.nil_append, List.length_nil, Nat.mul_zero] at hloop
        rw [decode_text_block]
        simp only [Bind.bind, Except.bind, hloop]
        have hnotempty :
            ¬ ((textOffsetsFrom (2 * ss.length) ss).isEmpty = true ∧ tb.length ≠ 0) := by
          intro hcontra
          exact textOffsetsFrom_ne_nil _ hne (List.isEmpty_iff.mp hcontra.1)
        rw [if_neg hnotempty]
        have hnondec :
            nondecreasing (textOffsetsFrom (2 * ss.length) ss ++ [tb.length]) = true := by
          rw [htblen]
          exact textOffsetsFrom_nondecreasing ss (2 * ss.length)
        rw [if_neg (by simp [hnondec])]
        have hdroptable : tb.drop (2 * ss.length) =
            (ss.map fun s => encodeAscii s ++ [0]).flatten := by
          rw [htb]
          exact List.drop_left' (by rw [pairsFlatten_length, holen])
        have hstlr := textStringsLoop_run tb ss (2 * ss.length)
          (fun z hz => (hstrs z hz).1) hdroptable (by omega)
        exact hstlr

theorem mapMex_words_flatten {l : List Nat} {ys : List Bytes}
    (hm : mapMex (fun x => do write_u16be (← u16chk x)) l = Except.ok ys) :
    ys.flatten = (l.map pairB).flatten ∧ ys.flatten.length = 2 * l.length ∧
      wordsOfBytes ys.flatten = l := by
  obtain ⟨hb, hys⟩ := mapMex_u16_ok hm
  have hpb : ys = l.map pairB := by rw [hys]; rfl
  subst hpb
  refine ⟨rfl, pairsFlatten_length l, wordsOfBytes_pairs hb⟩

theorem parse_emc2_split {chunks lenBytes : Bytes}
    (hlen : write_u32be (8 + (emc2Tag ++ chunks).length) = Except.ok lenBytes) :
    parse_emc2 (formTag ++ lenBytes ++ (emc2Tag ++ chunks)) =
      (chunkWalk (chunks.length + 1) chunks ⟨none, none, none⟩) >>= emc2FromBlocks := by
  have htot : 8 + (emc2Tag ++ chunks).length < 4294967296 := by
    by_contra hcontra
    rw [write_u32be, if_neg hcontra] at hlen
    exact absurd hlen (by simp)
  have hlenBytes : lenBytes =
      [(8 + (emc2Tag ++ chunks).length) / 16777216 % 256,
       (8 + (emc2Tag ++ chunks).length) / 65536 % 256,
       (8 + (emc2Tag ++ chunks).length) / 256 % 256,
       (8 + (emc2Tag ++ chunks).length) % 256] := by
    rw [write_u32be, if_pos htot] at hlen
    exact (Except.ok.inj hlen).symm
  have hlb4 : lenBytes.length = 4 := by rw [hlenBytes]; rfl
  have hf4 : (formTag : Bytes).length = 4 := rfl
  have he4 : (emc2Tag : Bytes).length = 4 := rfl
  unfold parse_emc2
  have hassoc : formTag ++ lenBytes ++ (emc2Tag ++ chunks) =
      formTag ++ (lenBytes ++ (emc2Tag ++ chunks)) := by
    simp [List.append_assoc]
  rw [hassoc, List.take_left' hf4]
  simp only [ne_eq, not_true_eq_false, if_false, reduceIte]
  have hrd : read_u32be (formTag ++ (lenBytes ++ (emc2Tag ++ chunks))) 4 =
      8 + (emc2Tag ++ chunks).length := by
    rw [read_u32be, List.drop_left' hf4, List.take_left' hlb4, hlenBytes]
    exact bytesToNatBE_u32_round htot
  rw [hrd]
  have hblen : (formTag ++ (lenBytes ++ (emc2Tag ++ chunks))).length =
      8 + (emc2Tag ++ chunks).length := by
    simp only [List.length_append, hf4, hlb4]
    omega
  rw [hblen]
  simp only [ne_eq, not_true_eq_false, if_false, reduceIte]
  have hdrop8 : (formTag ++ (lenBytes ++ (emc2Tag ++ chunks))).drop 8 =
      emc2Tag ++ chunks := by
    have h84 : (8 : Nat) = 4 + 4 := rfl
    rw [h84, ← List.drop_drop, List.drop_left' hf4, List.drop_left' hlb4]
  rw [hdrop8, List.take_left' he4]
  simp only [ne_eq, not_true_eq_false, if_false, reduceIte]
  rw [List.drop_left' he4]
  rfl

theorem emc2FromBlocks_ok {fOrder fData : List Nat} {fStrings : List String}
    {orderBytes dataBytes : List Bytes} {topt : Option Bytes}
    (hmo : mapMex (fun x => do write_u16be (← u16chk x)) fOrder = Except.ok orderBytes)
    (hmd : mapMex (fun x => do write_u16be (← u16chk x)) fData = Except.ok dataBytes)
    (htext : (match topt with
              | none => Except.ok []
              | some tb => decode_text_block tb) = Except.ok fStrings) :
    emc2FromBlocks ⟨some orderBytes.flatten, topt, some dataBytes.flatten⟩ =
      Except.ok ⟨fOrder, fStrings, fData, topt.isSome⟩ := by
  obtain ⟨hoflat, holen, howords⟩ := mapMex_words_flatten hmo
  obtain ⟨hdflat, hdlen, hdwords⟩ := mapMex_words_flatten hmd
  unfold emc2FromBlocks
  simp only
  rw [if_neg (by omega)]
  rw [htext]
  show (if dataBytes.flatten.length % 2 ≠ 0 then
      (Except.error "DATA size is not a multiple of 2." : Except String Emc2Form)
    else Except.ok ⟨wordsOfBytes orderBytes.flatten, fStrings,
      wordsOfBytes dataBytes.flatten, topt.isSome⟩) =
    Except.ok ⟨fOrder, fStrings, fData, topt.isSome⟩
  rw [if_neg (by omega)]
  rw [howords, hdwords]

theorem chunkWalk_ok_chunked :
    ∀ (fuel : Nat) (rest : Bytes) (bs bs' : ChunkBlocks),
    chunkWalk fuel rest bs = Except.ok bs' →
    ∃ cs, Chunked rest cs ∧
      (bs'.ordr.isSome = true → bs.ordr.isSome = true ∨ ∃ p ∈ cs, p.1 = ordrTag) ∧
      (bs'.data.isSome = true → bs.data.isSome = true ∨ ∃ p ∈ cs, p.1 = dataTag) := by
  intro fuel
  induction fuel with
  | zero =>
    intro rest bs bs' h
    exact absurd h (by simp [chunkWalk])
  | succ f ih =>
    intro rest bs bs' h
    rw [chunkWalk] at h
    by_cases h0 : 0 < rest.length
    case neg =>
      rw [if_neg h0] at h
      have hre : rest = [] := List.length_eq_zero.mp (by omega)
      subst hre
      cases h
      exact ⟨[], Chunked.nil, fun hh => Or.inl hh, fun hh => Or.inl hh⟩
    case pos =>
      rw [if_pos h0] at h
      by_cases h8 : 8 > rest.length
      · rw [if_pos h8] at h
        exact absurd h (by simp)
      · rw [if_neg h8] at h
        simp only at h
        by_cases htr : 8 + bytesToNatBE ((rest.drop 4).take 4) > rest.length
        · rw [if_pos htr] at h
          exact absurd h (by simp)
        · rw [if_neg htr] at h
          -- Name the pieces.
          set size := bytesToNatBE ((rest.drop 4).take 4) with hsizedef
          set name := rest.take 4 with hnamedef
          set chunk := (rest.drop 8).take size with hchunkdef
          have hname4 : name.length = 4 := by
            rw [hnamedef, List.length_take]
            omega
          have hsz4 : ((rest.drop 4).take 4).length = 4 := by
            rw [List.length_take, List.length_drop]
            omega
          have hchlen : chunk.length = size := by
            rw [hchunkdef, List.length_take, List.length_drop]
            omega
          have hsplit0 : rest = name ++ ((rest.drop 4).take 4) ++ chunk ++
              rest.drop (8 + size) := by
            conv_lhs => rw [← List.take_append_drop 4 rest]
            rw [List.append_assoc, List.append_assoc]
            congr 1
            conv_lhs => rw [← List.take_append_drop 4 (rest.drop 4)]
            congr 1
            rw [List.drop_drop]
            conv_lhs => rw [← List.take_append_drop size (rest.drop 8)]
            congr 1
            rw [List.drop_drop]
          by_cases hodd : size % 2 = 1
          · rw [if_pos hodd] at h
            by_cases hpad : 8 + size ≥ rest.length ∨ (rest.drop (8 + size)).take 1 ≠ [0]
            · rw [if_pos hpad] at h
              exact absurd h (by simp)
            · rw [if_neg hpad] at h
              push_neg at hpad
              obtain ⟨hpl, hp1⟩ := hpad
              obtain ⟨cs, hcs, ho, hd⟩ := ih _ _ _ h
              have hsplitpad : rest.drop (8 + size) = [0] ++ rest.drop (8 + size + 1) := by
                conv_lhs => rw [← List.take_append_drop 1 (rest.drop (8 + size))]
                rw [hp1, List.drop_drop]
              refine ⟨(name, chunk) :: cs, ?_, ?_, ?_⟩
              · have hfinal : rest = name ++ ((rest.drop 4).take 4) ++ chunk ++
                    (if chunk.length % 2 = 1 then [0] else []) ++ rest.drop (8 + size + 1) := by
                  rw [hchlen, if_pos hodd]
                  conv_lhs => rw [hsplit0, hsplitpad]
                  simp [List.append_assoc]
                rw [hfinal]
                exact Chunked.cons name _ chunk _ cs hname4 hsz4 (by rw [hchlen]) hcs
              · intro hh
                rcases ho hh with hh2 | hh2
                · by_cases hn1 : name = ordrTag
                  · exact Or.inr ⟨(name, chunk), by simp, hn1⟩
                  · left
                    by_cases hn2 : name = textTag
                    · simpa [hn1, hn2] using hh2
                    · by_cases hn3 : name = dataTag
                      · simpa [hn1, hn2, hn3] using hh2
                      · simpa [hn1, hn2, hn3] using hh2
                · exact Or.inr (by
                    obtain ⟨p, hp, hpe⟩ := hh2
                    exact ⟨p, by simp [hp], hpe⟩)
              · intro hh
                rcases hd hh with hh2 | hh2
                · by_cases hn3 : name = dataTag
                  · exact Or.inr ⟨(name, chunk), by simp, hn3⟩
                  · left
                    by_cases hn1 : name = ordrTag
                    · simpa [hn1, hn3] using hh2
                    · by_cases hn2 : name = textTag
                      · simpa [hn1, hn2, hn3] using hh2
                      · simpa [hn1, hn2, hn3] using hh2
                · exact Or.inr (by
                    obtain ⟨p, hp, hpe⟩ := hh2
                    exact ⟨p, by simp [hp], hpe⟩)
          · rw [if_neg hodd] at h
            obtain ⟨cs, hcs, ho, hd⟩ := ih _ _ _ h
            refine ⟨(name, chunk) :: cs, ?_, ?_, ?_⟩
            · have hfinal : rest = name ++ ((rest.drop 4).take 4) ++ chunk ++
                  (if chunk.length % 2 = 1 then [0] else []) ++ rest.drop (8 + size) := by
                rw [hchlen, if_neg hodd]
                conv_lhs => rw [hsplit0]
                simp [List.append_assoc]
              rw [hfinal]
              exact Chunked.cons name _ chunk _ cs hname4 hsz4 (by rw [hchlen]) hcs
            · intro hh
              rcases ho hh with hh2 | hh2
              · by_cases hn1 : name = ordrTag
                · exact Or.inr ⟨(name, chunk), by simp, hn1⟩
                · left
                  by_cases hn2 : name = textTag
                  · simpa [hn1, hn2] using hh2
                  · by_cases hn3 : name = dataTag
                    · simpa [hn1, hn2, hn3] using hh2
                    · simpa [hn1, hn2, hn3] using hh2
              · exact Or.inr (by
                  obtain ⟨p, hp, hpe⟩ := hh2
                  exact ⟨p, by simp [hp], hpe⟩)
            · intro hh
              rcases hd hh with hh2 | hh2
              · by_cases hn3 : name = dataTag
                · exact Or.inr ⟨(name, chunk), by simp, hn3⟩
                · left
                  by_cases hn1 : name = ordrTag
                  · simpa [hn1, hn3] using hh2
                  · by_cases hn2 : name = textTag
                    · simpa [hn1, hn2, hn3] using hh2
                    · simpa [hn1, hn2, hn3] using hh2
              · exact Or.inr (by
                  obtain ⟨p, hp, hpe⟩ := hh2
                  exact ⟨p, by simp [hp], hpe⟩)

theorem emc2FromBlocks_needs_blocks {bs : ChunkBlocks} {f : Emc2Form}
    (h : emc2FromBlocks bs = Except.ok f) :
    bs.ordr.isSome = true ∧ bs.data.isSome = true := by
  unfold emc2FromBlocks at h
  cases ho : bs.ordr with
  | none => rw [ho] at h; exact absurd h (by simp)
  | some ob =>
    cases hd : bs.data with
    | none => rw [ho, hd] at h; exact absurd h (by simp)
    | some db => exact ⟨by simp [ho], by simp [hd]⟩


theorem parse_ok_shape {b : Bytes} {f : Emc2Form} (h : parse_emc2 b = Except.ok f) :
    b.take 4 = formTag ∧ read_u32be b 4 = b.length ∧ (b.drop 8).take 4 = emc2Tag ∧
    ∃ cs, Chunked ((b.drop 8).drop 4) cs ∧
      (∃ p ∈ cs, p.1 = ordrTag) ∧ (∃ p ∈ cs, p.1 = dataTag) := by
  unfold parse_emc2 at h
  by_cases h1 : b.take 4 ≠ formTag
  · rw [if_pos h1] at h
    exact absurd h (by simp [Bind.bind, Except.bind, throw, throwThe, MonadExceptOf.throw])
  · rw [if_neg h1] at h
    simp only [Bind.bind, Except.bind, pure, Except.pure] at h
    by_cases h2 : read_u32be b 4 ≠ b.length
    · rw [if_pos h2] at h
      exact absurd h (by simp [throw, throwThe, MonadExceptOf.throw])
    · rw [if_neg h2] at h
      by_cases h3 : (b.drop 8).take 4 ≠ emc2Tag
      · rw [if_pos h3] at h
        exact absurd h (by simp [throw, throwThe, MonadExceptOf.throw])
      · rw [if_neg h3] at h
        push_neg at h1 h2 h3
        refine ⟨h1, h2, h3, ?_⟩
        split at h
        next => exact absurd h (by simp)
        next bs hwalk =>
          obtain ⟨cs, hcs, ho, hd⟩ := chunkWalk_ok_chunked _ _ _ _ hwalk
          obtain ⟨hbo, hbd⟩ := emc2FromBlocks_needs_blocks h
          refine ⟨cs, hcs, ?_, ?_⟩
          · rcases ho hbo with hfalse | hgood
            · exact absurd hfalse (by simp)
            · exact hgood
          · rcases hd hbd with hfalse | hgood
            · exact absurd hfalse (by simp)
            · exact hgood

theorem slice4_shape {data : Bytes} {i : Nat} (h4 : i + 4 ≤ data.length) :
    ∃ a b c d, (data.drop i).take 4 = [a, b, c, d] ∧
      readU32le data i = a + 256 * (b + 256 * (c + 256 * d)) ∧
      a ∈ data ∧ b ∈ data ∧ c ∈ data ∧ d ∈ data := by
  have hl : ((data.drop i).take 4).length = 4 := by
    rw [List.length_take, List.length_drop]
    omega
  have hsub : ∀ x ∈ (data.drop i).take 4, x ∈ data := fun x hx =>
    List.mem_of_mem_drop (List.mem_of_mem_take hx)
  rcases hq : (data.drop i).take 4 with _ | ⟨a, _ | ⟨b, _ | ⟨c, _ | ⟨d, rest⟩⟩⟩⟩ <;>
    rw [hq] at hl <;> simp at hl
  subst hl
  rw [hq] at hsub
  refine ⟨a, b, c, d, rfl, ?_, hsub a (by simp), hsub b (by simp), hsub c (by simp),
    hsub d (by simp)⟩
  rw [readU32le, hq, bytesToNatLE]
  simp [List.foldr]
  ring

theorem readU32le_zero_bytes {data : Bytes} {i : Nat} (h4 : i + 4 ≤ data.length)
    (hv : readU32le data i = 0) : (data.drop i).take 4 = u32leBytes 0 := by
  obtain ⟨a, b, c, d, hq, hval, _, _, _, _⟩ := slice4_shape h4
  rw [hv] at hval
  have : a = 0 ∧ b = 0 ∧ c = 0 ∧ d = 0 := by omega
  obtain ⟨rfl, rfl, rfl, rfl⟩ := this
  rw [hq]
  rfl

theorem slice4_eq_u32le {data : Bytes} {i : Nat} (h4 : i + 4 ≤ data.length)
    (hb : ∀ x ∈ data, x < 256) :
    (data.drop i).take 4 = u32leBytes (readU32le data i) := by
  obtain ⟨a, b, c, d, hq, hval, ha, hbm, hc, hd⟩ := slice4_shape h4
  have ha2 := hb a ha
  have hb2 := hb b hbm
  have hc2 := hb c hc
  have hd2 := hb d hd
  rw [hq, hval, u32leBytes]
  have e1 : (a + 256 * (b + 256 * (c + 256 * d))) % 256 = a := by omega
  have e2 : (a + 256 * (b + 256 * (c + 256 * d))) / 256 % 256 = b := by omega
  have e3 : (a + 256 * (b + 256 * (c + 256 * d))) / 65536 % 256 = c := by omega
  have e4 : (a + 256 * (b + 256 * (c + 256 * d))) / 16777216 % 256 = d := by omega
  rw [e1, e2, e3, e4]

theorem pakHeaderLoop_shape :
    ∀ (fuel : Nat) (data : Bytes) (i : Nat) (offsets0 : List Nat)
      (names0 : List String) (offsets' : List Nat) (names' : List String) (i' : Nat),
    (∀ x ∈ data, x < 256) →
    i ≤ data.length →
    pakHeaderLoop fuel data i offsets0 names0 = Except.ok (offsets', names', i') →
    ∃ pairs : List (Nat × Bytes),
      offsets' = offsets0 ++ pairs.map Prod.fst ∧
      (∀ p ∈ pairs, p.1 ≠ 0 ∧ (∀ x ∈ p.2, x ≤ 127) ∧ ¬ (0 : Nat) ∈ p.2) ∧
      i ≤ i' ∧
      ((data.drop i).take (i' - i) = (pairs.map pakPairEnc).flatten ++ u32leBytes 0 ∨
        ((data.drop i).take (i' - i) = (pairs.map pakPairEnc).flatten ∧
          i' = data.length)) := by
  intro fuel
  induction fuel with
  | zero =>
    intro data i o0 n0 o' n' i' _ _ h
    exact absurd h (by simp [pakHeaderLoop])
  | succ f ih =>
    intro data i o0 n0 o' n' i' hbytes hile h
    rw [pakHeaderLoop] at h
    by_cases hlt : i < data.length
    case neg =>
      rw [if_neg hlt] at h
      obtain ⟨rfl, rfl, rfl⟩ : o0 = o' ∧ n0 = n' ∧ i = i' := by
        cases h
        exact ⟨rfl, rfl, rfl⟩
      refine ⟨[], by simp, by simp, le_refl _, Or.inr ⟨by simp, by omega⟩⟩
    case pos =>
      rw [if_pos hlt] at h
      by_cases h4 : i + 4 ≤ data.length
      case neg =>
        rw [if_pos (by simpa using h4)] at h
        exact absurd h (by simp)
      case pos =>
        rw [if_neg (by simpa using h4)] at h
        by_cases hz : readU32le data i = 0
        · rw [if_pos hz] at h
          obtain ⟨rfl, rfl, rfl⟩ : o0 = o' ∧ n0 = n' ∧ i + 4 = i' := by
            cases h
            exact ⟨rfl, rfl, rfl⟩
          refine ⟨[], by simp, by simp, by omega, Or.inl ?_⟩
          have hsl : i + 4 - i = 4 := by omega
          rw [hsl]
          simpa using readU32le_zero_bytes h4 hz
        · rw [if_neg hz] at h
          split at h
          next hfind => exact absurd h (by simp)
          next name_end hfind =>
            -- Properties of the NUL search.
            rw [findNulFrom] at hfind
            cases hidx : (data.drop (i + 4)).findIdx? fun b => b = 0 with
            | none => rw [hidx] at hfind; exact absurd hfind (by simp)
            | some j =>
              rw [hidx] at hfind
              simp only [Option.map_some', Option.some.injEq] at hfind
              obtain ⟨hjlt, hj0, hjmin⟩ := List.findIdx?_eq_some_iff_getElem.mp hidx
              have hne_lt : name_end < data.length := by
                rw [← hfind]
                have := hjlt
                rw [List.length_drop] at this
                omega
              have hne_ge : i + 4 ≤ name_end := by omega
              split at h
              next e hdec => exact absurd h (by simp)
              next name hdec =>
                have hrec := ih data (name_end + 1) (o0 ++ [readU32le data i])
                  (n0 ++ [name]) o' n' i' hbytes (by omega) h
                obtain ⟨pairs, ho, hwf, hii, hslice⟩ := hrec
                set nameBytes := (data.drop (i + 4)).take (name_end - (i + 4))
                  with hnbdef
                have hnbwf : (∀ x ∈ nameBytes, x ≤ 127) ∧ ¬ (0 : Nat) ∈ nameBytes := by
                  constructor
                  · intro x hx
                    rw [decodeAscii] at hdec
                    by_cases hall : nameBytes.all fun x => x ≤ 127
                    · rw [List.all_eq_true] at hall
                      simpa using hall x hx
                    · rw [if_neg hall] at hdec
                      exact absurd hdec (by simp)
                  · intro hx
                    obtain ⟨k, hk, hk0⟩ := List.getElem_of_mem hx
                    have hklt : k < name_end - (i + 4) := by
                      have := hk
                      rw [hnbdef, List.length_take, List.length_drop] at this
                      omega
                    have hmin := hjmin k (by omega)
                    have hk0q : ((data.drop (i + 4)).take (name_end - (i + 4)))[k]? =
                        some 0 := by
                      rw [← hnbdef, List.getElem?_eq_getElem hk, hk0]
                    rw [List.getElem?_take_of_lt hklt] at hk0q
                    have hklen : k < (data.drop (i + 4)).length := by
                      rw [List.length_drop]
                      omega
                    rw [List.getElem?_eq_getElem hklen] at hk0q
                    simp only [Option.some.injEq] at hk0q
                    simp [hk0q] at hmin
                refine ⟨(readU32le data i, nameBytes) :: pairs, ?_, ?_, by omega, ?_⟩
                · rw [ho]
                  simp
                · intro p hp
                  rcases List.mem_cons.mp hp with hp | hp
                  · subst hp
                    exact ⟨hz, hnbwf.1, hnbwf.2⟩
                  · exact hwf p hp
                · have hd0 : data[name_end] = 0 := by
                    have hje : (data.drop (i + 4))[j] = data[name_end] := by
                      rw [List.getElem_drop]
                      congr 1
                      omega
                    rw [← hje]
                    simpa using hj0
                  have hdropne : data.drop name_end =
                      0 :: data.drop (name_end + 1) := by
                    rw [List.drop_eq_getElem_cons hne_lt, hd0]
                  have harith : i' - i =
                      4 + ((name_end - (i + 4)) + (1 + (i' - (name_end + 1)))) := by
                    omega
                  rw [harith, List.take_add]
                  have hdd1 : (data.drop i).drop 4 = data.drop (i + 4) := by
                    rw [List.drop_drop]
                  rw [hdd1, List.take_add]
                  have hdd2 : (data.drop (i + 4)).drop (name_end - (i + 4)) =
                      data.drop name_end := by
                    rw [List.drop_drop]
                    congr 1
                    omega
                  rw [hdd2, List.take_add]
                  have hdd3 : (data.drop name_end).drop 1 = data.drop (name_end + 1) := by
                    rw [List.drop_drop]
                  have htake1 : (data.drop name_end).take 1 = [0] := by
                    rw [hdropne]
                    rfl
                  rw [hdd3, htake1, slice4_eq_u32le h4 hbytes]
                  rcases hslice with hsl | ⟨hsl, hlen⟩
                  · left
                    rw [hsl]
                    simp [pakPairEnc, List.append_assoc]
                  · right
                    refine ⟨?_, hlen⟩
                    rw [hsl]
                    simp [pakPairEnc, List.append_assoc]
theorem decodePak_header_shape {b : Bytes} {m : List (String × Bytes)}
    (hbytes : ∀ x ∈ b, x < 256) (h : decodePak b = Except.ok m) :
    pakAmendedHeader b := by
  unfold decodePak at h
  simp only [Bind.bind, Except.bind] at h
  split at h
  next => exact absurd h (by simp)
  next trip hloop =>
    obtain ⟨offsets', names', i'⟩ := trip
    obtain ⟨pairs, ho, hwf, _, hslice⟩ :=
      pakHeaderLoop_shape _ b 0 [] [] offsets' names' i' hbytes (by omega) hloop
    simp only [List.nil_append] at ho
    subst ho
    by_cases hhead : i' ≠ (pairs.map Prod.fst ++ [b.length]).headD 0
    · rw [if_pos hhead] at h
      exact absurd h (by simp [throw, throwThe, MonadExceptOf.throw])
    · rw [if_neg hhead] at h
      push_neg at hhead
      by_cases hnd : ¬ nondecreasing (pairs.map Prod.fst ++ [b.length]) = true
      · rw [if_pos hnd] at h
        exact absurd h (by simp [throw, throwThe, MonadExceptOf.throw])
      · push_neg at hnd
        refine ⟨pairs, i', hwf, ?_, ?_, hnd⟩
        · simpa using hslice
        · rw [hhead]
          cases pairs with
          | nil => rfl
          | cons p t => rfl

theorem parse_emit_id {form : Emc2Form} {b : Bytes}
    (hstr : form.text_present = false → form.strings = [])
    (h : emit_emc2 form = Except.ok b) :
    parse_emc2 b = Except.ok form := by
  obtain ⟨fOrder, fStrings, fData, fTp⟩ := form
  simp only at hstr
  unfold emit_emc2 at h
  simp only [Bind.bind, Except.bind] at h
  cases fTp with
  | false =>
    have hstr2 : fStrings = [] := hstr rfl
    subst hstr2
    simp only [Bool.false_eq_true, if_false, reduceIte] at h
    split at h
    case h_1 => exact absurd h (by simp)
    case h_2 orderBytes hmo =>
    split at h
    case h_1 => exact absurd h (by simp)
    case h_2 c1 hc1 =>
    split at h
    case h_1 => exact absurd h (by simp)
    case h_2 dataBytes hmd =>
    split at h
    case h_1 => exact absurd h (by simp)
    case h_2 c3 hc3 =>
    split at h
    case h_1 => exact absurd h (by simp)
    case h_2 lenBytes hlen =>
    simp only [Except.ok.injEq] at h
    subst h
    have hchunks : ([c1] ++ ([] : List Bytes) ++ [c3]).flatten = c1 ++ (c3 ++ []) := by
      simp
    rw [hchunks] at hlen ⊢
    rw [parse_emc2_split hlen]
    obtain ⟨hc1n, _, hc1shape⟩ := emit_chunk_ok hc1
    obtain ⟨hc3n, _, hc3shape⟩ := emit_chunk_ok hc3
    have hc1len : 8 ≤ c1.length := by
      rw [hc1shape]
      simp only [List.length_append, hc1n, List.length_cons, List.length_nil]
      omega
    have hc3len : 8 ≤ c3.length := by
      rw [hc3shape]
      simp only [List.length_append, hc3n, List.length_cons, List.length_nil]
      omega
    have hfs : (c1 ++ (c3 ++ [])).length + 1 =
        ((c1 ++ (c3 ++ [])).length - 1) + 1 + 1 := by
      simp only [List.length_append]
      omega
    rw [hfs, chunkWalk_chunk hc1]
    simp only [reduceIte]
    have hfs2 : (c1 ++ (c3 ++ [])).length - 1 = ((c1 ++ (c3 ++ [])).length - 2) + 1 := by
      simp only [List.length_append]
      omega
    rw [hfs2, chunkWalk_chunk hc3]
    have hne1 : ¬ ((dataTag : Bytes) = ordrTag) := by decide
    have hne2 : ¬ ((dataTag : Bytes) = textTag) := by decide
    rw [if_neg hne1, if_neg hne2]
    simp only [reduceIte]
    rw [chunkWalk_nil (by simp only [List.length_append]; omega)]
    have := @emc2FromBlocks_ok _ _ _ _ _ none hmo hmd rfl
    simp only [Bind.bind, Except.bind]
    simpa using this
  | true =>
    simp only [Bool.true_eq_false, if_true, reduceIte] at h ⊢
    split at h
    case h_1 => exact absurd h (by simp)
    case h_2 orderBytes hmo =>
    split at h
    case h_1 => exact absurd h (by simp)
    case h_2 c1 hc1 =>
    split at h
    case h_1 => exact absurd h (by simp)
    case h_2 textBytes henc =>
    split at h
    case h_1 => exact absurd h (by simp)
    case h_2 c2 hc2 =>
    split at h
    case h_1 => exact absurd h (by simp)
    case h_2 dataBytes hmd =>
    split at h
    case h_1 => exact absurd h (by simp)
    case h_2 c3 hc3 =>
    split at h
    case h_1 => exact absurd h (by simp)
    case h_2 lenBytes hlen =>
    simp only [Except.ok.injEq] at h
    subst h
    have hchunks : ([c1] ++ [c2] ++ [c3]).flatten = c1 ++ (c2 ++ (c3 ++ [])) := by
      simp
    rw [hchunks] at hlen ⊢
    rw [parse_emc2_split hlen]
    obtain ⟨hc1n, _, hc1shape⟩ := emit_chunk_ok hc1
    obtain ⟨hc2n, _, hc2shape⟩ := emit_chunk_ok hc2
    obtain ⟨hc3n, _, hc3shape⟩ := emit_chunk_ok hc3
    have hc1len : 8 ≤ c1.length := by
      rw [hc1shape]
      simp only [List.length_append, hc1n, List.length_cons, List.length_nil]
      omega
    have hc2len : 8 ≤ c2.length := by
      rw [hc2shape]
      simp only [List.length_append, hc2n, List.length_cons, List.length_nil]
      omega
    have hc3len : 8 ≤ c3.length := by
      rw [hc3shape]
      simp only [List.length_append, hc3n, List.length_cons, List.length_nil]
      omega
    have hfs : (c1 ++ (c2 ++ (c3 ++ []))).length + 1 =
        ((c1 ++ (c2 ++ (c3 ++ []))).length - 1) + 1 + 1 := by
      simp only [List.length_append]
      omega
    rw [hfs, chunkWalk_chunk hc1]
    simp only [reduceIte]
    have hfs2 : (c1 ++ (c2 ++ (c3 ++ []))).length - 1 =
        ((c1 ++ (c2 ++ (c3 ++ []))).length - 2) + 1 := by
      simp only [List.length_append]
      omega
    rw [hfs2, chunkWalk_chunk hc2]
    have hne1 : ¬ ((textTag : Bytes) = ordrTag) := by decide
    rw [if_neg hne1]
    simp only [reduceIte]
    have hfs3 : (c1 ++ (c2 ++ (c3 ++ []))).length - 2 =
        ((c1 ++ (c2 ++ (c3 ++ []))).length - 3) + 1 := by
      simp only [List.length_append]
      omega
    rw [hfs3, chunkWalk_chunk hc3]
    have hne2 : ¬ ((dataTag : Bytes) = ordrTag) := by decide
    have hne3 : ¬ ((dataTag : Bytes) = textTag) := by decide
    rw [if_neg hne2, if_neg hne3]
    simp only [reduceIte]
    rw [chunkWalk_nil (by simp only [List.length_append]; omega)]
    have := @emc2FromBlocks_ok _ _ _ _ _ (some textBytes) hmo hmd
      (by simpa using decode_encode_text henc)
    simp only [Bind.bind, Except.bind]
    simpa using this

end Kyra

/-- C2 (counterexample): the container parser accepts a byte sequence whose
`DATA` chunk precedes its `ORDR` chunk, but re-emitting the parsed program
model writes the chunks in the fixed order `ORDR`, `DATA`, producing a
different byte sequence — so parse-then-emit is not the identity on every
accepted byte sequence. -/
theorem parse_then_emit_not_id_on_swapped_chunks :
    Kyra.parse_emc2 Kyra.sampleSwapped = Except.ok Kyra.sampleMinForm ∧
    Kyra.emit_emc2 Kyra.sampleMinForm = Except.ok Kyra.sampleMin ∧
    Kyra.sampleMin ≠ Kyra.sampleSwapped := by
  refine ⟨by rfl, by rfl, by decide⟩

/-- C2 (amended): parse-then-emit at the container level is the identity on
every byte sequence the emitter itself produces (chunks in the fixed order
`ORDR`, optional `TEXT`, `DATA`, no unknown chunks, canonical `TEXT` layout,
and the single zero pad byte after each odd-sized chunk): whenever
`_emit_emc2` emits `b` from a form whose missing-`TEXT` case carries no
strings (as is true of every parsed form), `_parse_emc2` parses `b` back to
exactly that form, and hence re-emitting reproduces `b` byte for byte. -/
theorem parse_emit_container_id (form : Kyra.Emc2Form) (b : Kyra.Bytes)
    (hstr : form.text_present = false → form.strings = [])
    (h : Kyra.emit_emc2 form = Except.ok b) :
    Kyra.parse_emc2 b = Except.ok form :=
  Kyra.parse_emit_id hstr h

/-- Witness for C2's amended theorem at the minimal concrete container. -/
theorem parse_emit_container_id_witness :
    (Kyra.sampleMinForm.text_present = false → Kyra.sampleMinForm.strings = []) ∧
    Kyra.emit_emc2 Kyra.sampleMinForm = Except.ok Kyra.sampleMin ∧
    Kyra.parse_emc2 Kyra.sampleMin = Except.ok Kyra.sampleMinForm :=
  ⟨fun _ => rfl, by rfl,
    parse_emit_container_id Kyra.sampleMinForm Kyra.sampleMin (fun _ => rfl) (by rfl)⟩

/-- C10: decoding any 16-bit word and re-encoding the result with the
compiler's rule is the identity, and a non-long word never decodes with
`flags = 4` (so the long and short encodings cannot collide). -/
theorem decode_encode_word_id (w : Nat) (hw : w ≤ 0xFFFF) :
    Kyra.encode_word (Kyra.decode_word w).instr (Kyra.decode_word w).flags
      (Kyra.decode_word w).arg = w ∧
    ((Kyra.decode_word w).isLong = false → (Kyra.decode_word w).flags ≠ 4) := by
  unfold Kyra.decode_word Kyra.encode_word
  split_ifs with h1 h2 h2 <;> dsimp only at h2 ⊢ <;>
    refine ⟨by omega, fun hf => ?_⟩ <;> first
      | exact hf.elim
      | omega

/-- Witness for C10 at the concrete word `0x1234`. -/
theorem decode_encode_word_id_witness :
    Kyra.encode_word (Kyra.decode_word 0x1234).instr (Kyra.decode_word 0x1234).flags
      (Kyra.decode_word 0x1234).arg = 0x1234 ∧
    ((Kyra.decode_word 0x1234).isLong = false → (Kyra.decode_word 0x1234).flags ≠ 4) :=
  decode_encode_word_id 0x1234 (by decide)

/-- C3: for every input byte sequence whose magic bytes differ (no leading
`FORM` tag or no `EMC2` tag), whose declared big-endian u32 `FORM` length
disagrees with the buffer length, whose chunk region admits no decomposition
into well-formed chunks (a truncated chunk header or payload, or an odd-sized
chunk without its zero pad byte), or whose chunks include no `ORDR` or no
`DATA`, the container parser raises an error and produces no program value. -/
theorem malformed_container_rejected (b : Kyra.Bytes)
    (hdef : b.take 4 ≠ Kyra.formTag ∨
      Kyra.read_u32be b 4 ≠ b.length ∨
      (b.drop 8).take 4 ≠ Kyra.emc2Tag ∨
      ¬ ∃ cs, Kyra.Chunked ((b.drop 8).drop 4) cs ∧
        (∃ p ∈ cs, p.1 = Kyra.ordrTag) ∧ (∃ p ∈ cs, p.1 = Kyra.dataTag)) :
    ∀ f, Kyra.parse_emc2 b ≠ Except.ok f := by
  intro f hok
  obtain ⟨h1, h2, h3, h4⟩ := Kyra.parse_ok_shape hok
  rcases hdef with hc | hc | hc | hc
  · exact hc h1
  · exact hc h2
  · exact hc h3
  · exact hc h4

/-- Witness for C3 at a concrete three-byte input with a broken magic. -/
theorem malformed_container_rejected_witness :
    (([1, 2, 3] : Kyra.Bytes).take 4 ≠ Kyra.formTag ∨
      Kyra.read_u32be [1, 2, 3] 4 ≠ ([1, 2, 3] : Kyra.Bytes).length ∨
      (([1, 2, 3] : Kyra.Bytes).drop 8).take 4 ≠ Kyra.emc2Tag ∨
      ¬ ∃ cs, Kyra.Chunked ((([1, 2, 3] : Kyra.Bytes).drop 8).drop 4) cs ∧
        (∃ p ∈ cs, p.1 = Kyra.ordrTag) ∧ (∃ p ∈ cs, p.1 = Kyra.dataTag)) ∧
    Kyra.parse_emc2 [1, 2, 3] ≠ Except.ok Kyra.sampleMinForm :=
  ⟨Or.inl (by decide),
    malformed_container_rejected [1, 2, 3] (Or.inl (by decide)) Kyra.sampleMinForm⟩

/-- C8 (counterexample): the decoder accepts the concrete archive
`samplePak` (one `{offset 10, name "a"}` pair followed by the zero
terminator), yet the claimed header structure fails on it: the terminator's
offset field is the zero that terminates the header, so it cannot also equal
the header's (positive) total size — in the accepted archive it is the first
chunk offset, not the terminator field, that equals the header size. -/
theorem pak_claim_header_fails :
    Kyra.decodePak Kyra.samplePak = Except.ok [("a", [])] ∧
    ¬ Kyra.pakClaimHeader Kyra.samplePak := by
  refine ⟨by rfl, ?_⟩
  rintro ⟨pairs, t, _, _, ht0, htlen⟩
  have hl : ((pairs.map Kyra.pakPairEnc).flatten ++ Kyra.u32leBytes t).length =
      (pairs.map Kyra.pakPairEnc).flatten.length + 4 := by
    simp [Kyra.u32leBytes]
  omega

/-- C8 (amended): in every PAK archive byte sequence accepted by the
decoder, the header is a sequence of `{u32 little-endian offset,
NUL-terminated ASCII name}` pairs terminated by a zero offset (or by the end
of the buffer), and the first recorded offset — the first chunk's offset, or
the buffer length when there are no pairs — equals the header's total size
in bytes, with all offsets non-decreasing and bounded by the buffer size. -/
theorem pak_header_structure (b : Kyra.Bytes) (m : List (String × Kyra.Bytes))
    (hbytes : ∀ x ∈ b, x < 256) (h : Kyra.decodePak b = Except.ok m) :
    Kyra.pakAmendedHeader b :=
  Kyra.decodePak_header_shape hbytes h

/-- Witness for C8's amended theorem at the concrete archive `samplePak`. -/
theorem pak_header_structure_witness :
    (∀ x ∈ Kyra.samplePak, x < 256) ∧
    Kyra.decodePak Kyra.samplePak = Except.ok [("a", [])] ∧
    Kyra.pakAmendedHeader Kyra.samplePak :=
  ⟨by decide, by rfl,
    pak_header_structure Kyra.samplePak [("a", [])] (by decide) (by rfl)⟩

namespace Kyra

/-- For every byte value, `fmtHex2` yields exactly the two lowercase hex digits
and Python hex-int parsing reads the value back. -/
theorem fmtHex2_spec : ∀ n < 256, (fmtHex2 n).data = [hexDigit (n / 16), hexDigit (n % 16)] ∧
    pyIntHex ⟨[hexDigit (n / 16), hexDigit (n % 16)]⟩ = some (n : Int) := by
  decide

/-- The string reader undoes one `escChar` escape, prepending the character. -/
theorem rsq_esc (fuel : Nat) (ch : Char) (h : ch.toNat ≤ 127) (tail : List Char) :
    readSingleQuoted (fuel + 1) (escChar ch ++ tail) =
      match readSingleQuoted fuel tail with
      | Except.error e => Except.error e
      | Except.ok (out, rem) => Except.ok (ch :: out, rem) := by
  by_cases h1 : ch = '\\'
  · subst h1
    simp only [escChar, if_pos rfl, if_true, List.cons_append, List.nil_append]
    rw [readSingleQuoted]
    rfl
  by_cases h2 : ch = '\''
  · subst h2
    simp only [escChar, if_neg h1, if_pos rfl, if_true, List.cons_append, List.nil_append]
    rw [readSingleQuoted]
    rfl
  by_cases h3 : ch = '\n'
  · subst h3
    simp only [escChar, if_neg h1, if_neg h2, if_pos rfl, if_true, List.cons_append,
      List.nil_append]
    rw [readSingleQuoted]
    rfl
  by_cases h4 : ch = '\r'
  · subst h4
    simp only [escChar, if_neg h1, if_neg h2, if_neg h3, if_pos rfl, if_true,
      List.cons_append, List.nil_append]
    rw [readSingleQuoted]
    rfl
  by_cases h5 : ch = '\t'
  · subst h5
    simp only [escChar, if_neg h1, if_neg h2, if_neg h3, if_neg h4, if_pos rfl, if_true,
      List.cons_append, List.nil_append]
    rw [readSingleQuoted]
    rfl
  by_cases h6 : 32 ≤ ch.toNat ∧ ch.toNat ≤ 126
  · simp only [escChar, if_neg h1, if_neg h2, if_neg h3, if_neg h4, if_neg h5, if_pos h6,
      List.cons_append, List.nil_append]
    rw [readSingleQuoted]
    delta rsqStep
    simp only []
    rw [if_neg h2, if_pos h1]
  · simp only [escChar, if_neg h1, if_neg h2, if_neg h3, if_neg h4, if_neg h5, if_neg h6,
      List.cons_append]
    obtain ⟨hd, hp⟩ := fmtHex2_spec ch.toNat (by omega)
    rw [hd]
    rw [readSingleQuoted]
    delta rsqStep
    simp only [if_neg (by decide : ¬ ('\\' : Char) = '\''),
      if_neg (by decide : ¬ ¬ ('\\' : Char) = '\\'),
      if_neg (by decide : ¬ ('x' : Char) = 'n'),
      if_neg (by decide : ¬ ('x' : Char) = 'r'),
      if_neg (by decide : ¬ ('x' : Char) = 't'),
      if_neg (by decide : ¬ ('x' : Char) = '\''),
      if_neg (by decide : ¬ ('x' : Char) = '\\'),
      if_pos (rfl : ('x' : Char) = 'x'), if_true, List.cons_append, List.nil_append]
    rw [hp]
    simp only []
    rw [if_neg (by exact not_lt.mpr (Int.natCast_nonneg _))]
    simp only [Int.toNat_natCast, Char.ofNat_toNat]

/-- The string reader undoes `_quote_string`'s body up to the closing quote;
one fuel unit per original character plus one for the closing quote. -/
theorem rsq_quote : ∀ (l : List Char), (∀ c ∈ l, c.toNat ≤ 127) → ∀ (fuel : Nat) (tail : List Char),
    readSingleQuoted (fuel + l.length + 1) ((l.map escChar).flatten ++ '\'' :: tail) =
      Except.ok (l, tail) := by
  intro l
  induction l with
  | nil =>
    intro _ fuel tail
    simp only [List.map_nil, List.flatten_nil, List.nil_append]
    rw [readSingleQuoted]
    rfl
  | cons c l ih =>
    intro h fuel tail
    simp only [List.map_cons, List.flatten_cons, List.append_assoc, List.length_cons]
    have harith : fuel + (l.length + 1) + 1 = (fuel + l.length + 1) + 1 := by omega
    rw [harith, rsq_esc (fuel + l.length + 1) c (h c (List.mem_cons_self c l)),
      ih (fun x hx => h x (List.mem_cons_of_mem _ hx)) fuel tail]

/-- Each escape produces at least one character. -/
theorem escChar_ne_nil (ch : Char) : escChar ch ≠ [] := by
  unfold escChar
  split_ifs <;> simp

/-- The escaped body is at least as long as the original string. -/
theorem escChar_flatten_len : ∀ (l : List Char), l.length ≤ ((l.map escChar).flatten).length := by
  intro l
  induction l with
  | nil => simp
  | cons c l ih =>
    simp only [List.map_cons, List.flatten_cons, List.length_append, List.length_cons]
    have := List.length_pos.mpr (escChar_ne_nil c)
    omega

/-- Whitespace skipping leaves a leading quote untouched. -/
theorem skipWs_quote (k : Nat) (rest : List Char) :
    skipWsComments k ('\'' :: rest) = '\'' :: rest := by
  cases k with
  | zero => rfl
  | succ k => rfl

end Kyra

/-- C7: for every ASCII string `s`, the single-quoted literal built by
`_quote_string` lexes without error to exactly one STRING token whose value is
`s`, followed by EOF (any token fuel of at least two suffices). -/
theorem quote_lex_roundtrip (s : String) (fuel : Nat)
    (h : ∀ c ∈ s.data, c.toNat ≤ 127) :
    Kyra.lexTokens (fuel + 2) (Kyra.quote_string s).data =
      Except.ok [⟨"STRING", s⟩, ⟨"EOF", ""⟩] := by
  have hq : (Kyra.quote_string s).data =
      '\'' :: ((s.data.map Kyra.escChar).flatten ++ '\'' :: []) := rfl
  have step : ∀ rest, Kyra.lexTokens (fuel + 1 + 1) ('\'' :: rest) =
      match Kyra.readSingleQuoted (rest.length + 1) rest with
      | Except.error e => Except.error e
      | Except.ok (out, rem) =>
        match Kyra.lexTokens (fuel + 1) rem with
        | Except.error e => Except.error e
        | Except.ok ts => Except.ok (⟨"STRING", ⟨out⟩⟩ :: ts) := by
    intro rest
    rw [Kyra.lexTokens]
    rw [Kyra.skipWs_quote]
    rfl
  rw [hq, step]
  have hlen : ((s.data.map Kyra.escChar).flatten ++ '\'' :: []).length + 1 =
      (((s.data.map Kyra.escChar).flatten.length - s.data.length) + 1) + s.data.length + 1 := by
    have := Kyra.escChar_flatten_len s.data
    simp only [List.length_append, List.length_cons, List.length_nil]
    omega
  rw [hlen, Kyra.rsq_quote s.data h _ []]
  rfl

/-- C7 witness at a concrete string exercising every escape class. -/
theorem quote_lex_roundtrip_witness :
    Kyra.lexTokens 2 (Kyra.quote_string "a\nb'c\\d\te\x01f g").data =
      Except.ok [⟨"STRING", "a\nb'c\\d\te\x01f g"⟩, ⟨"EOF", ""⟩] :=
  quote_lex_roundtrip "a\nb'c\\d\te\x01f g" 0 (by decide)

namespace Kyra

/-- A word that decodes as a long jump decodes with opcode 0. -/
theorem decode_word_isLong_instr (w : Nat) (h : (decode_word w).isLong = true) :
    (decode_word w).instr = 0 := by
  by_cases hw : w / 32768 % 2 = 1
  · simp [decode_word, hw]
  · simp [decode_word, hw] at h

/-- Characterization of `_is_push16_at`. -/
theorem is_push16_iff (data : List Nat) (pc : Nat) :
    is_push16_at data pc = true ↔
      (decode_word (data.getD pc 0)).isLong = false ∧
      (decode_word (data.getD pc 0)).instr = 3 ∧
      (decode_word (data.getD pc 0)).flags = 1 ∧ pc + 1 < data.length := by
  unfold is_push16_at
  by_cases h : data.length ≤ pc + 1
  · rw [if_pos h]
    simp only [Bool.false_eq_true, false_iff]
    rintro ⟨-, -, -, hlt⟩
    omega
  · rw [if_neg h]
    simp only [Bool.and_eq_true, Bool.not_eq_true', beq_iff_eq]
    constructor
    · rintro ⟨⟨hl, hi⟩, hf⟩
      exact ⟨hl, hi, hf, by omega⟩
    · rintro ⟨hl, hi, hf, -⟩
      exact ⟨⟨hl, hi⟩, hf⟩

/-- Characterization of the claim-side two-word test. -/
theorem specTwoWordAt_iff (data : List Nat) (p : Nat) :
    specTwoWordAt data p = true ↔
      (decode_word (data.getD p 0)).isLong = false ∧
      ((decode_word (data.getD p 0)).instr = 3 ∧ (decode_word (data.getD p 0)).flags = 1 ∨
       (decode_word (data.getD p 0)).instr = 15 ∧ (decode_word (data.getD p 0)).flags = 1) ∧
      p + 1 < data.length := by
  simp only [specTwoWordAt, Bool.and_eq_true, Bool.or_eq_true, Bool.not_eq_true',
    beq_iff_eq, decide_eq_true_eq]
  tauto

end Kyra

/-- C5: the pass-A scan of `decompile` computes exactly the executed-PC set,
ifnot-operand set and embedded-jump-target set described by the claim's rule:
the two loops agree at every fuel, data array and starting PC. -/
theorem passA_executed_pc_rule : ∀ (fuel : Nat) (data : List Nat) (pc : Nat),
    Kyra.passA fuel data pc = Kyra.specPassA fuel data pc := by
  intro fuel
  induction fuel with
  | zero => intro data pc; rfl
  | succ fuel ih =>
    intro data pc
    rw [Kyra.passA, Kyra.specPassA]
    simp only []
    by_cases hb : data.length ≤ pc
    · rw [if_pos hb, if_pos hb]
    rw [if_neg hb, if_neg hb]
    by_cases hp : Kyra.is_push16_at data pc = true
    · obtain ⟨hl, hi, hf, hlt⟩ := (Kyra.is_push16_iff data pc).mp hp
      have hs : Kyra.specTwoWordAt data pc = true :=
        (Kyra.specTwoWordAt_iff data pc).mpr ⟨hl, Or.inl ⟨hi, hf⟩, hlt⟩
      have hne : ¬ (Kyra.decode_word (data.getD pc 0)).instr = 15 := by omega
      rw [if_pos hp, if_pos hs, if_neg hne, ih]
    · by_cases h15 : (Kyra.decode_word (data.getD pc 0)).instr = 15 ∧
          (Kyra.decode_word (data.getD pc 0)).flags = 1 ∧ pc + 1 < data.length
      · have hl : (Kyra.decode_word (data.getD pc 0)).isLong = false := by
          cases hcase : (Kyra.decode_word (data.getD pc 0)).isLong
          · rfl
          · have h0 := Kyra.decode_word_isLong_instr _ hcase
            have h15i := h15.1
            omega
        have hs : Kyra.specTwoWordAt data pc = true :=
          (Kyra.specTwoWordAt_iff data pc).mpr ⟨hl, Or.inr ⟨h15.1, h15.2.1⟩, h15.2.2⟩
        rw [if_neg hp, if_pos h15, if_pos hs, if_pos h15.1, ih]
      · have hs : ¬ Kyra.specTwoWordAt data pc = true := by
          intro hcon
          obtain ⟨hl, hor, hlt⟩ := (Kyra.specTwoWordAt_iff data pc).mp hcon
          rcases hor with ⟨hi, hf⟩ | ⟨hi, hf⟩
          · exact hp ((Kyra.is_push16_iff data pc).mpr ⟨hl, hi, hf, hlt⟩)
          · exact h15 ⟨hi, hf, hlt⟩
        rw [if_neg hp, if_neg hs, if_neg h15, ih]

/-- C6: in the output of the final sweep of `decompile`, every remaining
synthetic definition line `label label_N` has its name occurring (as a
whole-word reference) in some other output line that is not itself a
synthetic definition line. -/
theorem sweep_defined_subset_referenced (lines : List (List Char))
    (line : List Char) (hmem : line ∈ Kyra.sweepLines lines)
    (name : List Char) (hdef : Kyra.isSyntheticDef line = some name) :
    ∃ other ∈ Kyra.sweepLines lines,
      Kyra.isSyntheticDef other = none ∧ name ∈ Kyra.refsIn other := by
  obtain ⟨hin, hkeep⟩ := List.mem_filter.mp hmem
  rw [hdef] at hkeep
  simp only [decide_eq_true_eq] at hkeep
  obtain ⟨other, hother, hnameref⟩ := List.mem_flatMap.mp hkeep
  obtain ⟨hotherin, hothernodef⟩ := List.mem_filter.mp hother
  simp only [Option.isNone_iff_eq_none] at hothernodef
  refine ⟨other, List.mem_filter.mpr ⟨hotherin, ?_⟩, hothernodef, hnameref⟩
  rw [hothernodef]

/-- C6 witness: a concrete line list with one referenced and one unreferenced
synthetic label. -/
theorem sweep_defined_subset_referenced_witness :
    ("label label_1").data ∈
        Kyra.sweepLines [("label label_1").data, ("jmp(0, label_1)").data,
          ("label label_2").data] ∧
      Kyra.isSyntheticDef ("label label_1").data = some ("label_1").data ∧
      ∃ other ∈ Kyra.sweepLines [("label label_1").data, ("jmp(0, label_1)").data,
          ("label label_2").data],
        Kyra.isSyntheticDef other = none ∧ ("label_1").data ∈ Kyra.refsIn other :=
  ⟨by decide, by decide,
    sweep_defined_subset_referenced
      [("label label_1").data, ("jmp(0, label_1)").data, ("label label_2").data]
      (("label label_1").data) (by decide) (("label_1").data) (by decide)⟩

/-- C9: decompiling the EMC2 container with `ORDR = [0]`, no TEXT chunk and a
single DATA word encoding `jmp` with flags 0 and arg 0 yields exactly the text
`strings = \x7b\x7d`, a `globals = [global_0]` list and `label global_0` /
`jmp(0, global_0)` lines, and compiling that text reproduces the container
byte for byte. -/
theorem decompile_compile_minimal_container :
    Kyra.parse_emc2 Kyra.sampleMin =
      Except.ok
        { order := [0], strings := [], data := [Kyra.encode_word 0 0 0],
          text_present := false } ∧
    Kyra.decompile Kyra.sampleMin none true = Except.ok Kyra.minimalSourceText ∧
    Kyra.compile Kyra.minimalSourceText = Except.ok Kyra.sampleMin :=
  ⟨rfl, rfl, rfl⟩

/-- C1 counterexample: a container with an unknown `XXXX` chunk is accepted by
the parser (yielding the same program as the minimal container), decompiles
to the same source text, yet recompiling produces the canonical minimal bytes,
not the original input. -/
theorem roundtrip_fails_on_accepted_container :
    Kyra.parse_emc2 Kyra.sampleUnknown = Except.ok Kyra.sampleMinForm ∧
    Kyra.decompile Kyra.sampleUnknown none true = Except.ok Kyra.minimalSourceText ∧
    Kyra.compile Kyra.minimalSourceText = Except.ok Kyra.sampleMin ∧
    Kyra.sampleMin ≠ Kyra.sampleUnknown :=
  ⟨rfl, rfl, rfl, by decide⟩

/-- C1 amended: the byte-for-byte round trip `compile (decompile b) = b` holds
on canonically emitted containers, verified at the minimal canonical
container; it cannot hold for every accepted byte sequence, since the parser
tolerates unknown chunks and non-canonical chunk order that re-emission
normalizes away. -/
theorem compile_decompile_canonical_minimal :
    ∃ t, Kyra.decompile Kyra.sampleMin none true = Except.ok t ∧
      Kyra.compile t = Except.ok Kyra.sampleMin :=
  ⟨Kyra.minimalSourceText, rfl, rfl⟩

namespace Kyra

/-- The pragma scan of a line depends only on its stripped content. -/
theorem scanStep_congr {l1 l2 : List Char} (h : pyStrip l1 = pyStrip l2) (a : Option Bool) :
    scanStep a l1 = scanStep a l2 := by
  unfold scanStep
  rw [h]

/-- `Char.toLower` can only produce `#` from `#` itself. -/
theorem toLower_eq_hash {c : Char} (h : c.toLower = '#') : c = '#' := by
  simp only [Char.toLower] at h
  split at h
  · have hv : ('#' : Char).toNat = 35 := by decide
    next hcond =>
      have h65 : 65 ≤ c.toNat := by
        have := hcond.1
        simpa [Char.le_def] using this
      have : (Char.ofNat (c.toNat + 32)).toNat = c.toNat + 32 := by
        have hvalid : Nat.isValidChar (c.toNat + 32) := by
          have := hcond.2
          have h90 : c.toNat ≤ 90 := by simpa [Char.le_def] using this
          exact Or.inl (by omega)
        unfold Char.ofNat
        rw [dif_pos hvalid]
        unfold Char.ofNatAux Char.toNat
        simp [UInt32.toNat, UInt32.ofNatCore]
      rw [h] at this
      rw [hv] at this
      omega
  · exact h

/-- A line whose stripped form does not start with `#` is pragma-neutral. -/
theorem scanStep_neutral {l : List Char} (h : (pyStrip l).headD ' ' ≠ '#') (a : Option Bool) :
    scanStep a l = a := by
  unfold scanStep
  rw [if_neg, if_neg]
  · intro heq
    match hs : pyStrip l with
    | [] => rw [hs] at heq; exact absurd heq (by decide)
    | c :: rest =>
      rw [hs] at heq
      simp only [List.map_cons, pragmaAbsentLine] at heq
      have : c.toLower = '#' := by
        have := congrArg (fun x => x.headD ' ') heq
        simpa using this
      have := toLower_eq_hash this
      rw [hs] at h
      exact h (by simpa using this)
  · intro heq
    match hs : pyStrip l with
    | [] => rw [hs] at heq; exact absurd heq (by decide)
    | c :: rest =>
      rw [hs] at heq
      simp only [List.map_cons, pragmaPresentLine] at heq
      have : c.toLower = '#' := by
        have := congrArg (fun x => x.headD ' ') heq
        simpa using this
      have := toLower_eq_hash this
      rw [hs] at h
      exact h (by simpa using this)

/-- Stripping ignores an all-whitespace prefix. -/
theorem pyStrip_ws_pre {pre : List Char} (h : ∀ c ∈ pre, isPyWs c = true)
    (l : List Char) : pyStrip (pre ++ l) = pyStrip l := by
  unfold pyStrip
  congr 1
  congr 1
  induction pre with
  | nil => rfl
  | cons c rest ih =>
    simp only [List.cons_append, List.dropWhile_cons, h c (List.mem_cons_self c rest),
      if_true]
    exact ih fun x hx => h x (List.mem_cons_of_mem _ hx)

/-- Stripping ignores a tab-indentation prefix. -/
theorem pyStrip_tabs (n : Nat) (l : List Char) :
    pyStrip (List.replicate n '\t' ++ l) = pyStrip l :=
  pyStrip_ws_pre (fun c hc => by
    rw [List.eq_of_mem_replicate hc]; decide) l

/-- `strip_indent` removes only leading whitespace, so stripping its result
equals stripping the input. -/
theorem stripIndentLoop_strip : ∀ (cs : List Char) (tl spaces : Nat),
    pyStrip (stripIndentLoop cs tl spaces).1 = pyStrip cs := by
  intro cs
  induction cs with
  | nil => intro tl spaces; cases tl <;> rfl
  | cons c rest ih =>
    intro tl spaces
    match tl with
    | 0 => rfl
    | tl + 1 =>
      rw [stripIndentLoop]
      by_cases hc : c = '\t'
      · subst hc
        rw [if_pos rfl, ih]
        exact (@pyStrip_ws_pre ['\t'] (by decide) rest).symm
      rw [if_neg hc]
      by_cases hs : c = ' '
      · subst hs
        have hstrip : pyStrip rest = pyStrip (' ' :: rest) :=
          (@pyStrip_ws_pre [' '] (by decide) rest).symm
        by_cases h4 : spaces + 1 = 4
        · rw [if_pos rfl, if_pos h4, ih, hstrip]
        · rw [if_pos rfl, if_neg h4, ih, hstrip]
      · rw [if_neg hs]

theorem stripIndent_strip {l r : List Char} {n : Nat}
    (h : stripIndent l n = Except.ok r) : pyStrip r = pyStrip l := by
  have hmain := stripIndentLoop_strip l n 0
  rcases hsi : stripIndentLoop l n 0 with ⟨rest, tl⟩
  unfold stripIndent at h
  rw [hsi] at h hmain
  dsimp only at h
  by_cases htl : tl = 0
  · rw [if_neg (by simpa using htl)] at h
    cases h
    exact hmain
  · rw [if_pos htl] at h
    exact absurd h (by simp)

end Kyra

namespace Kyra

/-- `Nat.digitChar` never produces a line terminator. -/
theorem digitChar_not_term (m : Nat) : isLineTerm (Nat.digitChar m) = false := by
  by_cases h : m < 16
  · exact (by decide : ∀ m, m < 16 → isLineTerm (Nat.digitChar m) = false) m h
  · unfold Nat.digitChar
    iterate 16 rw [if_neg (by omega)]
    decide

theorem toDigitsCore_not_term : ∀ (fuel n : Nat) (ds : List Char),
    (∀ c ∈ ds, isLineTerm c = false) →
    ∀ c ∈ Nat.toDigitsCore 10 fuel n ds, isLineTerm c = false := by
  intro fuel
  induction fuel with
  | zero => intro n ds hds; exact hds
  | succ fuel ih =>
    intro n ds hds c hc
    rw [Nat.toDigitsCore] at hc
    split at hc
    · rcases List.mem_cons.mp hc with h | h
      · subst h; exact digitChar_not_term _
      · exact hds c h
    · refine ih _ _ ?_ c hc
      intro x hx
      rcases List.mem_cons.mp hx with h | h
      · subst h; exact digitChar_not_term _
      · exact hds x h

/-- The decimal rendering of a number contains no line terminator. -/
theorem natStr_termfree (n : Nat) : ∀ c ∈ natStr n, isLineTerm c = false := by
  intro c hc
  have : natStr n = Nat.toDigits 10 n := rfl
  rw [this, Nat.toDigits] at hc
  exact toDigitsCore_not_term _ _ _ (by intro x hx; cases hx) c hc

/-- The head of a stripped line starting with a non-whitespace character. -/
theorem pyStrip_head {c : Char} (l : List Char) (h : isPyWs c = false) :
    (pyStrip (c :: l)).headD ' ' = c := by
  unfold pyStrip
  rw [List.dropWhile_cons, if_neg (by simp [h])]
  rw [List.reverse_cons, List.dropWhile_append]
  split
  · rw [List.dropWhile_cons, if_neg (by simp [h])]
    rfl
  · rw [List.reverse_append]
    rfl

/-- A tab-indented line whose content starts with a non-whitespace,
non-`#` character is pragma-neutral. -/
theorem scanStep_tabs_head (n : Nat) (c : Char) (l : List Char) (a : Option Bool)
    (hws : isPyWs c = false) (hne : c ≠ '#') :
    scanStep a (List.replicate n '\t' ++ c :: l) = a := by
  apply scanStep_neutral
  rw [pyStrip_tabs, pyStrip_head l hws]
  exact hne

/-- The blank (all-whitespace) line is pragma-neutral, and so is any line
that strips to nothing. -/
theorem scanStep_blank {l : List Char} (h : pyStrip l = []) (a : Option Bool) :
    scanStep a l = a := by
  apply scanStep_neutral
  rw [h]
  decide

/-- `collect_suite` splits its input: suite and remainder concatenate back. -/
theorem collectSuite_split : ∀ (fuel : Nat) (lines : List (List Char)) (hdr : Nat)
    (suite rest : List (List Char)),
    collectSuite fuel lines hdr = Except.ok (suite, rest) → suite ++ rest = lines := by
  intro fuel
  induction fuel with
  | zero => intro lines hdr suite rest h; exact absurd h (by simp [collectSuite])
  | succ fuel ih =>
    intro lines hdr suite rest h
    match lines with
    | [] =>
      rw [collectSuite] at h
      cases h
      rfl
    | raw :: tl =>
      rw [collectSuite] at h
      split at h
      · simp only [Bind.bind, Except.bind] at h
        split at h
        · exact absurd h (by simp)
        next s r heq =>
          cases h
          have := ih tl hdr _ _ heq
          rw [List.cons_append, this]
      · simp only [Bind.bind, Except.bind] at h
        split at h
        · exact absurd h (by simp)
        next ind heq =>
          split at h
          · cases h; rfl
          · split at h
            · exact absurd h (by simp)
            next s r heq2 =>
              cases h
              have := ih tl hdr _ _ heq2
              rw [List.cons_append, this]

end Kyra

namespace Kyra

/-- A line without line-terminator characters. -/
def termFree (l : List Char) : Prop := ∀ c ∈ l, isLineTerm c = false

/-- `rstrip('\r')` only removes trailing characters, so a non-whitespace head
of the stripped form is the head of the full strip. -/
theorem rstripCR_head {s t : List Char} {c : Char} (h : rstripCR s = c :: t)
    (hc : isPyWs c = false) : (pyStrip s).headD ' ' = c := by
  have hdecomp : s = rstripCR s ++ (s.reverse.takeWhile fun x => x = '\x0d').reverse := by
    conv_lhs => rw [← List.reverse_reverse s,
      ← List.takeWhile_append_dropWhile (p := fun x => x = '\x0d') (l := s.reverse)]
    rw [List.reverse_append]
    rfl
  rw [hdecomp, h, List.cons_append]
  exact pyStrip_head _ hc

/-- Every character the indentation stripper keeps comes from the input. -/
theorem stripIndentLoop_mem : ∀ (cs : List Char) (tl spaces : Nat),
    ∀ c ∈ (stripIndentLoop cs tl spaces).1, c ∈ cs := by
  intro cs
  induction cs with
  | nil => intro tl spaces c hc; cases tl <;> simp [stripIndentLoop] at hc
  | cons x rest ih =>
    intro tl spaces c hc
    match tl with
    | 0 => exact hc
    | tl + 1 =>
      rw [stripIndentLoop] at hc
      by_cases hx : x = '\t'
      · rw [if_pos hx] at hc
        exact List.mem_cons_of_mem _ (ih tl spaces c hc)
      rw [if_neg hx] at hc
      by_cases hs : x = ' '
      · rw [if_pos hs] at hc
        split at hc
        · exact List.mem_cons_of_mem _ (ih tl 0 c hc)
        · exact List.mem_cons_of_mem _ (ih (tl + 1) (spaces + 1) c hc)
      · rw [if_neg hs] at hc
        exact hc

theorem stripIndent_termfree {l r : List Char} {n : Nat}
    (h : stripIndent l n = Except.ok r) (hl : termFree l) : termFree r := by
  rcases hsi : stripIndentLoop l n 0 with ⟨rest, tl⟩
  unfold stripIndent at h
  rw [hsi] at h
  dsimp only at h
  by_cases htl : tl = 0
  · rw [if_neg (by simpa using htl)] at h
    cases h
    intro c hc
    refine hl c (stripIndentLoop_mem l n 0 c ?_)
    rw [hsi]
    exact hc
  · rw [if_pos htl] at h
    exact absurd h (by simp)

/-- `dedent_one` preserves terminator-freeness and the pragma fold. -/
theorem dedentOne_props : ∀ (suite : List (List Char)) (hdr : Nat) (out : List (List Char)),
    dedentOne suite hdr = Except.ok out →
    (∀ l ∈ suite, termFree l) →
    (∀ l ∈ out, termFree l) ∧
      ∀ a, List.foldl scanStep a out = List.foldl scanStep a suite := by
  intro suite
  induction suite with
  | nil =>
    intro hdr out h _
    cases h
    exact ⟨(by intro l hl; cases hl), fun a => rfl⟩
  | cons raw tl ih =>
    intro hdr out h hf
    unfold dedentOne at h
    rw [mapMex] at h
    split at h
    · exact absurd h (by simp)
    next y heq =>
      split at h
      · exact absurd h (by simp)
      next ys heq2 =>
        cases h
        have htl := ih hdr ys heq2 (fun l hl => hf l (List.mem_cons_of_mem _ hl))
        have hy : termFree y ∧ ∀ a, scanStep a y = scanStep a raw := by
          split at heq
          · cases heq
            constructor
            · intro c hc; cases hc
            · intro a
              next hblank =>
                have : pyStrip raw = [] := by
                  simpa [List.isEmpty_iff] using hblank
                rw [scanStep_blank this, scanStep_blank (by rfl)]
          · next hblank =>
            exact ⟨stripIndent_termfree heq (hf raw (List.mem_cons_self raw tl)),
              fun a => scanStep_congr (stripIndent_strip heq) a⟩
        constructor
        · intro l hl
          rcases List.mem_cons.mp hl with h | h
          · subst h; exact hy.1
          · exact htl.1 l h
        · intro a
          simp only [List.foldl_cons]
          rw [hy.2 a, htl.2]

/-- `reindent` preserves terminator-freeness and the pragma fold. -/
theorem reindent_props : ∀ (ls : List (List Char)) (ind : Nat),
    (∀ l ∈ ls, termFree l) →
    (∀ l ∈ reindent ls ind, termFree l) ∧
      ∀ a, List.foldl scanStep a (reindent ls ind) = List.foldl scanStep a ls := by
  intro ls
  induction ls with
  | nil => intro ind _; exact ⟨(by intro l hl; cases hl), fun a => rfl⟩
  | cons raw tl ih =>
    intro ind hf
    have htl := ih ind (fun l hl => hf l (List.mem_cons_of_mem _ hl))
    have hraw := hf raw (List.mem_cons_self raw tl)
    unfold reindent
    simp only [List.map_cons]
    constructor
    · intro l hl
      rcases List.mem_cons.mp hl with h | h
      · subst h
        split
        · exact hraw
        · intro c hc
          rcases List.mem_append.mp hc with h | h
          · rw [List.eq_of_mem_replicate h]; rfl
          · exact hraw c h
      · exact (htl.1) l h
    · intro a
      simp only [List.foldl_cons]
      have : scanStep a (if (pyStrip raw).isEmpty = true then raw
          else List.replicate ind '\t' ++ raw) = scanStep a raw := by
        split
        · rfl
        · exact scanStep_congr (pyStrip_tabs ind raw) a
      rw [this]
      exact htl.2 _

end Kyra

namespace Kyra

/-- The split loop is fuel-irrelevant once the fuel exceeds the input
length. -/
theorem splitlinesLoop_fuel : ∀ (n : Nat) (cs : List Char), cs.length ≤ n →
    ∀ (f1 f2 : Nat) (acc : List Char), cs.length < f1 → cs.length < f2 →
    splitlinesLoop f1 acc cs = splitlinesLoop f2 acc cs := by
  intro n
  induction n with
  | zero =>
    intro cs hlen f1 f2 acc h1 h2
    have : cs = [] := List.eq_nil_of_length_eq_zero (by omega)
    subst this
    obtain ⟨g1, rfl⟩ : ∃ g, f1 = g + 1 := ⟨f1 - 1, by omega⟩
    obtain ⟨g2, rfl⟩ : ∃ g, f2 = g + 1 := ⟨f2 - 1, by omega⟩
    rfl
  | succ n ih =>
    intro cs hlen f1 f2 acc h1 h2
    obtain ⟨g1, rfl⟩ : ∃ g, f1 = g + 1 := ⟨f1 - 1, by omega⟩
    obtain ⟨g2, rfl⟩ : ∃ g, f2 = g + 1 := ⟨f2 - 1, by omega⟩
    match cs with
    | [] => rfl
    | c :: rest =>
      rw [splitlinesLoop, splitlinesLoop]
      simp only [List.length_cons] at hlen h1 h2
      by_cases ht : isLineTerm c = true
      · rw [if_pos ht, if_pos ht]
        congr 1
        have hle : (crlfRest c rest).length ≤ rest.length := by
          unfold crlfRest
          split
          · simp
          · exact le_refl _
        exact ih (crlfRest c rest) (by omega) g1 g2 [] (by omega) (by omega)
      · rw [if_neg ht, if_neg ht]
        exact ih rest (by omega) g1 g2 (c :: acc) (by omega) (by omega)

/-- Splitting at an explicit `\n` separator after a terminator-free line. -/
theorem splitlines_term_split : ∀ (l rest acc : List Char) (fuel : Nat),
    termFree l →
    splitlinesLoop (l.length + fuel + 1) acc (l ++ '\n' :: rest) =
      (acc.reverse ++ l) :: splitlinesLoop fuel [] rest := by
  intro l
  induction l with
  | nil =>
    intro rest acc fuel _
    simp only [List.length_nil, Nat.zero_add, List.nil_append]
    rw [splitlinesLoop, if_pos (by decide : isLineTerm '\n' = true)]
    simp [crlfRest]
  | cons c l ih =>
    intro rest acc fuel hf
    have hc : isLineTerm c = false := hf c (List.mem_cons_self c l)
    simp only [List.length_cons, List.cons_append]
    have harith : l.length + 1 + fuel + 1 = (l.length + 1 + fuel) + 1 := rfl
    rw [harith, splitlinesLoop, if_neg (by simp [hc])]
    have harith2 : l.length + 1 + fuel = l.length + fuel + 1 := by omega
    rw [harith2, ih rest (c :: acc) fuel (fun x hx => hf x (List.mem_cons_of_mem _ hx))]
    simp

/-- The final segment of the split: a terminator-free tail yields at most one
more line. -/
theorem splitlines_last : ∀ (l acc : List Char) (fuel : Nat), termFree l →
    splitlinesLoop (l.length + fuel + 1) acc l =
      if (acc.reverse ++ l).isEmpty then [] else [acc.reverse ++ l] := by
  intro l
  induction l with
  | nil =>
    intro acc fuel _
    simp only [List.length_nil, Nat.zero_add, List.append_nil]
    rw [splitlinesLoop]
    by_cases hacc : acc = []
    · subst hacc; rfl
    · rw [if_neg (by simpa [List.isEmpty_iff] using hacc),
        if_neg (by simpa [List.isEmpty_iff] using hacc)]
  | cons c l ih =>
    intro acc fuel hf
    have hc : isLineTerm c = false := hf c (List.mem_cons_self c l)
    simp only [List.length_cons]
    have harith : l.length + 1 + fuel + 1 = (l.length + 1 + fuel) + 1 := rfl
    rw [harith, splitlinesLoop, if_neg (by simp [hc])]
    have harith2 : l.length + 1 + fuel = l.length + fuel + 1 := by omega
    rw [harith2, ih (c :: acc) fuel (fun x hx => hf x (List.mem_cons_of_mem _ hx))]
    have hne1 : ((c :: acc).reverse ++ l).isEmpty = false := by
      simp [List.isEmpty_iff]
    have hne2 : (acc.reverse ++ c :: l).isEmpty = false := by
      simp [List.isEmpty_iff]
    rw [hne1, hne2, if_neg (by simp), if_neg (by simp)]
    simp

/-- Every line produced by the split loop is terminator-free. -/
theorem splitlinesLoop_termFree : ∀ (fuel : Nat) (acc cs : List Char),
    (∀ c ∈ acc, isLineTerm c = false) →
    ∀ l ∈ splitlinesLoop fuel acc cs, termFree l := by
  intro fuel
  induction fuel with
  | zero => intro acc cs _ l hl; cases hl
  | succ fuel ih =>
    intro acc cs hacc l hl
    match cs with
    | [] =>
      rw [splitlinesLoop] at hl
      split at hl
      · cases hl
      · rcases List.mem_singleton.mp hl with rfl
        intro c hc
        exact hacc c (List.mem_reverse.mp hc)
    | c :: rest =>
      rw [splitlinesLoop] at hl
      split at hl
      · rcases List.mem_cons.mp hl with rfl | hl2
        · intro x hx
          exact hacc x (List.mem_reverse.mp hx)
        · exact ih [] (crlfRest c rest) (by intro x hx; cases hx) l hl2
      · next hterm =>
        refine ih (c :: acc) rest ?_ l hl
        intro x hx
        rcases List.mem_cons.mp hx with rfl | hx2
        · simpa using hterm
        · exact hacc x hx2

/-- Lines returned by `splitlines` are terminator-free. -/
theorem pySplitlines_termFree (cs : List Char) :
    ∀ l ∈ pySplitlines cs, termFree l :=
  splitlinesLoop_termFree (cs.length + 1) [] cs (by intro c hc; cases hc)

/-- The pragma fold over the lines of the joined (newline-interspersed)
rendering equals the fold over the original terminator-free lines, with or
without a trailing newline. -/
theorem splitlinesJoin_scan : ∀ (ls : List (List Char)) (t : List Char),
    (t = [] ∨ t = ['\n']) → (∀ l ∈ ls, termFree l) → ∀ a : Option Bool,
    List.foldl scanStep a (pySplitlines ((List.intersperse ('\n' :: []) ls).flatten ++ t)) =
      List.foldl scanStep a ls := by
  intro ls
  induction ls with
  | nil =>
    intro t ht _ a
    rcases ht with rfl | rfl
    · rfl
    · show List.foldl scanStep a (pySplitlines ['\n']) = a
      have : pySplitlines ['\n'] = [[]] := rfl
      rw [this]
      simpa using scanStep_blank (l := []) rfl a
  | cons l tl ih =>
    intro t ht hf a
    match tl with
    | [] =>
      rcases ht with rfl | rfl
      · simp only [List.intersperse_singleton, List.flatten_cons, List.flatten_nil,
          List.append_nil, List.foldl_cons, List.foldl_nil]
        show List.foldl scanStep a (splitlinesLoop (l.length + 1) [] l) = scanStep a l
        have harith : l.length + 1 = l.length + 0 + 1 := rfl
        rw [harith, splitlines_last l [] 0 (hf l (List.mem_cons_self l []))]
        by_cases hl : l = []
        · subst hl
          simpa using (scanStep_blank (l := []) rfl a).symm
        · rw [if_neg (by simpa [List.isEmpty_iff] using hl)]
          simp
      · simp only [List.intersperse_singleton, List.flatten_cons, List.flatten_nil,
          List.append_nil, List.foldl_cons, List.foldl_nil]
        show List.foldl scanStep a
            (splitlinesLoop ((l ++ ['\n']).length + 1) [] (l ++ '\n' :: [])) = scanStep a l
        have harith : (l ++ ['\n']).length + 1 = l.length + 1 + 1 := by
          simp [List.length_append]
        rw [harith, splitlines_term_split l [] [] 1 (hf l (List.mem_cons_self l []))]
        have : splitlinesLoop 1 ([] : List Char) [] = [] := rfl
        rw [this]
        simp
    | l2 :: tl2 =>
      have hint : List.intersperse ('\n' :: []) (l :: l2 :: tl2) =
          l :: ('\n' :: []) :: List.intersperse ('\n' :: []) (l2 :: tl2) := by
        simp [List.intersperse]
      rw [hint]
      have hflat : (l :: ('\n' :: []) :: List.intersperse ('\n' :: []) (l2 :: tl2)).flatten ++ t =
          l ++ '\n' :: ((List.intersperse ('\n' :: []) (l2 :: tl2)).flatten ++ t) := by
        simp
      rw [hflat]
      show List.foldl scanStep a (splitlinesLoop
        ((l ++ '\n' :: ((List.intersperse ('\n' :: []) (l2 :: tl2)).flatten ++ t)).length + 1)
        [] (l ++ '\n' :: ((List.intersperse ('\n' :: []) (l2 :: tl2)).flatten ++ t))) = _
      have harith : (l ++ '\n' :: ((List.intersperse ('\n' :: []) (l2 :: tl2)).flatten ++ t)).length + 1 =
          l.length + (((List.intersperse ('\n' :: []) (l2 :: tl2)).flatten ++ t).length + 1) + 1 := by
        simp [List.length_append]
      rw [harith, splitlines_term_split l _ []
        (((List.intersperse ('\n' :: []) (l2 :: tl2)).flatten ++ t).length + 1)
        (hf l (List.mem_cons_self l _))]
      simp only [List.nil_append, List.foldl_cons]
      exact ih t ht (fun x hx => hf x (List.mem_cons_of_mem _ hx)) (scanStep a l)

end Kyra

namespace Kyra

/-- A list whose `take` starts with `c` itself starts with `c`. -/
theorem take_cons_head {α} : ∀ {s : List α} {n : Nat} {c : α} {r : List α},
    s.take n = c :: r → ∃ t, s = c :: t := by
  intro s n c r h
  match s, n with
  | [], n => rw [List.take_nil] at h; cases h
  | x :: t, 0 => cases h
  | x :: t, n + 1 =>
    rw [List.take_succ_cons] at h
    cases h
    exact ⟨t, rfl⟩

theorem isIfHeader_head {s : List Char} (h : isIfHeader s = true) : ∃ t, s = 'i' :: t := by
  simp only [isIfHeader, decide_eq_true_eq] at h
  exact take_cons_head h.1

theorem isElifHeader_head {s : List Char} (h : isElifHeader s = true) : ∃ t, s = 'e' :: t := by
  simp only [isElifHeader, decide_eq_true_eq] at h
  exact take_cons_head h.1

theorem isElseHeader_head {s : List Char} (h : isElseHeader s = true) : ∃ t, s = 'e' :: t := by
  simp only [isElseHeader, decide_eq_true_eq] at h
  exact ⟨_, h⟩

/-- A line whose indentation-stripped, `\r`-stripped form starts with a
non-whitespace, non-`#` character is pragma-neutral. -/
theorem scanStep_stripped_head {raw s0 t : List Char} {n : Nat} {c : Char} (a : Option Bool)
    (hsi : stripIndent raw n = Except.ok s0) (hr : rstripCR s0 = c :: t)
    (hws : isPyWs c = false) (hne : c ≠ '#') : scanStep a raw = a := by
  apply scanStep_neutral
  have h1 : (pyStrip s0).headD ' ' = c := rstripCR_head hr hws
  rw [stripIndent_strip hsi] at h1
  rw [h1]
  exact hne

theorem termFree_append {l1 l2 : List Char} (h1 : termFree l1) (h2 : termFree l2) :
    termFree (l1 ++ l2) := by
  intro c hc
  rcases List.mem_append.mp hc with h | h
  · exact h1 c h
  · exact h2 c h

theorem termFree_tabs (n : Nat) : termFree (List.replicate n '\t') := by
  intro c hc
  rw [List.eq_of_mem_replicate hc]
  rfl

/-- A tab-indented line whose content starts with a given non-whitespace,
non-`#` character is pragma-neutral, stated through a shape equation. -/
theorem scanStep_label_line {line : List Char} (n : Nat) (c : Char) (rest : List Char)
    (a : Option Bool) (hws : isPyWs c = false) (hne : c ≠ '#')
    (hshape : line = List.replicate n '\t' ++ c :: rest) : scanStep a line = a := by
  rw [hshape]
  exact scanStep_tabs_head n c rest a hws hne

end Kyra

namespace Kyra

/-- The `elif` collection loop splits its input into clause suites plus a
remainder, and the consumed segment's pragma fold equals the fold over the
suites alone (the `elif` header lines are pragma-neutral). -/
theorem elifClausesLoop_props : ∀ (fuel ind : Nat) (lines : List (List Char))
    (clauses clauses' : List (List (List Char))) (rest' : List (List Char)),
    elifClausesLoop fuel ind lines clauses = Except.ok (clauses', rest') →
    ∃ suites consumed,
      clauses' = clauses ++ suites ∧
      lines = consumed ++ rest' ∧
      (∀ l ∈ suites.flatten, l ∈ lines) ∧
      ∀ a : Option Bool, List.foldl scanStep a consumed =
        List.foldl scanStep a suites.flatten := by
  intro fuel
  induction fuel with
  | zero =>
    intro ind lines clauses clauses' rest' h
    exact absurd h (by simp [elifClausesLoop])
  | succ fuel ih =>
    intro ind lines clauses clauses' rest' h
    match lines with
    | [] =>
      rw [elifClausesLoop] at h
      cases h
      exact ⟨[], [], by simp, rfl, (by intro l hl; cases hl), fun a => rfl⟩
    | raw2 :: rest =>
      rw [elifClausesLoop] at h
      split at h
      · cases h
        exact ⟨[], [], by simp, rfl, (by intro l hl; cases hl), fun a => rfl⟩
      · simp only [Bind.bind, Except.bind] at h
        split at h
        · exact absurd h (by simp)
        next ind2 hind2 =>
          split at h
          · cases h
            exact ⟨[], [], by simp, rfl, (by intro l hl; cases hl), fun a => rfl⟩
          next hindeq =>
            split at h
            · exact absurd h (by simp)
            next s2 hs2 =>
              split at h
              · cases h
                exact ⟨[], [], by simp, rfl, (by intro l hl; cases hl), fun a => rfl⟩
              next hlif =>
                split at h
                · exact absurd h (by simp)
                next pr hcs =>
                  obtain ⟨suite2, rest2⟩ := pr
                  dsimp only at h
                  obtain ⟨suites2, consumed2, hcl, hrest, hmem, hfold⟩ :=
                    ih ind rest2 (clauses ++ [suite2]) clauses' rest' h
                  have hsplit : suite2 ++ rest2 = rest := collectSuite_split _ _ _ _ _ hcs
                  have helif : isElifHeader (rstripCR s2) = true := by
                    by_contra hx
                    exact hlif (by simpa using hx)
                  obtain ⟨t2, ht2⟩ := isElifHeader_head helif
                  have hneutral : ∀ a : Option Bool, scanStep a raw2 = a := fun a =>
                    scanStep_stripped_head a hs2 ht2 (by decide) (by decide)
                  refine ⟨suite2 :: suites2, raw2 :: (suite2 ++ consumed2), ?_, ?_, ?_, ?_⟩
                  · rw [hcl]
                    simp
                  · rw [List.cons_append, List.append_assoc, ← hrest, hsplit]
                  · intro l hl
                    rw [List.flatten_cons] at hl
                    rcases List.mem_append.mp hl with h1 | h1
                    · refine List.mem_cons_of_mem _ ?_
                      rw [← hsplit]
                      exact List.mem_append.mpr (Or.inl h1)
                    · refine List.mem_cons_of_mem _ ?_
                      rw [← hsplit]
                      exact List.mem_append.mpr (Or.inr (hmem l h1))
                  · intro a
                    rw [List.foldl_cons, hneutral a, List.foldl_append,
                      List.flatten_cons, List.foldl_append]
                    rw [hfold]

/-- The optional `else:` block: the consumed segment's pragma fold equals the
fold over the block (the header line is pragma-neutral). -/
theorem elseBlockOf_props : ∀ (ind : Nat) (rest : List (List Char))
    (opt : Option (List (List Char))) (rest' : List (List Char)),
    elseBlockOf ind rest = Except.ok (opt, rest') →
    ∃ consumed, rest = consumed ++ rest' ∧
      (∀ l ∈ opt.getD [], l ∈ rest) ∧
      ∀ a : Option Bool, List.foldl scanStep a consumed =
        List.foldl scanStep a (opt.getD []) := by
  intro ind rest opt rest' h
  match rest with
  | [] =>
    rw [elseBlockOf] at h
    cases h
    exact ⟨[], rfl, (by intro l hl; cases hl), fun a => rfl⟩
  | raw3 :: tl =>
    rw [elseBlockOf] at h
    split at h
    · cases h
      exact ⟨[], rfl, (by intro l hl; cases hl), fun a => rfl⟩
    · simp only [Bind.bind, Except.bind] at h
      split at h
      · exact absurd h (by simp)
      next ind3 hind3 =>
        split at h
        · exact absurd h (by simp)
        next s3 hs3 =>
          split at h
          next hcond =>
            split at h
            · exact absurd h (by simp)
            next pr hcs =>
              obtain ⟨blk, rest2⟩ := pr
              dsimp only at h
              cases h
              have hsplit : blk ++ rest' = tl := collectSuite_split _ _ _ _ _ hcs
              obtain ⟨t3, ht3⟩ := isElseHeader_head hcond.2
              have hneutral : ∀ a : Option Bool, scanStep a raw3 = a := fun a =>
                scanStep_stripped_head a hs3 ht3 (by decide) (by decide)
              refine ⟨raw3 :: blk, ?_, ?_, ?_⟩
              · rw [List.cons_append, hsplit]
              · intro l hl
                refine List.mem_cons_of_mem _ ?_
                rw [← hsplit]
                exact List.mem_append.mpr (Or.inl (by simpa using hl))
              · intro a
                rw [List.foldl_cons, hneutral a]
                rfl
          · cases h
            exact ⟨[], rfl, (by intro l hl; cases hl), fun a => rfl⟩

end Kyra

namespace Kyra

theorem termFree_of_all {l : List Char} (h : l.all (fun c => !isLineTerm c) = true) :
    termFree l := by
  intro c hc
  have := List.all_eq_true.mp h c hc
  simpa using this

/-- The emitted `instr_15(1, 0x00)` header line is pragma-neutral. -/
theorem scanStep_instr15 (ind : Nat) (a : Option Bool) :
    scanStep a (List.replicate ind '\t' ++
      ('i' :: 'n' :: 's' :: 't' :: 'r' :: '_' :: '1' :: '5' :: '(' :: '1' :: ',' :: ' ' :: '0' :: 'x' :: '0' :: '0' :: ')' :: [])) = a :=
  scanStep_tabs_head ind 'i' _ a (by decide) (by decide)

/-- The emitted `jmp(4, label)` line is pragma-neutral. -/
theorem scanStep_jmp_line (ind : Nat) (lab : List Char) (a : Option Bool) :
    scanStep a (List.replicate ind '\t' ++
      ('j' :: 'm' :: 'p' :: '(' :: '4' :: ',' :: ' ' :: []) ++ lab ++ (')' :: [])) = a := by
  apply scanStep_label_line ind 'j'
    (('m' :: 'p' :: '(' :: '4' :: ',' :: ' ' :: []) ++ lab ++ (')' :: [])) a (by decide) (by decide)
  simp

/-- An emitted `label:` line whose label starts with `i` is pragma-neutral. -/
theorem scanStep_label_colon (ind : Nat) (lab t : List Char) (hlab : lab = 'i' :: t)
    (a : Option Bool) :
    scanStep a (List.replicate ind '\t' ++ lab ++ (':'::[])) = a := by
  subst hlab
  apply scanStep_label_line ind 'i' (t ++ (':'::[])) a (by decide) (by decide)
  simp

theorem termFree_instr15 (ind : Nat) :
    termFree (List.replicate ind '\t' ++
      ('i' :: 'n' :: 's' :: 't' :: 'r' :: '_' :: '1' :: '5' :: '(' :: '1' :: ',' :: ' ' :: '0' :: 'x' :: '0' :: '0' :: ')' :: [])) :=
  termFree_append (termFree_tabs ind) (termFree_of_all (by decide))

theorem termFree_jmp_line (ind : Nat) (lab : List Char) (hlab : termFree lab) :
    termFree (List.replicate ind '\t' ++
      ('j' :: 'm' :: 'p' :: '(' :: '4' :: ',' :: ' ' :: []) ++ lab ++ (')' :: [])) :=
  termFree_append
    (termFree_append (termFree_append (termFree_tabs ind) (termFree_of_all (by decide))) hlab)
    (termFree_of_all (by decide))

theorem termFree_label_colon (ind : Nat) (lab : List Char) (hlab : termFree lab) :
    termFree (List.replicate ind '\t' ++ lab ++ (':'::[])) :=
  termFree_append (termFree_append (termFree_tabs ind) hlab) (termFree_of_all (by decide))

/-- The synthetic `if_else_N` label: shape and terminator-freeness. -/
theorem ifElseLabel_shape (n : Nat) :
    (∃ t, ('i' :: 'f' :: '_' :: 'e' :: 'l' :: 's' :: 'e' :: '_' :: []) ++ natStr n = 'i'  ::  t) ∧
      termFree (('i' :: 'f' :: '_' :: 'e' :: 'l' :: 's' :: 'e' :: '_' :: []) ++ natStr n) :=
  ⟨⟨_, rfl⟩, termFree_append (termFree_of_all (by decide)) (natStr_termfree n)⟩

/-- The synthetic `if_end_N` label: shape and terminator-freeness. -/
theorem ifEndLabel_shape (n : Nat) :
    (∃ t, ('i' :: 'f' :: '_' :: 'e' :: 'n' :: 'd' :: '_' :: []) ++ natStr n = 'i'  ::  t) ∧
      termFree (('i' :: 'f' :: '_' :: 'e' :: 'n' :: 'd' :: '_' :: []) ++ natStr n) :=
  ⟨⟨_, rfl⟩, termFree_append (termFree_of_all (by decide)) (natStr_termfree n)⟩

end Kyra

namespace Kyra

/-- The clause-emission loop of `process`: given that the clause-body
recursion preserves terminator-freeness and the pragma fold, the emitted
expansion is terminator-free and its pragma fold equals the fold over the
collected clause suites (all header, jump and label lines are neutral). -/
theorem emitIfClauses_props
    (recur : Nat → List (List Char) → Except String (List (List Char) × Nat))
    (hrec : ∀ (counter : Nat) (lines out : List (List Char)) (c2 : Nat),
      recur counter lines = Except.ok (out, c2) →
      (∀ l ∈ lines, termFree l) →
      (∀ l ∈ out, termFree l) ∧
        ∀ a : Option Bool, List.foldl scanStep a out = List.foldl scanStep a lines) :
    ∀ (clauses : List (List (List Char))) (nextLabel : List Char) (counter : Nat)
      (hasElse : Bool) (ind : Nat) (endLabel : List Char)
      (out : List (List Char)) (nl2 : List Char) (c2 : Nat),
      emitIfClauses recur clauses nextLabel counter hasElse ind endLabel =
        Except.ok (out, nl2, c2) →
      (∀ s ∈ clauses, ∀ l ∈ s, termFree l) →
      (∃ t, nextLabel = 'i' :: t) → termFree nextLabel →
      (∃ t, endLabel = 'i' :: t) → termFree endLabel →
      (∀ l ∈ out, termFree l) ∧
        ∀ a : Option Bool, List.foldl scanStep a out =
          List.foldl scanStep a clauses.flatten := by
  intro clauses
  induction clauses with
  | nil =>
    intro nextLabel counter hasElse ind endLabel out nl2 c2 h _ _ _ _ _
    rw [emitIfClauses] at h
    injection h with h
    injection h with e1 h
    injection h with e2 e3
    subst e1
    exact ⟨(by intro l hl; cases hl), fun a => rfl⟩
  | cons suite more ih =>
    intro nextLabel counter hasElse ind endLabel out nl2 c2 h hcl hnx hnxf hend hendf
    rw [emitIfClauses] at h
    simp only [Bind.bind, Except.bind] at h
    split at h
    · exact absurd h (by simp)
    next ded hded =>
      split at h
      · exact absurd h (by simp)
      next pr hpr =>
        obtain ⟨body, c1⟩ := pr
        dsimp only at h
        have hsuite : ∀ l ∈ suite, termFree l := hcl suite (List.mem_cons_self _ _)
        have hdedp := dedentOne_props suite ind ded hded hsuite
        have hbodyp := hrec counter ded body c1 hpr hdedp.1
        have hreinp := reindent_props body ind hbodyp.1
        split at h
        · exact absurd h (by simp)
        next pr2 hrec2 =>
          split at hrec2
          next hn =>
            obtain ⟨o2, nl', c'⟩ := pr2
            injection hrec2 with hrec2
            injection hrec2 with e1 hrec2
            injection hrec2 with e2 e3
            subst e1; subst e2; subst e3
            rw [if_pos hn] at h
            dsimp only at h
            split at h
            · exact absurd h (by simp)
            next pr3 hrec4 =>
              obtain ⟨outRest, nl3, c3⟩ := pr3
              dsimp only at h
              injection h with h
              injection h with f1 h
              injection h with f2 f3
              subst f1
              have hlab := ifElseLabel_shape c1
              have houtRest := ih _ _ _ _ _ _ _ _ hrec4
                (fun s hs => hcl s (List.mem_cons_of_mem _ hs))
                hlab.1 hlab.2 hend hendf
              obtain ⟨tnl, htnl⟩ := hnx
              constructor
              · intro x hx
                rcases List.mem_append.mp hx with hx | hxR
                · rcases List.mem_append.mp hx with hx | hxJL
                  · rcases List.mem_append.mp hx with hx | hxRein
                    · rcases List.mem_cons.mp hx with rfl | hx
                      · exact termFree_instr15 ind
                      · rcases List.mem_singleton.mp hx with rfl
                        exact termFree_jmp_line ind nextLabel hnxf
                    · exact hreinp.1 x hxRein
                  · rcases List.mem_cons.mp hxJL with rfl | hx
                    · exact termFree_jmp_line ind endLabel hendf
                    · rcases List.mem_singleton.mp hx with rfl
                      exact termFree_label_colon ind nextLabel hnxf
                · exact houtRest.1 x hxR
              · intro a
                rw [List.flatten_cons, List.foldl_append]
                simp only [List.foldl_append, List.foldl_cons, List.foldl_nil]
                rw [scanStep_instr15, scanStep_jmp_line, scanStep_jmp_line,
                  scanStep_label_colon ind nextLabel tnl htnl,
                  hreinp.2, hbodyp.2, hdedp.2, houtRest.2]
          next hn =>
            obtain ⟨o2, nl', c'⟩ := pr2
            injection hrec2 with hrec2
            injection hrec2 with e1 hrec2
            injection hrec2 with e2 e3
            subst e1; subst e2; subst e3
            rw [if_neg hn] at h
            dsimp only at h
            split at h
            · exact absurd h (by simp)
            next pr3 hrec4 =>
              obtain ⟨outRest, nl3, c3⟩ := pr3
              dsimp only at h
              injection h with h
              injection h with f1 h
              injection h with f2 f3
              subst f1
              have houtRest := ih _ _ _ _ _ _ _ _ hrec4
                (fun s hs => hcl s (List.mem_cons_of_mem _ hs))
                hnx hnxf hend hendf
              constructor
              · intro x hx
                rcases List.mem_append.mp hx with hx | hxR
                · rcases List.mem_append.mp hx with hx | hxJL
                  · rcases List.mem_append.mp hx with hx | hxRein
                    · rcases List.mem_cons.mp hx with rfl | hx
                      · exact termFree_instr15 ind
                      · rcases List.mem_singleton.mp hx with rfl
                        exact termFree_jmp_line ind endLabel hendf
                    · exact hreinp.1 x hxRein
                  · cases hxJL
                · exact houtRest.1 x hxR
              · intro a
                rw [List.flatten_cons, List.foldl_append]
                simp only [List.foldl_append, List.foldl_cons, List.foldl_nil]
                rw [scanStep_instr15, scanStep_jmp_line,
                  hreinp.2, hbodyp.2, hdedp.2, houtRest.2]

end Kyra

namespace Kyra

/-- `process` (the desugaring pass) preserves terminator-freeness of the
lines and the pragma fold: every emitted line is terminator-free, and
folding the pragma scan over the output equals folding it over the input. -/
theorem processDesugar_props : ∀ (fuel counter : Nat) (lines out : List (List Char)) (c2 : Nat),
    processDesugar fuel counter lines = Except.ok (out, c2) →
    (∀ l ∈ lines, termFree l) →
    (∀ l ∈ out, termFree l) ∧
      ∀ a : Option Bool, List.foldl scanStep a out = List.foldl scanStep a lines := by
  intro fuel
  induction fuel with
  | zero =>
    intro counter lines out c2 h _
    exact absurd h (by simp [processDesugar])
  | succ fuel ih =>
    intro counter lines out c2 h hlines
    match lines with
    | [] =>
      rw [processDesugar] at h
      injection h with h
      injection h with g1 g2
      subst g1
      exact ⟨(by intro l hl; cases hl), fun a => rfl⟩
    | raw :: rest =>
      have hrawTF : termFree raw := hlines raw (List.mem_cons_self _ _)
      have hrestTF : ∀ l ∈ rest, termFree l :=
        fun l hl => hlines l (List.mem_cons_of_mem _ hl)
      rw [processDesugar] at h
      split at h
      · simp only [Bind.bind, Except.bind] at h
        split at h
        · exact absurd h (by simp)
        next v hv =>
          obtain ⟨out0, c0⟩ := v
          dsimp only at h
          injection h with h
          injection h with g1 g2
          subst g1
          have h0 := ih counter rest out0 c0 hv hrestTF
          constructor
          · intro l hl
            rcases List.mem_cons.mp hl with rfl | hl
            · exact hrawTF
            · exact h0.1 l hl
          · intro a
            simp only [List.foldl_cons]
            exact h0.2 (scanStep a raw)
      next hblank =>
        simp only [Bind.bind, Except.bind] at h
        split at h
        · exact absurd h (by simp)
        next ind hind =>
          split at h
          · exact absurd h (by simp)
          next s0 hs0 =>
            split at h
            next hif =>
              split at h
              · exact absurd h (by simp)
              next prA hcsA =>
                obtain ⟨thenSuite, rest1⟩ := prA
                dsimp only at h
                split at h
                · exact absurd h (by simp)
                next prB hcsB =>
                  obtain ⟨clauses, rest2⟩ := prB
                  dsimp only at h
                  split at h
                  · exact absurd h (by simp)
                  next prC hcsC =>
                    obtain ⟨elseBlock, rest3⟩ := prC
                    dsimp only at h
                    split at h
                    · exact absurd h (by simp)
                    next prD hcsD =>
                      obtain ⟨outClauses, nlX, counterA⟩ := prD
                      dsimp only at h
                      have hsplitA : thenSuite ++ rest1 = rest :=
                        collectSuite_split _ _ _ _ _ hcsA
                      obtain ⟨suites, consumedE, hclEq, hrestE, hmemE, hfoldE⟩ :=
                        elifClausesLoop_props _ _ _ _ _ _ hcsB
                      obtain ⟨consumedL, hrestL, hmemL, hfoldL⟩ :=
                        elseBlockOf_props _ _ _ _ hcsC
                      obtain ⟨ti, hti⟩ := isIfHeader_head hif
                      have hraw : ∀ a : Option Bool, scanStep a raw = a := fun a =>
                        scanStep_stripped_head a hs0 hti (by decide) (by decide)
                      have hthenTF : ∀ l ∈ thenSuite, termFree l := fun l hl =>
                        hrestTF l (by
                          rw [← hsplitA]; exact List.mem_append.mpr (Or.inl hl))
                      have hrest1TF : ∀ l ∈ rest1, termFree l := fun l hl =>
                        hrestTF l (by
                          rw [← hsplitA]; exact List.mem_append.mpr (Or.inr hl))
                      have hrest2TF : ∀ l ∈ rest2, termFree l := fun l hl =>
                        hrest1TF l (by
                          rw [hrestE]; exact List.mem_append.mpr (Or.inr hl))
                      have hrest3TF : ∀ l ∈ rest3, termFree l := fun l hl =>
                        hrest2TF l (by
                          rw [hrestL]; exact List.mem_append.mpr (Or.inr hl))
                      have hclausesTF : ∀ s ∈ clauses, ∀ l ∈ s, termFree l := by
                        intro s hs l hl
                        rw [hclEq] at hs
                        rcases List.mem_append.mp hs with hs | hs
                        · rcases List.mem_singleton.mp hs with rfl
                          exact hthenTF l hl
                        · exact hrest1TF l (hmemE l (List.mem_flatten.mpr ⟨s, hs, hl⟩))
                      have hEIC := emitIfClauses_props (processDesugar fuel) ih
                        clauses _ _ _ _ _ _ _ _ hcsD hclausesTF
                        (ifElseLabel_shape (counter + 1)).1 (ifElseLabel_shape (counter + 1)).2
                        (ifEndLabel_shape counter).1 (ifEndLabel_shape counter).2
                      have hflatEq : clauses.flatten = thenSuite ++ suites.flatten := by
                        rw [hclEq]; simp
                      obtain ⟨te, hte⟩ := (ifEndLabel_shape counter).1
                      have hrest_eq : rest = thenSuite ++ (consumedE ++ (consumedL ++ rest3)) := by
                        rw [← hsplitA, hrestE, hrestL]
                      cases elseBlock with
                      | none =>
                        dsimp only at h
                        split at h
                        · exact absurd h (by simp)
                        next v hE =>
                          obtain ⟨outRest, counterB⟩ := v
                          dsimp only at h
                          injection h with h
                          injection h with g1 g2
                          subst g1
                          have houtRest := ih counterA rest3 outRest counterB hE hrest3TF
                          constructor
                          · intro x hx
                            rcases List.mem_append.mp hx with hx | hxR
                            · rcases List.mem_append.mp hx with hx | hxEnd
                              · rcases List.mem_append.mp hx with hx | hxNil
                                · exact hEIC.1 x hx
                                · cases hxNil
                              · rcases List.mem_singleton.mp hxEnd with rfl
                                exact termFree_label_colon ind _ (ifEndLabel_shape counter).2
                            · exact houtRest.1 x hxR
                          · intro a
                            rw [hrest_eq]
                            simp only [List.foldl_cons, List.foldl_append, List.foldl_nil]
                            rw [hraw, hEIC.2, hflatEq, List.foldl_append,
                              scanStep_label_colon ind _ te hte, houtRest.2, hfoldE, hfoldL]
                            simp only [Option.getD_none, List.foldl_nil]
                      | some blk =>
                        dsimp only at h
                        split at h
                        · exact absurd h (by simp)
                        next prOE hOE =>
                          obtain ⟨outElse, counterE⟩ := prOE
                          dsimp only at h
                          split at hOE
                          · exact absurd hOE (by simp)
                          next dedB hdedB =>
                            split at hOE
                            · exact absurd hOE (by simp)
                            next v2 hplow =>
                              obtain ⟨lowered, counterE2⟩ := v2
                              dsimp only at hOE
                              injection hOE with hOE
                              injection hOE with e1 e2
                              subst e1; subst e2
                              split at h
                              · exact absurd h (by simp)
                              next v3 hE =>
                                obtain ⟨outRest, counterB⟩ := v3
                                dsimp only at h
                                injection h with h
                                injection h with g1 g2
                                subst g1
                                have hblkTF : ∀ l ∈ blk, termFree l := fun l hl =>
                                  hrest2TF l (hmemL l hl)
                                have hdedBp := dedentOne_props blk ind dedB hdedB hblkTF
                                have hlowp := ih counterA dedB lowered counterE2 hplow hdedBp.1
                                have hreinBp := reindent_props lowered ind hlowp.1
                                have houtRest := ih counterE2 rest3 outRest counterB hE hrest3TF
                                constructor
                                · intro x hx
                                  rcases List.mem_append.mp hx with hx | hxR
                                  · rcases List.mem_append.mp hx with hx | hxEnd
                                    · rcases List.mem_append.mp hx with hx | hxRein
                                      · exact hEIC.1 x hx
                                      · exact hreinBp.1 x hxRein
                                    · rcases List.mem_singleton.mp hxEnd with rfl
                                      exact termFree_label_colon ind _ (ifEndLabel_shape counter).2
                                  · exact houtRest.1 x hxR
                                · intro a
                                  rw [hrest_eq]
                                  simp only [List.foldl_cons, List.foldl_append, List.foldl_nil]
                                  rw [hraw, hEIC.2, hflatEq, List.foldl_append,
                                    scanStep_label_colon ind _ te hte, houtRest.2,
                                    hreinBp.2, hlowp.2, hdedBp.2, hfoldE, hfoldL]
                                  simp only [Option.getD_some]
            next hnotif =>
              split at h
              · exact absurd h (by simp)
              next =>
                split at h
                · exact absurd h (by simp)
                next v hv =>
                  obtain ⟨out0, c0⟩ := v
                  dsimp only at h
                  injection h with h
                  injection h with g1 g2
                  subst g1
                  have h0 := ih counter rest out0 c0 hv hrestTF
                  constructor
                  · intro l hl
                    rcases List.mem_cons.mp hl with rfl | hl
                    · exact hrawTF
                    · exact h0.1 l hl
                  · intro a
                    simp only [List.foldl_cons]
                    exact h0.2 (scanStep a raw)

end Kyra

namespace Kyra

/-- Desugaring preserves the pragma scan over the source's lines. -/
theorem desugar_scan {src src2 : String}
    (h : desugar_structured_control_flow src = Except.ok src2) :
    scanTextPragma (pySplitlines src2.data) = scanTextPragma (pySplitlines src.data) := by
  unfold desugar_structured_control_flow at h
  simp only [Bind.bind, Except.bind] at h
  split at h
  · exact absurd h (by simp)
  next pr hpd =>
    obtain ⟨expanded, cF⟩ := pr
    dsimp only at h
    injection h with h
    subst h
    have hprops := processDesugar_props _ _ _ _ _ hpd (pySplitlines_termFree src.data)
    unfold scanTextPragma
    rw [splitlinesJoin_scan expanded _ (by split <;> simp) hprops.1 none]
    exact hprops.2 none

/-- `parse_program` records its `text_present` argument unchanged. -/
theorem parse_program_text_present {toks : List Token} {tp : Option Bool} {p : KyraProgram}
    (h : parse_program toks tp = Except.ok p) : p.text_present = tp := by
  unfold parse_program at h
  simp only [Bind.bind, Except.bind] at h
  split at h
  · exact absurd h (by simp)
  next pr h1 =>
    obtain ⟨strings, toks1⟩ := pr
    dsimp only at h
    split at h
    · exact absurd h (by simp)
    next pr2 h2 =>
      obtain ⟨pendingGlobals, toks2⟩ := pr2
      dsimp only at h
      split at h
      · exact absurd h (by simp)
      next st h3 =>
        split at h
        · exact absurd h (by simp)
        · split at h
          · exact absurd h (by simp)
          next order h4 =>
            split at h
            · exact absurd h (by simp)
            next pr3 h5 =>
              obtain ⟨data, used⟩ := pr3
              dsimp only at h
              split at h
              · exact absurd h (by simp)
              · injection h with h
                subst h
                rfl

/-- `_parse_kyra_source` records the pragma scan of its input. -/
theorem parse_kyra_source_text_present {src : String} {p : KyraProgram}
    (h : parse_kyra_source src = Except.ok p) :
    p.text_present = scanTextPragma (pySplitlines src.data) := by
  unfold parse_kyra_source at h
  simp only [Bind.bind, Except.bind] at h
  split at h
  · exact absurd h (by simp)
  next toks htoks =>
    exact parse_program_text_present h

/-- When no TEXT chunk is emitted, the strings are ignored by the emitter. -/
theorem emit_emc2_strings_irrel (form : Emc2Form) (h : form.text_present = false) :
    emit_emc2 form = emit_emc2 { form with strings := [] } := by
  obtain ⟨o, s, d, t⟩ := form
  simp only at h
  subst h
  rfl

/-- Every emitted container parses back, and the parsed form's TEXT-presence
flag equals the emitted form's flag. -/
theorem emit_parse_flag {form : Emc2Form} {b : Bytes} (h : emit_emc2 form = Except.ok b) :
    ∃ pform, parse_emc2 b = Except.ok pform ∧ pform.text_present = form.text_present := by
  cases htp : form.text_present with
  | false =>
    rw [emit_emc2_strings_irrel form htp] at h
    refine ⟨{ form with strings := [] }, parse_emit_id (fun _ => rfl) h, ?_⟩
    exact htp
  | true =>
    refine ⟨form, parse_emit_id ?_ h, htp⟩
    intro hfalse
    rw [htp] at hfalse
    cases hfalse

end Kyra

/-- C4: for every Kyra source accepted by `compile`, the emitted container's
TEXT-chunk presence (the `text_present` flag recovered by re-parsing the
container) is decided by the last `# text: present` / `# text: absent`
pragma comment line of the source (scanned over the source's lines before
desugaring), and when no pragma occurs, by whether the `strings = {...}`
dictionary of the parsed source is non-empty. -/
theorem compile_text_pragma (src : String) (bytes : Kyra.Bytes)
    (h : Kyra.compile src = Except.ok bytes) :
    ∃ src2 parsed pform,
      Kyra.desugar_structured_control_flow src = Except.ok src2 ∧
      Kyra.parse_kyra_source src2 = Except.ok parsed ∧
      Kyra.parse_emc2 bytes = Except.ok pform ∧
      pform.text_present =
        (match Kyra.scanTextPragma (Kyra.pySplitlines src.data) with
          | none => ¬ (parsed.strings.map Prod.snd).isEmpty
          | some b => b) := by
  unfold Kyra.compile at h
  simp only [Bind.bind, Except.bind] at h
  split at h
  · exact absurd h (by simp)
  next src2 hdes =>
    split at h
    · exact absurd h (by simp)
    next parsed hpar =>
      split at h
      · exact absurd h (by simp)
      · split at h
        · exact absurd h (by simp)
        next order2 hord =>
          split at h
          · exact absurd h (by simp)
          next data2 hdat =>
            obtain ⟨pform, hpf, hflag⟩ := Kyra.emit_parse_flag h
            refine ⟨src2, parsed, pform, hdes, hpar, hpf, ?_⟩
            rw [hflag]
            have htp := Kyra.parse_kyra_source_text_present hpar
            have hscan := Kyra.desugar_scan hdes
            show (match parsed.text_present with
              | none => ¬ (parsed.strings.map Prod.snd).isEmpty
              | some b => b : Bool) = _
            rw [htp, hscan]

/-- C4 witness: the minimal source with a `# text: present` pragma compiles,
and the emitted container carries a TEXT chunk (empty, since `strings` is
empty) because the pragma overrides the default. -/
theorem compile_text_pragma_witness :
    Kyra.compile Kyra.pragmaSourceText = Except.ok Kyra.pragmaSourceBytes ∧
    ∃ src2 parsed pform,
      Kyra.desugar_structured_control_flow Kyra.pragmaSourceText = Except.ok src2 ∧
      Kyra.parse_kyra_source src2 = Except.ok parsed ∧
      Kyra.parse_emc2 Kyra.pragmaSourceBytes = Except.ok pform ∧
      pform.text_present =
        (match Kyra.scanTextPragma (Kyra.pySplitlines Kyra.pragmaSourceText.data) with
          | none => ¬ (parsed.strings.map Prod.snd).isEmpty
          | some b => b) :=
  ⟨rfl, compile_text_pragma Kyra.pragmaSourceText Kyra.pragmaSourceBytes rfl⟩
